import Mathlib

/-!
Verification of the rucbase storage-engine core against its specification.

The definitions below are a shallow embedding of the C++ sources:
  * `src/transaction/concurrency/lock_manager.cpp` (multi-granularity lock table),
  * `src/record/rm_file_handle.cpp` (slotted-page heap file),
  * `src/index/ix_index_handle.cpp` (B+tree index),
  * `src/transaction/transaction_manager.cpp` (begin/commit/abort with undo list),
  * `src/execution/executor_insert.h`, `executor_delete.h`, `executor_update.h`,
    `executor_nestedloop_join.h` (volcano DML operators).

Machine integers of the source are modelled as `Int`/`Nat` (no arithmetic in the
modelled fragments overflows), byte buffers as lists, and C++ exceptions as
explicit error results.  Constants that live in headers outside the provided
sources (`RM_NO_PAGE`, `RM_FIRST_RECORD_PAGE`, `IX_NO_PAGE`,
`IX_LEAF_HEADER_PAGE`) are taken from the specification's layout sections.
-/

/-! ## Lock manager (`lock_manager.cpp`) -/

/-- Lock modes, names as in the source (including the `EXLUCSIVE` spelling). -/
inductive LockMode where
  | INTENTION_SHARED
  | INTENTION_EXCLUSIVE
  | SHARED
  | EXLUCSIVE
  | S_IX
  deriving DecidableEq, Repr, Fintype

/-- Group lock mode of a request queue. -/
inductive GroupLockMode where
  | NON_LOCK
  | IS
  | IX
  | S
  | SIX
  | X
  deriving DecidableEq, Repr, Fintype

/-- Transaction states. -/
inductive TransactionState where
  | GROWING
  | SHRINKING
  | COMMITTED
  | ABORTED
  deriving DecidableEq, Repr

/-- Abort reasons thrown by the lock manager (spelling as in the source). -/
inductive AbortReason where
  | LOCK_ON_SHIRINKING
  | DEADLOCK_PREVENTION
  deriving DecidableEq, Repr

/-- One request in a lock queue (`LockRequest`). -/
structure LockRequest where
  txn_id : Nat
  lock_mode : LockMode
  granted : Bool
  deriving DecidableEq, Repr

/-- A lock-table entry: request queue plus cached group mode (`LockRequestQueue`). -/
structure LockRequestQueue where
  request_queue : List LockRequest
  group_lock_mode : GroupLockMode
  deriving DecidableEq, Repr

/-- Result of one acquisition call: success returns the updated queue and whether
the lock id was inserted into the transaction's lock set; failure is the thrown
`TransactionAbortException` reason, leaving the queue untouched. -/
inductive LockResult where
  | ok (q : LockRequestQueue) (addedToLockSet : Bool)
  | abort (reason : AbortReason)
  deriving DecidableEq, Repr

/-- Outcome of the `for (auto& req : request_queue_)` loops: fall through the
loop, early-return `true` with (possibly updated) queue contents and group
mode (`none` = group unchanged), or throw `DEADLOCK_PREVENTION`. -/
inductive ScanRes where
  | fall
  | ret (reqs : List LockRequest) (g : Option GroupLockMode)
  | err
  deriving DecidableEq, Repr

/-- Prepend the already-scanned element to a loop outcome. -/
def scanCons (r : LockRequest) : ScanRes → ScanRes
  | .fall => .fall
  | .ret reqs g => .ret (r :: reqs) g
  | .err => .err

/-- Loop of `lock_shared_on_record` (Step 5): early-return when the transaction
already holds an S or X request; otherwise keep scanning. -/
def sharedRecordLoop (tid : Nat) : List LockRequest → ScanRes
  | [] => .fall
  | r :: rs =>
    if r.txn_id = tid ∧ (r.lock_mode = .SHARED ∨ r.lock_mode = .EXLUCSIVE) then
      .ret (r :: rs) none
    else scanCons r (sharedRecordLoop tid rs)

/-- Loop of `lock_exclusive_on_record` (Step 5): return on held X; upgrade a held
S to X when the queue holds exactly one request, else throw. -/
def exclusiveRecordLoop (tid : Nat) (qsize : Nat) : List LockRequest → ScanRes
  | [] => .fall
  | r :: rs =>
    if r.txn_id = tid then
      if r.lock_mode = .EXLUCSIVE then .ret (r :: rs) none
      else if r.lock_mode = .SHARED then
        if qsize = 1 then .ret ({ r with lock_mode := .EXLUCSIVE } :: rs) (some .X)
        else .err
      else scanCons r (exclusiveRecordLoop tid qsize rs)
    else scanCons r (exclusiveRecordLoop tid qsize rs)

/-- Loop of `lock_shared_on_table` (Step 4).  `g` is the queue's group mode and
`onlyCur` the result of the inner only-current-transaction check (no other
transaction has a granted request). -/
def sharedTableLoop (tid : Nat) (g : GroupLockMode) (onlyCur : Bool) :
    List LockRequest → ScanRes
  | [] => .fall
  | r :: rs =>
    if r.txn_id = tid then
      if r.lock_mode = .SHARED ∨ r.lock_mode = .EXLUCSIVE ∨ r.lock_mode = .S_IX then
        .ret (r :: rs) none
      else if r.lock_mode = .INTENTION_SHARED then
        if (g = .IX ∨ g = .X ∨ g = .SIX) ∧ onlyCur = false then .err
        else .ret ({ r with lock_mode := .SHARED } :: rs) (some .S)
      else if r.lock_mode = .INTENTION_EXCLUSIVE then
        if (g = .IX ∨ g = .X ∨ g = .SIX) ∧ onlyCur = false then .err
        else .ret ({ r with lock_mode := .S_IX } :: rs) (some .SIX)
      else scanCons r (sharedTableLoop tid g onlyCur rs)
    else scanCons r (sharedTableLoop tid g onlyCur rs)

/-- Loop of `lock_exclusive_on_table` (Step 4): return on held X; upgrade any
other held mode to X when the requester is alone in the queue, else throw. -/
def exclusiveTableLoop (tid : Nat) (qsize : Nat) : List LockRequest → ScanRes
  | [] => .fall
  | r :: rs =>
    if r.txn_id = tid then
      if r.lock_mode = .EXLUCSIVE then .ret (r :: rs) none
      else if qsize = 1 then .ret ({ r with lock_mode := .EXLUCSIVE } :: rs) (some .X)
      else .err
    else scanCons r (exclusiveTableLoop tid qsize rs)

/-- Loop of `lock_IS_on_table` (Step 4): any held lock satisfies an IS request. -/
def isTableLoop (tid : Nat) : List LockRequest → ScanRes
  | [] => .fall
  | r :: rs =>
    if r.txn_id = tid then .ret (r :: rs) none
    else scanCons r (isTableLoop tid rs)

/-- Loop of `lock_IX_on_table` (Step 4). -/
def ixTableLoop (tid : Nat) (g : GroupLockMode) (onlyCur : Bool) :
    List LockRequest → ScanRes
  | [] => .fall
  | r :: rs =>
    if r.txn_id = tid then
      if r.lock_mode = .INTENTION_EXCLUSIVE ∨ r.lock_mode = .EXLUCSIVE ∨
          r.lock_mode = .S_IX then
        .ret (r :: rs) none
      else if r.lock_mode = .INTENTION_SHARED then
        if (g = .S ∨ g = .X ∨ g = .SIX) ∧ onlyCur = false then .err
        else
          .ret ({ r with lock_mode := .INTENTION_EXCLUSIVE } :: rs)
            (if g = .IS ∨ g = .NON_LOCK then some .IX else none)
      else if r.lock_mode = .SHARED then
        if (g = .IX ∨ g = .X ∨ g = .SIX) ∧ onlyCur = false then .err
        else .ret ({ r with lock_mode := .S_IX } :: rs) (some .SIX)
      else scanCons r (ixTableLoop tid g onlyCur rs)
    else scanCons r (ixTableLoop tid g onlyCur rs)

/-- The only-current-transaction check used inside the upgrade branches:
true iff no other transaction has a granted request in the queue. -/
def onlyCurrentTxn (tid : Nat) (reqs : List LockRequest) : Bool :=
  !(reqs.any fun r => r.txn_id ≠ tid ∧ r.granted)

/-- `lock_shared_on_record`. -/
def lock_shared_on_record (st : TransactionState) (tid : Nat)
    (q : LockRequestQueue) : LockResult :=
  if st = .SHRINKING then .abort .LOCK_ON_SHIRINKING
  else
    match sharedRecordLoop tid q.request_queue with
    | .ret reqs g => .ok ⟨reqs, g.getD q.group_lock_mode⟩ false
    | .err => .abort .DEADLOCK_PREVENTION
    | .fall =>
      if q.group_lock_mode = .X then .abort .DEADLOCK_PREVENTION
      else
        let g :=
          if q.group_lock_mode = .NON_LOCK ∨ q.group_lock_mode = .IS then
            GroupLockMode.S
          else if q.group_lock_mode = .IX then .SIX
          else q.group_lock_mode
        .ok ⟨q.request_queue ++ [⟨tid, .SHARED, true⟩], g⟩ true

/-- `lock_exclusive_on_record`. -/
def lock_exclusive_on_record (st : TransactionState) (tid : Nat)
    (q : LockRequestQueue) : LockResult :=
  if st = .SHRINKING then .abort .LOCK_ON_SHIRINKING
  else
    match exclusiveRecordLoop tid q.request_queue.length q.request_queue with
    | .ret reqs g => .ok ⟨reqs, g.getD q.group_lock_mode⟩ false
    | .err => .abort .DEADLOCK_PREVENTION
    | .fall =>
      if q.group_lock_mode ≠ .NON_LOCK then .abort .DEADLOCK_PREVENTION
      else .ok ⟨q.request_queue ++ [⟨tid, .EXLUCSIVE, true⟩], .X⟩ true

/-- `lock_shared_on_table`. -/
def lock_shared_on_table (st : TransactionState) (tid : Nat)
    (q : LockRequestQueue) : LockResult :=
  if st = .SHRINKING then .abort .LOCK_ON_SHIRINKING
  else
    match sharedTableLoop tid q.group_lock_mode
        (onlyCurrentTxn tid q.request_queue) q.request_queue with
    | .ret reqs g => .ok ⟨reqs, g.getD q.group_lock_mode⟩ false
    | .err => .abort .DEADLOCK_PREVENTION
    | .fall =>
      if q.group_lock_mode = .IX ∨ q.group_lock_mode = .X ∨
          q.group_lock_mode = .SIX then
        .abort .DEADLOCK_PREVENTION
      else
        let g :=
          if q.group_lock_mode = .NON_LOCK ∨ q.group_lock_mode = .IS then
            GroupLockMode.S
          else q.group_lock_mode
        .ok ⟨q.request_queue ++ [⟨tid, .SHARED, true⟩], g⟩ true

/-- `lock_exclusive_on_table`. -/
def lock_exclusive_on_table (st : TransactionState) (tid : Nat)
    (q : LockRequestQueue) : LockResult :=
  if st = .SHRINKING then .abort .LOCK_ON_SHIRINKING
  else
    match exclusiveTableLoop tid q.request_queue.length q.request_queue with
    | .ret reqs g => .ok ⟨reqs, g.getD q.group_lock_mode⟩ false
    | .err => .abort .DEADLOCK_PREVENTION
    | .fall =>
      if q.group_lock_mode ≠ .NON_LOCK then .abort .DEADLOCK_PREVENTION
      else .ok ⟨q.request_queue ++ [⟨tid, .EXLUCSIVE, true⟩], .X⟩ true

/-- `lock_IS_on_table`. -/
def lock_IS_on_table (st : TransactionState) (tid : Nat)
    (q : LockRequestQueue) : LockResult :=
  if st = .SHRINKING then .abort .LOCK_ON_SHIRINKING
  else
    match isTableLoop tid q.request_queue with
    | .ret reqs g => .ok ⟨reqs, g.getD q.group_lock_mode⟩ false
    | .err => .abort .DEADLOCK_PREVENTION
    | .fall =>
      if q.group_lock_mode = .X then .abort .DEADLOCK_PREVENTION
      else
        let g :=
          if q.group_lock_mode = .NON_LOCK then GroupLockMode.IS
          else q.group_lock_mode
        .ok ⟨q.request_queue ++ [⟨tid, .INTENTION_SHARED, true⟩], g⟩ true

/-- `lock_IX_on_table`. -/
def lock_IX_on_table (st : TransactionState) (tid : Nat)
    (q : LockRequestQueue) : LockResult :=
  if st = .SHRINKING then .abort .LOCK_ON_SHIRINKING
  else
    match ixTableLoop tid q.group_lock_mode
        (onlyCurrentTxn tid q.request_queue) q.request_queue with
    | .ret reqs g => .ok ⟨reqs, g.getD q.group_lock_mode⟩ false
    | .err => .abort .DEADLOCK_PREVENTION
    | .fall =>
      if q.group_lock_mode = .S ∨ q.group_lock_mode = .X ∨
          q.group_lock_mode = .SIX then
        .abort .DEADLOCK_PREVENTION
      else
        let g :=
          if q.group_lock_mode = .NON_LOCK ∨ q.group_lock_mode = .IS then
            GroupLockMode.IX
          else q.group_lock_mode
        .ok ⟨q.request_queue ++ [⟨tid, .INTENTION_EXCLUSIVE, true⟩], g⟩ true

/-- Remove the first request of transaction `tid` (the `erase` in `unlock`);
`none` when the transaction holds no request. -/
def eraseFirstReq (tid : Nat) : List LockRequest → Option (List LockRequest)
  | [] => none
  | r :: rs =>
    if r.txn_id = tid then some rs
    else (eraseFirstReq tid rs).map (r :: ·)

/-- One step of the group-mode recomputation switch in `unlock` (Step 4). -/
def recomputeStep (g : GroupLockMode) (r : LockRequest) : GroupLockMode :=
  if r.granted = false then g
  else
    match r.lock_mode with
    | .EXLUCSIVE => .X
    | .S_IX => if g ≠ .X then .SIX else g
    | .SHARED =>
      if g = .NON_LOCK ∨ g = .IS then .S
      else if g = .IX then .SIX
      else g
    | .INTENTION_EXCLUSIVE =>
      if g = .NON_LOCK ∨ g = .IS then .IX
      else if g = .S then .SIX
      else g
    | .INTENTION_SHARED =>
      if g = .NON_LOCK then .IS else g

/-- `unlock`: remove the transaction's request and recompute the group mode;
returns `false` (queue unchanged) when the transaction holds no request.
The caller also moves the transaction to `SHRINKING`. -/
def unlock (tid : Nat) (q : LockRequestQueue) : Bool × LockRequestQueue :=
  match eraseFirstReq tid q.request_queue with
  | none => (false, q)
  | some reqs => (true, ⟨reqs, reqs.foldl recomputeStep .NON_LOCK⟩)

/-! ### The multi-granularity lattice and the group-mode invariant -/

/-- Embed a request mode into the group-mode lattice. -/
def modeGroup : LockMode → GroupLockMode
  | .INTENTION_SHARED => .IS
  | .INTENTION_EXCLUSIVE => .IX
  | .SHARED => .S
  | .S_IX => .SIX
  | .EXLUCSIVE => .X

/-- Join in the multi-granularity lattice
`NON_LOCK < IS < {S, IX} < SIX < X` with `S ⊔ IX = SIX`. -/
def gjoin : GroupLockMode → GroupLockMode → GroupLockMode
  | .NON_LOCK, b => b
  | a, .NON_LOCK => a
  | .X, _ => .X
  | _, .X => .X
  | .SIX, _ => .SIX
  | _, .SIX => .SIX
  | .S, .IX => .SIX
  | .IX, .S => .SIX
  | .S, _ => .S
  | _, .S => .S
  | .IX, _ => .IX
  | _, .IX => .IX
  | .IS, .IS => .IS

/-- Lattice join of the modes of all granted requests in a queue. -/
def grantedJoin (reqs : List LockRequest) : GroupLockMode :=
  reqs.foldl (fun g r => if r.granted then gjoin g (modeGroup r.lock_mode) else g)
    .NON_LOCK

/-- The lock invariant of the spec: the cached group mode is the join of all
granted modes in the queue. -/
def groupInv (q : LockRequestQueue) : Prop :=
  q.group_lock_mode = grantedJoin q.request_queue

/-- The compatibility matrix of the spec (rows: current group mode, columns:
requested mode). -/
def compatible : GroupLockMode → LockMode → Bool
  | .NON_LOCK, _ => true
  | .IS, m => m ≠ .EXLUCSIVE
  | .IX, m => m = .INTENTION_SHARED ∨ m = .INTENTION_EXCLUSIVE
  | .S, m => m = .INTENTION_SHARED ∨ m = .SHARED
  | .SIX, m => m = .INTENTION_SHARED
  | .X, _ => false

/-- Mode `a` is at least as strong as `b` in the lattice. -/
def modeGe (a b : LockMode) : Bool :=
  gjoin (modeGroup a) (modeGroup b) = modeGroup a

/-- Every request in the list is granted (the source grants immediately on
every append, so this holds in every reachable queue). -/
def allGranted (reqs : List LockRequest) : Prop :=
  ∀ r ∈ reqs, r.granted = true

/-- Each transaction owns at most one request in the queue. -/
def uniqueTxn (reqs : List LockRequest) : Prop :=
  reqs.Pairwise (fun a b => a.txn_id ≠ b.txn_id)

/-- Record-lock queues only ever receive S and X requests
(`lock_shared_on_record` / `lock_exclusive_on_record` are the only writers). -/
def recordModes (reqs : List LockRequest) : Prop :=
  ∀ r ∈ reqs, r.lock_mode = .SHARED ∨ r.lock_mode = .EXLUCSIVE

/-- Well-formedness of a queue; `isRec` tells whether it sits on a RECORD id. -/
def WfQueue (isRec : Bool) (q : LockRequestQueue) : Prop :=
  groupInv q ∧ allGranted q.request_queue ∧ uniqueTxn q.request_queue ∧
    (isRec = true → recordModes q.request_queue)

/-- The five acquisition entry points. -/
inductive AcqOp where
  | sharedRec
  | exclRec
  | sharedTab
  | exclTab
  | isTab
  | ixTab
  deriving DecidableEq, Repr

/-- Whether the operation targets a RECORD-granularity id. -/
def AcqOp.isRec : AcqOp → Bool
  | .sharedRec => true
  | .exclRec => true
  | _ => false

/-- The mode requested by the operation. -/
def AcqOp.mode : AcqOp → LockMode
  | .sharedRec => .SHARED
  | .exclRec => .EXLUCSIVE
  | .sharedTab => .SHARED
  | .exclTab => .EXLUCSIVE
  | .isTab => .INTENTION_SHARED
  | .ixTab => .INTENTION_EXCLUSIVE

/-- Dispatch to the five acquisition functions. -/
def applyAcq : AcqOp → TransactionState → Nat → LockRequestQueue → LockResult
  | .sharedRec => lock_shared_on_record
  | .exclRec => lock_exclusive_on_record
  | .sharedTab => lock_shared_on_table
  | .exclTab => lock_exclusive_on_table
  | .isTab => lock_IS_on_table
  | .ixTab => lock_IX_on_table

/-- All six lock-manager operations. -/
inductive LockOp where
  | acq (op : AcqOp)
  | unl
  deriving DecidableEq, Repr

/-- Record-granularity flag for a lock-manager operation (`unlock` poses no
granularity constraint). -/
def LockOp.isRec : LockOp → Bool
  | .acq op => op.isRec
  | .unl => false

/-- The queue after running a lock-manager operation; a thrown
`TransactionAbortException` leaves the queue as it was. -/
def queueAfter : LockOp → TransactionState → Nat → LockRequestQueue →
    LockRequestQueue
  | .acq op, st, tid, q =>
    match applyAcq op st tid q with
    | .ok q1 _ => q1
    | .abort _ => q
  | .unl, _, tid, q => (unlock tid q).2

/-! ### Lattice and fold lemmas -/

/-- One fold step of `grantedJoin`. -/
def grantedStep (g : GroupLockMode) (r : LockRequest) : GroupLockMode :=
  if r.granted then gjoin g (modeGroup r.lock_mode) else g

theorem gjoin_nonlock_right (g : GroupLockMode) : gjoin g .NON_LOCK = g := by
  cases g <;> rfl

theorem gjoin_nonlock_left (g : GroupLockMode) : gjoin .NON_LOCK g = g := by
  cases g <;> rfl

theorem gjoin_assoc (a b c : GroupLockMode) :
    gjoin (gjoin a b) c = gjoin a (gjoin b c) := by
  revert a b c; decide

theorem grantedJoin_def (l : List LockRequest) :
    grantedJoin l = l.foldl grantedStep .NON_LOCK := rfl

theorem foldl_grantedStep (l : List LockRequest) (g : GroupLockMode) :
    l.foldl grantedStep g = gjoin g (grantedJoin l) := by
  induction l generalizing g with
  | nil => simp [grantedJoin, gjoin_nonlock_right]
  | cons r rs ih =>
    simp only [List.foldl_cons, grantedJoin_def] at *
    rw [ih, ih (grantedStep .NON_LOCK r)]
    unfold grantedStep
    cases hr : r.granted <;>
      simp [gjoin_nonlock_left, gjoin_assoc]

theorem grantedJoin_cons_granted {r : LockRequest} (l : List LockRequest)
    (hg : r.granted = true) :
    grantedJoin (r :: l) = gjoin (modeGroup r.lock_mode) (grantedJoin l) := by
  rw [grantedJoin_def, List.foldl_cons, foldl_grantedStep]
  simp [grantedStep, hg, gjoin_nonlock_left]

theorem grantedJoin_cons_not {r : LockRequest} (l : List LockRequest)
    (hg : r.granted = false) :
    grantedJoin (r :: l) = grantedJoin l := by
  rw [grantedJoin_def, List.foldl_cons, foldl_grantedStep]
  simp [grantedStep, hg, gjoin_nonlock_left]

theorem grantedJoin_append (l1 l2 : List LockRequest) :
    grantedJoin (l1 ++ l2) = gjoin (grantedJoin l1) (grantedJoin l2) := by
  rw [grantedJoin_def, List.foldl_append, foldl_grantedStep]
  rfl

/-- Joining a granted member's mode into the join of its list is absorbed. -/
theorem grantedJoin_absorb {x : LockRequest} {l : List LockRequest}
    (hx : x ∈ l) (hg : x.granted = true) :
    gjoin (grantedJoin l) (modeGroup x.lock_mode) = grantedJoin l := by
  obtain ⟨a, b, rfl⟩ := List.append_of_mem hx
  rw [grantedJoin_append, grantedJoin_cons_granted _ hg]
  generalize grantedJoin a = JA
  generalize grantedJoin b = JB
  revert JA JB
  cases x.lock_mode <;> decide

/-- Closure: a list whose modes are all S or X joins to NON_LOCK, S or X. -/
theorem grantedJoin_recordModes {l : List LockRequest} (h : recordModes l) :
    grantedJoin l = .NON_LOCK ∨ grantedJoin l = .S ∨ grantedJoin l = .X := by
  induction l with
  | nil => left; rfl
  | cons r rs ih =>
    have ih1 := ih fun x hx => h x (by simp [hx])
    cases hg : r.granted
    · rw [grantedJoin_cons_not _ hg]; exact ih1
    · rw [grantedJoin_cons_granted _ hg]
      rcases h r (by simp) with hm | hm <;> rw [hm] <;>
        rcases ih1 with h1 | h1 | h1 <;> rw [h1] <;> decide

/-- Closure: granted modes all in {IS, IX} join to NON_LOCK, IS or IX. -/
theorem grantedJoin_intention {l : List LockRequest}
    (h : ∀ r ∈ l, r.granted = true →
      r.lock_mode = .INTENTION_SHARED ∨ r.lock_mode = .INTENTION_EXCLUSIVE) :
    grantedJoin l = .NON_LOCK ∨ grantedJoin l = .IS ∨ grantedJoin l = .IX := by
  induction l with
  | nil => left; rfl
  | cons r rs ih =>
    have ih1 := ih fun x hx => h x (by simp [hx])
    cases hg : r.granted
    · rw [grantedJoin_cons_not _ hg]; exact ih1
    · rw [grantedJoin_cons_granted _ hg]
      rcases h r (by simp) hg with hm | hm <;> rw [hm] <;>
        rcases ih1 with h1 | h1 | h1 <;> rw [h1] <;> decide

/-- Closure: granted modes all in {IS, S} join to NON_LOCK, IS or S. -/
theorem grantedJoin_isOrS {l : List LockRequest}
    (h : ∀ r ∈ l, r.granted = true →
      r.lock_mode = .INTENTION_SHARED ∨ r.lock_mode = .SHARED) :
    grantedJoin l = .NON_LOCK ∨ grantedJoin l = .IS ∨ grantedJoin l = .S := by
  induction l with
  | nil => left; rfl
  | cons r rs ih =>
    have ih1 := ih fun x hx => h x (by simp [hx])
    cases hg : r.granted
    · rw [grantedJoin_cons_not _ hg]; exact ih1
    · rw [grantedJoin_cons_granted _ hg]
      rcases h r (by simp) hg with hm | hm <;> rw [hm] <;>
        rcases ih1 with h1 | h1 | h1 <;> rw [h1] <;> decide

/-! ### Loop characterization lemmas -/

/-- No request of the transaction appears in the list. -/
def noTxn (tid : Nat) (l : List LockRequest) : Prop :=
  ∀ r ∈ l, r.txn_id ≠ tid

/-- `scanCons` folded over a prefix. -/
def scanConsList (l : List LockRequest) (s : ScanRes) : ScanRes :=
  l.foldr scanCons s

theorem scanConsList_nil (s : ScanRes) : scanConsList [] s = s := rfl

theorem scanConsList_cons (r : LockRequest) (l : List LockRequest) (s : ScanRes) :
    scanConsList (r :: l) s = scanCons r (scanConsList l s) := rfl

theorem scanConsList_fall (l : List LockRequest) :
    scanConsList l .fall = .fall := by
  induction l with
  | nil => rfl
  | cons r rs ih => rw [scanConsList_cons, ih]; rfl

theorem scanConsList_ret (l : List LockRequest) (reqs : List LockRequest)
    (g : Option GroupLockMode) :
    scanConsList l (.ret reqs g) = .ret (l ++ reqs) g := by
  induction l with
  | nil => rfl
  | cons r rs ih => rw [scanConsList_cons, ih]; rfl

theorem scanConsList_err (l : List LockRequest) :
    scanConsList l .err = .err := by
  induction l with
  | nil => rfl
  | cons r rs ih => rw [scanConsList_cons, ih]; rfl

theorem sharedRecordLoop_append {tid : Nat} {l1 : List LockRequest}
    (l2 : List LockRequest) (h : noTxn tid l1) :
    sharedRecordLoop tid (l1 ++ l2) = scanConsList l1 (sharedRecordLoop tid l2) := by
  induction l1 with
  | nil => rfl
  | cons r rs ih =>
    have hr : r.txn_id ≠ tid := h r (by simp)
    rw [List.cons_append, scanConsList_cons, ← ih fun x hx => h x (by simp [hx]),
      sharedRecordLoop, if_neg (by simp [hr])]

theorem exclusiveRecordLoop_append {tid : Nat} {qsize : Nat}
    {l1 : List LockRequest} (l2 : List LockRequest) (h : noTxn tid l1) :
    exclusiveRecordLoop tid qsize (l1 ++ l2) =
      scanConsList l1 (exclusiveRecordLoop tid qsize l2) := by
  induction l1 with
  | nil => rfl
  | cons r rs ih =>
    have hr : r.txn_id ≠ tid := h r (by simp)
    rw [List.cons_append, scanConsList_cons, ← ih fun x hx => h x (by simp [hx]),
      exclusiveRecordLoop, if_neg hr]

theorem sharedTableLoop_append {tid : Nat} {g : GroupLockMode} {oc : Bool}
    {l1 : List LockRequest} (l2 : List LockRequest) (h : noTxn tid l1) :
    sharedTableLoop tid g oc (l1 ++ l2) =
      scanConsList l1 (sharedTableLoop tid g oc l2) := by
  induction l1 with
  | nil => rfl
  | cons r rs ih =>
    have hr : r.txn_id ≠ tid := h r (by simp)
    rw [List.cons_append, scanConsList_cons, ← ih fun x hx => h x (by simp [hx]),
      sharedTableLoop, if_neg hr]

theorem exclusiveTableLoop_append {tid : Nat} {qsize : Nat}
    {l1 : List LockRequest} (l2 : List LockRequest) (h : noTxn tid l1) :
    exclusiveTableLoop tid qsize (l1 ++ l2) =
      scanConsList l1 (exclusiveTableLoop tid qsize l2) := by
  induction l1 with
  | nil => rfl
  | cons r rs ih =>
    have hr : r.txn_id ≠ tid := h r (by simp)
    rw [List.cons_append, scanConsList_cons, ← ih fun x hx => h x (by simp [hx]),
      exclusiveTableLoop, if_neg hr]

theorem isTableLoop_append {tid : Nat} {l1 : List LockRequest}
    (l2 : List LockRequest) (h : noTxn tid l1) :
    isTableLoop tid (l1 ++ l2) = scanConsList l1 (isTableLoop tid l2) := by
  induction l1 with
  | nil => rfl
  | cons r rs ih =>
    have hr : r.txn_id ≠ tid := h r (by simp)
    rw [List.cons_append, scanConsList_cons, ← ih fun x hx => h x (by simp [hx]),
      isTableLoop, if_neg hr]

theorem ixTableLoop_append {tid : Nat} {g : GroupLockMode} {oc : Bool}
    {l1 : List LockRequest} (l2 : List LockRequest) (h : noTxn tid l1) :
    ixTableLoop tid g oc (l1 ++ l2) =
      scanConsList l1 (ixTableLoop tid g oc l2) := by
  induction l1 with
  | nil => rfl
  | cons r rs ih =>
    have hr : r.txn_id ≠ tid := h r (by simp)
    rw [List.cons_append, scanConsList_cons, ← ih fun x hx => h x (by simp [hx]),
      ixTableLoop, if_neg hr]

theorem sharedRecordLoop_fall {tid : Nat} {l : List LockRequest}
    (h : noTxn tid l) : sharedRecordLoop tid l = .fall := by
  have h2 := @sharedRecordLoop_append tid l [] h
  rw [List.append_nil] at h2
  rw [h2]
  exact scanConsList_fall l

theorem exclusiveRecordLoop_fall {tid qsize : Nat} {l : List LockRequest}
    (h : noTxn tid l) : exclusiveRecordLoop tid qsize l = .fall := by
  have h2 := @exclusiveRecordLoop_append tid qsize l [] h
  rw [List.append_nil] at h2
  rw [h2]
  exact scanConsList_fall l

theorem sharedTableLoop_fall {tid : Nat} {g : GroupLockMode} {oc : Bool}
    {l : List LockRequest} (h : noTxn tid l) :
    sharedTableLoop tid g oc l = .fall := by
  have h2 := @sharedTableLoop_append tid g oc l [] h
  rw [List.append_nil] at h2
  rw [h2]
  exact scanConsList_fall l

theorem exclusiveTableLoop_fall {tid qsize : Nat} {l : List LockRequest}
    (h : noTxn tid l) : exclusiveTableLoop tid qsize l = .fall := by
  have h2 := @exclusiveTableLoop_append tid qsize l [] h
  rw [List.append_nil] at h2
  rw [h2]
  exact scanConsList_fall l

theorem isTableLoop_fall {tid : Nat} {l : List LockRequest}
    (h : noTxn tid l) : isTableLoop tid l = .fall := by
  have h2 := @isTableLoop_append tid l [] h
  rw [List.append_nil] at h2
  rw [h2]
  exact scanConsList_fall l

theorem ixTableLoop_fall {tid : Nat} {g : GroupLockMode} {oc : Bool}
    {l : List LockRequest} (h : noTxn tid l) :
    ixTableLoop tid g oc l = .fall := by
  have h2 := @ixTableLoop_append tid g oc l [] h
  rw [List.append_nil] at h2
  rw [h2]
  exact scanConsList_fall l

/-! ### Behaviour with no prior request of the transaction -/

theorem lock_shared_on_record_noReq (st : TransactionState) (tid : Nat)
    (q : LockRequestQueue) (h : noTxn tid q.request_queue)
    (hg : q.group_lock_mode = .NON_LOCK ∨ q.group_lock_mode = .S ∨
      q.group_lock_mode = .X) :
    lock_shared_on_record st tid q =
      if st = .SHRINKING then .abort .LOCK_ON_SHIRINKING
      else if compatible q.group_lock_mode .SHARED = false then
        .abort .DEADLOCK_PREVENTION
      else .ok ⟨q.request_queue ++ [⟨tid, .SHARED, true⟩],
        gjoin q.group_lock_mode (modeGroup .SHARED)⟩ true := by
  unfold lock_shared_on_record
  rw [sharedRecordLoop_fall h]
  by_cases hst : st = .SHRINKING
  · simp [hst]
  · rcases hg with hg | hg | hg <;> simp [hst, hg, compatible, gjoin, modeGroup]

theorem lock_exclusive_on_record_noReq (st : TransactionState) (tid : Nat)
    (q : LockRequestQueue) (h : noTxn tid q.request_queue) :
    lock_exclusive_on_record st tid q =
      if st = .SHRINKING then .abort .LOCK_ON_SHIRINKING
      else if compatible q.group_lock_mode .EXLUCSIVE = false then
        .abort .DEADLOCK_PREVENTION
      else .ok ⟨q.request_queue ++ [⟨tid, .EXLUCSIVE, true⟩],
        gjoin q.group_lock_mode (modeGroup .EXLUCSIVE)⟩ true := by
  unfold lock_exclusive_on_record
  rw [exclusiveRecordLoop_fall h]
  by_cases hst : st = .SHRINKING
  · simp [hst]
  · cases hg : q.group_lock_mode <;> simp [hst, hg, compatible, gjoin, modeGroup]

theorem lock_shared_on_table_noReq (st : TransactionState) (tid : Nat)
    (q : LockRequestQueue) (h : noTxn tid q.request_queue) :
    lock_shared_on_table st tid q =
      if st = .SHRINKING then .abort .LOCK_ON_SHIRINKING
      else if compatible q.group_lock_mode .SHARED = false then
        .abort .DEADLOCK_PREVENTION
      else .ok ⟨q.request_queue ++ [⟨tid, .SHARED, true⟩],
        gjoin q.group_lock_mode (modeGroup .SHARED)⟩ true := by
  unfold lock_shared_on_table
  rw [sharedTableLoop_fall h]
  by_cases hst : st = .SHRINKING
  · simp [hst]
  · cases hg : q.group_lock_mode <;> simp [hst, hg, compatible, gjoin, modeGroup]

theorem lock_exclusive_on_table_noReq (st : TransactionState) (tid : Nat)
    (q : LockRequestQueue) (h : noTxn tid q.request_queue) :
    lock_exclusive_on_table st tid q =
      if st = .SHRINKING then .abort .LOCK_ON_SHIRINKING
      else if compatible q.group_lock_mode .EXLUCSIVE = false then
        .abort .DEADLOCK_PREVENTION
      else .ok ⟨q.request_queue ++ [⟨tid, .EXLUCSIVE, true⟩],
        gjoin q.group_lock_mode (modeGroup .EXLUCSIVE)⟩ true := by
  unfold lock_exclusive_on_table
  rw [exclusiveTableLoop_fall h]
  by_cases hst : st = .SHRINKING
  · simp [hst]
  · cases hg : q.group_lock_mode <;> simp [hst, hg, compatible, gjoin, modeGroup]

theorem lock_IS_on_table_noReq (st : TransactionState) (tid : Nat)
    (q : LockRequestQueue) (h : noTxn tid q.request_queue) :
    lock_IS_on_table st tid q =
      if st = .SHRINKING then .abort .LOCK_ON_SHIRINKING
      else if compatible q.group_lock_mode .INTENTION_SHARED = false then
        .abort .DEADLOCK_PREVENTION
      else .ok ⟨q.request_queue ++ [⟨tid, .INTENTION_SHARED, true⟩],
        gjoin q.group_lock_mode (modeGroup .INTENTION_SHARED)⟩ true := by
  unfold lock_IS_on_table
  rw [isTableLoop_fall h]
  by_cases hst : st = .SHRINKING
  · simp [hst]
  · cases hg : q.group_lock_mode <;> simp [hst, hg, compatible, gjoin, modeGroup]

theorem lock_IX_on_table_noReq (st : TransactionState) (tid : Nat)
    (q : LockRequestQueue) (h : noTxn tid q.request_queue) :
    lock_IX_on_table st tid q =
      if st = .SHRINKING then .abort .LOCK_ON_SHIRINKING
      else if compatible q.group_lock_mode .INTENTION_EXCLUSIVE = false then
        .abort .DEADLOCK_PREVENTION
      else .ok ⟨q.request_queue ++ [⟨tid, .INTENTION_EXCLUSIVE, true⟩],
        gjoin q.group_lock_mode (modeGroup .INTENTION_EXCLUSIVE)⟩ true := by
  unfold lock_IX_on_table
  rw [ixTableLoop_fall h]
  by_cases hst : st = .SHRINKING
  · simp [hst]
  · cases hg : q.group_lock_mode <;> simp [hst, hg, compatible, gjoin, modeGroup]

/-! ### Behaviour when the transaction already holds a request -/

theorem lock_shared_on_record_held (st : TransactionState) (tid : Nat)
    (q : LockRequestQueue) (l1 l2 : List LockRequest) (r : LockRequest)
    (hsp : q.request_queue = l1 ++ r :: l2) (h1 : noTxn tid l1)
    (hr : r.txn_id = tid)
    (hm : r.lock_mode = .SHARED ∨ r.lock_mode = .EXLUCSIVE)
    (hst : st ≠ .SHRINKING) :
    lock_shared_on_record st tid q = .ok q false := by
  unfold lock_shared_on_record
  rw [hsp, sharedRecordLoop_append _ h1]
  have hloop : sharedRecordLoop tid (r :: l2) = .ret (r :: l2) none := by
    unfold sharedRecordLoop
    rw [if_pos ⟨hr, hm⟩]
  rw [hloop, scanConsList_ret]
  simp [hst, ← hsp]

theorem lock_exclusive_on_record_heldX (st : TransactionState) (tid : Nat)
    (q : LockRequestQueue) (l1 l2 : List LockRequest) (r : LockRequest)
    (hsp : q.request_queue = l1 ++ r :: l2) (h1 : noTxn tid l1)
    (hr : r.txn_id = tid) (hm : r.lock_mode = .EXLUCSIVE)
    (hst : st ≠ .SHRINKING) :
    lock_exclusive_on_record st tid q = .ok q false := by
  unfold lock_exclusive_on_record
  rw [hsp, exclusiveRecordLoop_append _ h1]
  have hloop : exclusiveRecordLoop tid (l1 ++ r :: l2).length (r :: l2) =
      .ret (r :: l2) none := by
    unfold exclusiveRecordLoop
    rw [if_pos hr, if_pos hm]
  rw [hloop, scanConsList_ret]
  simp [hst, ← hsp]

theorem lock_exclusive_on_record_heldS (st : TransactionState) (tid : Nat)
    (q : LockRequestQueue) (l1 l2 : List LockRequest) (r : LockRequest)
    (hsp : q.request_queue = l1 ++ r :: l2) (h1 : noTxn tid l1)
    (hr : r.txn_id = tid) (hm : r.lock_mode = .SHARED)
    (hst : st ≠ .SHRINKING) :
    lock_exclusive_on_record st tid q =
      if q.request_queue.length = 1 then
        .ok ⟨l1 ++ { r with lock_mode := .EXLUCSIVE } :: l2, .X⟩ false
      else .abort .DEADLOCK_PREVENTION := by
  unfold lock_exclusive_on_record
  rw [hsp, exclusiveRecordLoop_append _ h1]
  have hmx : r.lock_mode ≠ .EXLUCSIVE := by rw [hm]; intro hx; cases hx
  by_cases hlen : (l1 ++ r :: l2).length = 1
  · have hloop : exclusiveRecordLoop tid (l1 ++ r :: l2).length (r :: l2) =
        .ret ({ r with lock_mode := .EXLUCSIVE } :: l2) (some .X) := by
      unfold exclusiveRecordLoop
      rw [if_pos hr, if_neg hmx, if_pos hm, if_pos hlen]
    rw [hloop, scanConsList_ret, if_neg hst, if_pos hlen]
    rfl
  · have hloop : exclusiveRecordLoop tid (l1 ++ r :: l2).length (r :: l2) =
        .err := by
      unfold exclusiveRecordLoop
      rw [if_pos hr, if_neg hmx, if_pos hm, if_neg hlen]
    rw [hloop, scanConsList_err, if_neg hst, if_neg hlen]

theorem lock_shared_on_table_heldStrong (st : TransactionState) (tid : Nat)
    (q : LockRequestQueue) (l1 l2 : List LockRequest) (r : LockRequest)
    (hsp : q.request_queue = l1 ++ r :: l2) (h1 : noTxn tid l1)
    (hr : r.txn_id = tid)
    (hm : r.lock_mode = .SHARED ∨ r.lock_mode = .EXLUCSIVE ∨
      r.lock_mode = .S_IX)
    (hst : st ≠ .SHRINKING) :
    lock_shared_on_table st tid q = .ok q false := by
  unfold lock_shared_on_table
  rw [hsp, sharedTableLoop_append _ h1]
  have hloop : sharedTableLoop tid q.group_lock_mode
      (onlyCurrentTxn tid (l1 ++ r :: l2)) (r :: l2) = .ret (r :: l2) none := by
    unfold sharedTableLoop
    rw [if_pos hr, if_pos hm]
  rw [hloop, scanConsList_ret]
  simp [hst, ← hsp]

theorem lock_shared_on_table_heldIS (st : TransactionState) (tid : Nat)
    (q : LockRequestQueue) (l1 l2 : List LockRequest) (r : LockRequest)
    (hsp : q.request_queue = l1 ++ r :: l2) (h1 : noTxn tid l1)
    (hr : r.txn_id = tid) (hm : r.lock_mode = .INTENTION_SHARED)
    (hst : st ≠ .SHRINKING) :
    lock_shared_on_table st tid q =
      if (q.group_lock_mode = .IX ∨ q.group_lock_mode = .X ∨
            q.group_lock_mode = .SIX) ∧
          onlyCurrentTxn tid q.request_queue = false then
        .abort .DEADLOCK_PREVENTION
      else .ok ⟨l1 ++ { r with lock_mode := .SHARED } :: l2, .S⟩ false := by
  unfold lock_shared_on_table
  rw [hsp, sharedTableLoop_append _ h1]
  have hm1 : ¬(r.lock_mode = .SHARED ∨ r.lock_mode = .EXLUCSIVE ∨
      r.lock_mode = .S_IX) := by rw [hm]; intro hx; rcases hx with hx | hx | hx <;> cases hx
  by_cases hc : (q.group_lock_mode = .IX ∨ q.group_lock_mode = .X ∨
      q.group_lock_mode = .SIX) ∧ onlyCurrentTxn tid (l1 ++ r :: l2) = false
  · have hloop : sharedTableLoop tid q.group_lock_mode
        (onlyCurrentTxn tid (l1 ++ r :: l2)) (r :: l2) = .err := by
      unfold sharedTableLoop
      rw [if_pos hr, if_neg hm1, if_pos hm, if_pos hc]
    rw [hloop, scanConsList_err]
    simp [hst, hc]
  · have hloop : sharedTableLoop tid q.group_lock_mode
        (onlyCurrentTxn tid (l1 ++ r :: l2)) (r :: l2) =
        .ret ({ r with lock_mode := .SHARED } :: l2) (some .S) := by
      unfold sharedTableLoop
      rw [if_pos hr, if_neg hm1, if_pos hm, if_neg hc]
    rw [hloop, scanConsList_ret]
    simp [hst, hc]

theorem lock_shared_on_table_heldIX (st : TransactionState) (tid : Nat)
    (q : LockRequestQueue) (l1 l2 : List LockRequest) (r : LockRequest)
    (hsp : q.request_queue = l1 ++ r :: l2) (h1 : noTxn tid l1)
    (hr : r.txn_id = tid) (hm : r.lock_mode = .INTENTION_EXCLUSIVE)
    (hst : st ≠ .SHRINKING) :
    lock_shared_on_table st tid q =
      if (q.group_lock_mode = .IX ∨ q.group_lock_mode = .X ∨
            q.group_lock_mode = .SIX) ∧
          onlyCurrentTxn tid q.request_queue = false then
        .abort .DEADLOCK_PREVENTION
      else .ok ⟨l1 ++ { r with lock_mode := .S_IX } :: l2, .SIX⟩ false := by
  unfold lock_shared_on_table
  rw [hsp, sharedTableLoop_append _ h1]
  have hm1 : ¬(r.lock_mode = .SHARED ∨ r.lock_mode = .EXLUCSIVE ∨
      r.lock_mode = .S_IX) := by rw [hm]; intro hx; rcases hx with hx | hx | hx <;> cases hx
  have hm2 : r.lock_mode ≠ .INTENTION_SHARED := by rw [hm]; intro hx; cases hx
  by_cases hc : (q.group_lock_mode = .IX ∨ q.group_lock_mode = .X ∨
      q.group_lock_mode = .SIX) ∧ onlyCurrentTxn tid (l1 ++ r :: l2) = false
  · have hloop : sharedTableLoop tid q.group_lock_mode
        (onlyCurrentTxn tid (l1 ++ r :: l2)) (r :: l2) = .err := by
      unfold sharedTableLoop
      rw [if_pos hr, if_neg hm1, if_neg hm2, if_pos hm, if_pos hc]
    rw [hloop, scanConsList_err]
    simp [hst, hc]
  · have hloop : sharedTableLoop tid q.group_lock_mode
        (onlyCurrentTxn tid (l1 ++ r :: l2)) (r :: l2) =
        .ret ({ r with lock_mode := .S_IX } :: l2) (some .SIX) := by
      unfold sharedTableLoop
      rw [if_pos hr, if_neg hm1, if_neg hm2, if_pos hm, if_neg hc]
    rw [hloop, scanConsList_ret]
    simp [hst, hc]

theorem lock_exclusive_on_table_heldX (st : TransactionState) (tid : Nat)
    (q : LockRequestQueue) (l1 l2 : List LockRequest) (r : LockRequest)
    (hsp : q.request_queue = l1 ++ r :: l2) (h1 : noTxn tid l1)
    (hr : r.txn_id = tid) (hm : r.lock_mode = .EXLUCSIVE)
    (hst : st ≠ .SHRINKING) :
    lock_exclusive_on_table st tid q = .ok q false := by
  unfold lock_exclusive_on_table
  rw [hsp, exclusiveTableLoop_append _ h1]
  have hloop : exclusiveTableLoop tid (l1 ++ r :: l2).length (r :: l2) =
      .ret (r :: l2) none := by
    unfold exclusiveTableLoop
    rw [if_pos hr, if_pos hm]
  rw [hloop, scanConsList_ret]
  simp [hst, ← hsp]

theorem lock_exclusive_on_table_heldOther (st : TransactionState) (tid : Nat)
    (q : LockRequestQueue) (l1 l2 : List LockRequest) (r : LockRequest)
    (hsp : q.request_queue = l1 ++ r :: l2) (h1 : noTxn tid l1)
    (hr : r.txn_id = tid) (hm : r.lock_mode ≠ .EXLUCSIVE)
    (hst : st ≠ .SHRINKING) :
    lock_exclusive_on_table st tid q =
      if q.request_queue.length = 1 then
        .ok ⟨l1 ++ { r with lock_mode := .EXLUCSIVE } :: l2, .X⟩ false
      else .abort .DEADLOCK_PREVENTION := by
  unfold lock_exclusive_on_table
  rw [hsp, exclusiveTableLoop_append _ h1]
  by_cases hlen : (l1 ++ r :: l2).length = 1
  · have hloop : exclusiveTableLoop tid (l1 ++ r :: l2).length (r :: l2) =
        .ret ({ r with lock_mode := .EXLUCSIVE } :: l2) (some .X) := by
      unfold exclusiveTableLoop
      rw [if_pos hr, if_neg hm, if_pos hlen]
    rw [hloop, scanConsList_ret, if_neg hst, if_pos hlen]
    rfl
  · have hloop : exclusiveTableLoop tid (l1 ++ r :: l2).length (r :: l2) =
        .err := by
      unfold exclusiveTableLoop
      rw [if_pos hr, if_neg hm, if_neg hlen]
    rw [hloop, scanConsList_err, if_neg hst, if_neg hlen]

theorem lock_IS_on_table_held (st : TransactionState) (tid : Nat)
    (q : LockRequestQueue) (l1 l2 : List LockRequest) (r : LockRequest)
    (hsp : q.request_queue = l1 ++ r :: l2) (h1 : noTxn tid l1)
    (hr : r.txn_id = tid) (hst : st ≠ .SHRINKING) :
    lock_IS_on_table st tid q = .ok q false := by
  unfold lock_IS_on_table
  rw [hsp, isTableLoop_append _ h1]
  have hloop : isTableLoop tid (r :: l2) = .ret (r :: l2) none := by
    unfold isTableLoop
    rw [if_pos hr]
  rw [hloop, scanConsList_ret]
  simp [hst, ← hsp]

theorem lock_IX_on_table_heldStrong (st : TransactionState) (tid : Nat)
    (q : LockRequestQueue) (l1 l2 : List LockRequest) (r : LockRequest)
    (hsp : q.request_queue = l1 ++ r :: l2) (h1 : noTxn tid l1)
    (hr : r.txn_id = tid)
    (hm : r.lock_mode = .INTENTION_EXCLUSIVE ∨ r.lock_mode = .EXLUCSIVE ∨
      r.lock_mode = .S_IX)
    (hst : st ≠ .SHRINKING) :
    lock_IX_on_table st tid q = .ok q false := by
  unfold lock_IX_on_table
  rw [hsp, ixTableLoop_append _ h1]
  have hloop : ixTableLoop tid q.group_lock_mode
      (onlyCurrentTxn tid (l1 ++ r :: l2)) (r :: l2) = .ret (r :: l2) none := by
    unfold ixTableLoop
    rw [if_pos hr, if_pos hm]
  rw [hloop, scanConsList_ret]
  simp [hst, ← hsp]

theorem lock_IX_on_table_heldIS (st : TransactionState) (tid : Nat)
    (q : LockRequestQueue) (l1 l2 : List LockRequest) (r : LockRequest)
    (hsp : q.request_queue = l1 ++ r :: l2) (h1 : noTxn tid l1)
    (hr : r.txn_id = tid) (hm : r.lock_mode = .INTENTION_SHARED)
    (hst : st ≠ .SHRINKING) :
    lock_IX_on_table st tid q =
      if (q.group_lock_mode = .S ∨ q.group_lock_mode = .X ∨
            q.group_lock_mode = .SIX) ∧
          onlyCurrentTxn tid q.request_queue = false then
        .abort .DEADLOCK_PREVENTION
      else .ok ⟨l1 ++ { r with lock_mode := .INTENTION_EXCLUSIVE } :: l2,
        if q.group_lock_mode = .IS ∨ q.group_lock_mode = .NON_LOCK then .IX
        else q.group_lock_mode⟩ false := by
  unfold lock_IX_on_table
  rw [hsp, ixTableLoop_append _ h1]
  have hm1 : ¬(r.lock_mode = .INTENTION_EXCLUSIVE ∨ r.lock_mode = .EXLUCSIVE ∨
      r.lock_mode = .S_IX) := by rw [hm]; intro hx; rcases hx with hx | hx | hx <;> cases hx
  by_cases hc : (q.group_lock_mode = .S ∨ q.group_lock_mode = .X ∨
      q.group_lock_mode = .SIX) ∧ onlyCurrentTxn tid (l1 ++ r :: l2) = false
  · have hloop : ixTableLoop tid q.group_lock_mode
        (onlyCurrentTxn tid (l1 ++ r :: l2)) (r :: l2) = .err := by
      unfold ixTableLoop
      rw [if_pos hr, if_neg hm1, if_pos hm, if_pos hc]
    rw [hloop, scanConsList_err]
    simp [hst, hc]
  · have hloop : ixTableLoop tid q.group_lock_mode
        (onlyCurrentTxn tid (l1 ++ r :: l2)) (r :: l2) =
        .ret ({ r with lock_mode := .INTENTION_EXCLUSIVE } :: l2)
          (if q.group_lock_mode = .IS ∨ q.group_lock_mode = .NON_LOCK then
            some .IX else none) := by
      unfold ixTableLoop
      rw [if_pos hr, if_neg hm1, if_pos hm, if_neg hc]
    rw [hloop, scanConsList_ret]
    by_cases hg : q.group_lock_mode = .IS ∨ q.group_lock_mode = .NON_LOCK <;>
      simp [hst, hc, hg]

theorem lock_IX_on_table_heldS (st : TransactionState) (tid : Nat)
    (q : LockRequestQueue) (l1 l2 : List LockRequest) (r : LockRequest)
    (hsp : q.request_queue = l1 ++ r :: l2) (h1 : noTxn tid l1)
    (hr : r.txn_id = tid) (hm : r.lock_mode = .SHARED)
    (hst : st ≠ .SHRINKING) :
    lock_IX_on_table st tid q =
      if (q.group_lock_mode = .IX ∨ q.group_lock_mode = .X ∨
            q.group_lock_mode = .SIX) ∧
          onlyCurrentTxn tid q.request_queue = false then
        .abort .DEADLOCK_PREVENTION
      else .ok ⟨l1 ++ { r with lock_mode := .S_IX } :: l2, .SIX⟩ false := by
  unfold lock_IX_on_table
  rw [hsp, ixTableLoop_append _ h1]
  have hm1 : ¬(r.lock_mode = .INTENTION_EXCLUSIVE ∨ r.lock_mode = .EXLUCSIVE ∨
      r.lock_mode = .S_IX) := by rw [hm]; intro hx; rcases hx with hx | hx | hx <;> cases hx
  have hm2 : r.lock_mode ≠ .INTENTION_SHARED := by rw [hm]; intro hx; cases hx
  by_cases hc : (q.group_lock_mode = .IX ∨ q.group_lock_mode = .X ∨
      q.group_lock_mode = .SIX) ∧ onlyCurrentTxn tid (l1 ++ r :: l2) = false
  · have hloop : ixTableLoop tid q.group_lock_mode
        (onlyCurrentTxn tid (l1 ++ r :: l2)) (r :: l2) = .err := by
      unfold ixTableLoop
      rw [if_pos hr, if_neg hm1, if_neg hm2, if_pos hm, if_pos hc]
    rw [hloop, scanConsList_err]
    simp [hst, hc]
  · have hloop : ixTableLoop tid q.group_lock_mode
        (onlyCurrentTxn tid (l1 ++ r :: l2)) (r :: l2) =
        .ret ({ r with lock_mode := .S_IX } :: l2) (some .SIX) := by
      unfold ixTableLoop
      rw [if_pos hr, if_neg hm1, if_neg hm2, if_pos hm, if_neg hc]
    rw [hloop, scanConsList_ret]
    simp [hst, hc]

/-! ### Splitting a queue at the transaction's request -/

theorem exists_first_split {l : List LockRequest} {tid : Nat}
    (h : ∃ r ∈ l, r.txn_id = tid) :
    ∃ l1 r l2, l = l1 ++ r :: l2 ∧ r.txn_id = tid ∧ noTxn tid l1 := by
  induction l with
  | nil => simp at h
  | cons a as ih =>
    by_cases ha : a.txn_id = tid
    · exact ⟨[], a, as, rfl, ha, by intro x hx; simp at hx⟩
    · obtain ⟨r, hr, hrt⟩ := h
      rcases List.mem_cons.mp hr with hcase | hmem
      · exact absurd (hcase ▸ hrt) ha
      · obtain ⟨l1, r1, l2, heq, ht1, hn1⟩ := ih ⟨r, hmem, hrt⟩
        refine ⟨a :: l1, r1, l2, by rw [heq]; rfl, ht1, ?_⟩
        intro x hx
        rcases List.mem_cons.mp hx with hcase | hx2
        · rw [hcase]; exact ha
        · exact hn1 x hx2

theorem noTxn_right_of_unique {l1 l2 : List LockRequest} {r : LockRequest}
    {tid : Nat} (hu : uniqueTxn (l1 ++ r :: l2)) (hr : r.txn_id = tid) :
    noTxn tid l2 := by
  have h2 : (r :: l2).Pairwise (fun a b => a.txn_id ≠ b.txn_id) :=
    (List.pairwise_append.mp hu).2.1
  have h3 := (List.pairwise_cons.mp h2).1
  intro x hx hxt
  exact h3 x hx (by rw [hr, hxt])

theorem onlyCurrentTxn_false_iff {tid : Nat} {reqs : List LockRequest} :
    onlyCurrentTxn tid reqs = false ↔
      ∃ x ∈ reqs, x.txn_id ≠ tid ∧ x.granted = true := by
  simp [onlyCurrentTxn, List.any_eq_true]

theorem onlyCurrentTxn_true_nil {tid : Nat} {l1 l2 : List LockRequest}
    {r : LockRequest} (hoc : onlyCurrentTxn tid (l1 ++ r :: l2) = true)
    (hgr : allGranted (l1 ++ r :: l2)) (h1 : noTxn tid l1) (h2 : noTxn tid l2) :
    l1 = [] ∧ l2 = [] := by
  have hne : ¬∃ x ∈ l1 ++ r :: l2, x.txn_id ≠ tid ∧ x.granted = true := by
    intro hex
    have hfalse := onlyCurrentTxn_false_iff.mpr hex
    rw [hoc] at hfalse
    cases hfalse
  constructor
  · rw [List.eq_nil_iff_forall_not_mem]
    intro x hx
    exact hne ⟨x, by simp [hx], h1 x hx, hgr x (by simp [hx])⟩
  · rw [List.eq_nil_iff_forall_not_mem]
    intro x hx
    exact hne ⟨x, by simp [hx], h2 x hx, hgr x (by simp [hx])⟩

/-! ### Unlock recomputation equals the lattice join -/

theorem recomputeStep_eq (g : GroupLockMode) (r : LockRequest) :
    recomputeStep g r = grantedStep g r := by
  obtain ⟨t, m, b⟩ := r
  cases b <;> cases m <;> cases g <;> rfl

theorem foldl_recomputeStep (l : List LockRequest) (g : GroupLockMode) :
    l.foldl recomputeStep g = l.foldl grantedStep g := by
  induction l generalizing g with
  | nil => rfl
  | cons r rs ih => rw [List.foldl_cons, List.foldl_cons, recomputeStep_eq, ih]

theorem unlock_group (tid : Nat) (q : LockRequestQueue) :
    groupInv (unlock tid q).2 ∨ (unlock tid q).2 = q := by
  unfold unlock
  cases h : eraseFirstReq tid q.request_queue with
  | none => right; rfl
  | some reqs =>
    left
    show (⟨reqs, reqs.foldl recomputeStep .NON_LOCK⟩ : LockRequestQueue).group_lock_mode = _
    rw [foldl_recomputeStep]
    rfl

/-! ### Group-invariant helper lemmas -/

theorem grantedJoin_split (l1 l2 : List LockRequest) (x : LockRequest)
    (hg : x.granted = true) :
    grantedJoin (l1 ++ x :: l2) =
      gjoin (gjoin (grantedJoin l1) (modeGroup x.lock_mode)) (grantedJoin l2) := by
  rw [grantedJoin_append, grantedJoin_cons_granted _ hg, gjoin_assoc]

theorem groupInv_appendNew (q : LockRequestQueue) (tid : Nat) (m : LockMode)
    (hinv : groupInv q) :
    groupInv ⟨q.request_queue ++ [⟨tid, m, true⟩],
      gjoin q.group_lock_mode (modeGroup m)⟩ := by
  show gjoin q.group_lock_mode (modeGroup m) = _
  rw [grantedJoin_append, hinv]
  congr 1
  simp [grantedJoin, grantedStep, gjoin_nonlock_left]

theorem append_cons_len_one {α : Type} {l1 l2 : List α} {r : α}
    (h : (l1 ++ r :: l2).length = 1) : l1 = [] ∧ l2 = [] := by
  cases l1 with
  | nil =>
    simp only [List.nil_append, List.length_cons] at h
    exact ⟨rfl, List.eq_nil_of_length_eq_zero (by omega)⟩
  | cons a as =>
    simp only [List.cons_append, List.length_cons, List.length_append] at h
    omega

theorem upgrade_key_IS_to_S (J1 J2 : GroupLockMode)
    (h : ¬(gjoin (gjoin J1 .IS) J2 = .IX ∨ gjoin (gjoin J1 .IS) J2 = .X ∨
      gjoin (gjoin J1 .IS) J2 = .SIX)) :
    gjoin (gjoin J1 .S) J2 = .S := by
  revert h; revert J1 J2; decide

theorem upgrade_key_IX_to_SIX (J1 J2 : GroupLockMode)
    (h : ¬(gjoin (gjoin J1 .IX) J2 = .IX ∨ gjoin (gjoin J1 .IX) J2 = .X ∨
      gjoin (gjoin J1 .IX) J2 = .SIX)) :
    gjoin (gjoin J1 .SIX) J2 = .SIX := by
  revert h; revert J1 J2; decide

theorem upgrade_key_IS_to_IX (J1 J2 : GroupLockMode)
    (h : ¬(gjoin (gjoin J1 .IS) J2 = .S ∨ gjoin (gjoin J1 .IS) J2 = .X ∨
      gjoin (gjoin J1 .IS) J2 = .SIX)) :
    (if gjoin (gjoin J1 .IS) J2 = .IS ∨ gjoin (gjoin J1 .IS) J2 = .NON_LOCK
      then GroupLockMode.IX else gjoin (gjoin J1 .IS) J2) =
      gjoin (gjoin J1 .IX) J2 := by
  revert h; revert J1 J2; decide

theorem upgrade_key_S_to_SIX (J1 J2 : GroupLockMode)
    (h : ¬(gjoin (gjoin J1 .S) J2 = .IX ∨ gjoin (gjoin J1 .S) J2 = .X ∨
      gjoin (gjoin J1 .S) J2 = .SIX)) :
    gjoin (gjoin J1 .SIX) J2 = .SIX := by
  revert h; revert J1 J2; decide

/-- Helper: after any lock-manager operation on a well-formed queue, the cached
group mode equals the lattice join of the remaining granted modes. -/
theorem queueAfter_groupInv (op : LockOp) (st : TransactionState)
    (tid : Nat) (q : LockRequestQueue) (hwf : WfQueue op.isRec q) :
    (queueAfter op st tid q).group_lock_mode =
      grantedJoin (queueAfter op st tid q).request_queue := by
  obtain ⟨hinv, hgr, huniq, hrec⟩ := hwf
  cases op with
  | unl =>
    rcases unlock_group tid q with h | h
    · exact h
    · simp only [queueAfter]
      rw [h]
      exact hinv
  | acq a =>
    simp only [queueAfter]
    by_cases hst : st = .SHRINKING
    · have heq : applyAcq a st tid q = .abort .LOCK_ON_SHIRINKING := by
        cases a <;>
          simp [applyAcq, lock_shared_on_record, lock_exclusive_on_record,
            lock_shared_on_table, lock_exclusive_on_table, lock_IS_on_table,
            lock_IX_on_table, hst]
      rw [heq]
      exact hinv
    · by_cases hex : ∃ r ∈ q.request_queue, r.txn_id = tid
      · obtain ⟨l1, r, l2, hsp, hr, h1⟩ := exists_first_split hex
        have hmem : r ∈ q.request_queue := by rw [hsp]; simp
        have hgr2 : r.granted = true := hgr r hmem
        have h2 : noTxn tid l2 := noTxn_right_of_unique (hsp ▸ huniq) hr
        have hallg : allGranted (l1 ++ r :: l2) := by rw [← hsp]; exact hgr
        have hJ : q.group_lock_mode =
            gjoin (gjoin (grantedJoin l1) (modeGroup r.lock_mode))
              (grantedJoin l2) := by
          rw [hinv, hsp, grantedJoin_split l1 l2 r hgr2]
        cases a with
        | sharedRec =>
          have hm := hrec rfl r hmem
          have heq := lock_shared_on_record_held st tid q l1 l2 r hsp h1 hr hm hst
          simp only [applyAcq, heq]
          exact hinv
        | exclRec =>
          rcases hrec rfl r hmem with hm | hm
          · have heq := lock_exclusive_on_record_heldS st tid q l1 l2 r hsp h1 hr hm hst
            by_cases hlen : q.request_queue.length = 1
            · rw [if_pos hlen] at heq
              simp only [applyAcq, heq]
              rw [hsp] at hlen
              obtain ⟨e1, e2⟩ := append_cons_len_one hlen
              subst e1; subst e2
              show GroupLockMode.X =
                grantedJoin ([] ++ { r with lock_mode := .EXLUCSIVE } :: [])
              simp [grantedJoin, grantedStep, hgr2, modeGroup, gjoin]
            · rw [if_neg hlen] at heq
              simp only [applyAcq, heq]
              exact hinv
          · have heq := lock_exclusive_on_record_heldX st tid q l1 l2 r hsp h1 hr hm hst
            simp only [applyAcq, heq]
            exact hinv
        | sharedTab =>
          cases hm : r.lock_mode with
          | SHARED =>
            have heq := lock_shared_on_table_heldStrong st tid q l1 l2 r hsp h1 hr
              (Or.inl hm) hst
            simp only [applyAcq, heq]
            exact hinv
          | EXLUCSIVE =>
            have heq := lock_shared_on_table_heldStrong st tid q l1 l2 r hsp h1 hr
              (Or.inr (Or.inl hm)) hst
            simp only [applyAcq, heq]
            exact hinv
          | S_IX =>
            have heq := lock_shared_on_table_heldStrong st tid q l1 l2 r hsp h1 hr
              (Or.inr (Or.inr hm)) hst
            simp only [applyAcq, heq]
            exact hinv
          | INTENTION_SHARED =>
            have heq := lock_shared_on_table_heldIS st tid q l1 l2 r hsp h1 hr hm hst
            by_cases hc : (q.group_lock_mode = .IX ∨ q.group_lock_mode = .X ∨
                q.group_lock_mode = .SIX) ∧
                onlyCurrentTxn tid q.request_queue = false
            · rw [if_pos hc] at heq
              simp only [applyAcq, heq]
              exact hinv
            · rw [if_neg hc] at heq
              simp only [applyAcq, heq]
              show GroupLockMode.S =
                grantedJoin (l1 ++ { r with lock_mode := .SHARED } :: l2)
              rw [grantedJoin_split l1 l2 ({ r with lock_mode := .SHARED }) hgr2]
              by_cases hoc : onlyCurrentTxn tid q.request_queue = false
              · have hgset : ¬(q.group_lock_mode = .IX ∨
                    q.group_lock_mode = .X ∨ q.group_lock_mode = .SIX) :=
                  fun hset => hc ⟨hset, hoc⟩
                rw [hm] at hJ
                rw [hJ] at hgset
                exact (upgrade_key_IS_to_S (grantedJoin l1) (grantedJoin l2)
                  hgset).symm
              · have hoc2 : onlyCurrentTxn tid q.request_queue = true := by
                  cases honly : onlyCurrentTxn tid q.request_queue
                  · exact absurd honly hoc
                  · rfl
                rw [hsp] at hoc2
                obtain ⟨e1, e2⟩ := onlyCurrentTxn_true_nil hoc2 hallg h1 h2
                subst e1; subst e2
                rfl
          | INTENTION_EXCLUSIVE =>
            have heq := lock_shared_on_table_heldIX st tid q l1 l2 r hsp h1 hr hm hst
            by_cases hc : (q.group_lock_mode = .IX ∨ q.group_lock_mode = .X ∨
                q.group_lock_mode = .SIX) ∧
                onlyCurrentTxn tid q.request_queue = false
            · rw [if_pos hc] at heq
              simp only [applyAcq, heq]
              exact hinv
            · rw [if_neg hc] at heq
              simp only [applyAcq, heq]
              show GroupLockMode.SIX =
                grantedJoin (l1 ++ { r with lock_mode := .S_IX } :: l2)
              rw [grantedJoin_split l1 l2 ({ r with lock_mode := .S_IX }) hgr2]
              by_cases hoc : onlyCurrentTxn tid q.request_queue = false
              · have hgset : ¬(q.group_lock_mode = .IX ∨
                    q.group_lock_mode = .X ∨ q.group_lock_mode = .SIX) :=
                  fun hset => hc ⟨hset, hoc⟩
                rw [hm] at hJ
                rw [hJ] at hgset
                exact (upgrade_key_IX_to_SIX (grantedJoin l1) (grantedJoin l2)
                  hgset).symm
              · have hoc2 : onlyCurrentTxn tid q.request_queue = true := by
                  cases honly : onlyCurrentTxn tid q.request_queue
                  · exact absurd honly hoc
                  · rfl
                rw [hsp] at hoc2
                obtain ⟨e1, e2⟩ := onlyCurrentTxn_true_nil hoc2 hallg h1 h2
                subst e1; subst e2
                rfl
        | exclTab =>
          by_cases hm : r.lock_mode = .EXLUCSIVE
          · have heq := lock_exclusive_on_table_heldX st tid q l1 l2 r hsp h1 hr hm hst
            simp only [applyAcq, heq]
            exact hinv
          · have heq := lock_exclusive_on_table_heldOther st tid q l1 l2 r hsp h1 hr
              hm hst
            by_cases hlen : q.request_queue.length = 1
            · rw [if_pos hlen] at heq
              simp only [applyAcq, heq]
              rw [hsp] at hlen
              obtain ⟨e1, e2⟩ := append_cons_len_one hlen
              subst e1; subst e2
              show GroupLockMode.X =
                grantedJoin ([] ++ { r with lock_mode := .EXLUCSIVE } :: [])
              simp [grantedJoin, grantedStep, hgr2, modeGroup, gjoin]
            · rw [if_neg hlen] at heq
              simp only [applyAcq, heq]
              exact hinv
        | isTab =>
          have heq := lock_IS_on_table_held st tid q l1 l2 r hsp h1 hr hst
          simp only [applyAcq, heq]
          exact hinv
        | ixTab =>
          cases hm : r.lock_mode with
          | INTENTION_EXCLUSIVE =>
            have heq := lock_IX_on_table_heldStrong st tid q l1 l2 r hsp h1 hr
              (Or.inl hm) hst
            simp only [applyAcq, heq]
            exact hinv
          | EXLUCSIVE =>
            have heq := lock_IX_on_table_heldStrong st tid q l1 l2 r hsp h1 hr
              (Or.inr (Or.inl hm)) hst
            simp only [applyAcq, heq]
            exact hinv
          | S_IX =>
            have heq := lock_IX_on_table_heldStrong st tid q l1 l2 r hsp h1 hr
              (Or.inr (Or.inr hm)) hst
            simp only [applyAcq, heq]
            exact hinv
          | INTENTION_SHARED =>
            have heq := lock_IX_on_table_heldIS st tid q l1 l2 r hsp h1 hr hm hst
            by_cases hc : (q.group_lock_mode = .S ∨ q.group_lock_mode = .X ∨
                q.group_lock_mode = .SIX) ∧
                onlyCurrentTxn tid q.request_queue = false
            · rw [if_pos hc] at heq
              simp only [applyAcq, heq]
              exact hinv
            · rw [if_neg hc] at heq
              simp only [applyAcq, heq]
              show (if q.group_lock_mode = .IS ∨ q.group_lock_mode = .NON_LOCK
                  then GroupLockMode.IX else q.group_lock_mode) =
                grantedJoin (l1 ++
                  { r with lock_mode := .INTENTION_EXCLUSIVE } :: l2)
              rw [grantedJoin_split l1 l2
                ({ r with lock_mode := .INTENTION_EXCLUSIVE }) hgr2]
              have hgset : ¬(q.group_lock_mode = .S ∨ q.group_lock_mode = .X ∨
                  q.group_lock_mode = .SIX) := by
                by_cases hoc : onlyCurrentTxn tid q.request_queue = false
                · exact fun hset => hc ⟨hset, hoc⟩
                · have hoc2 : onlyCurrentTxn tid q.request_queue = true := by
                    cases honly : onlyCurrentTxn tid q.request_queue
                    · exact absurd honly hoc
                    · rfl
                  rw [hsp] at hoc2
                  obtain ⟨e1, e2⟩ := onlyCurrentTxn_true_nil hoc2 hallg h1 h2
                  rw [hm] at hJ
                  rw [hJ, e1, e2]
                  decide
              rw [hm] at hJ
              rw [hJ] at hgset ⊢
              exact upgrade_key_IS_to_IX (grantedJoin l1) (grantedJoin l2) hgset
          | SHARED =>
            have heq := lock_IX_on_table_heldS st tid q l1 l2 r hsp h1 hr hm hst
            by_cases hc : (q.group_lock_mode = .IX ∨ q.group_lock_mode = .X ∨
                q.group_lock_mode = .SIX) ∧
                onlyCurrentTxn tid q.request_queue = false
            · rw [if_pos hc] at heq
              simp only [applyAcq, heq]
              exact hinv
            · rw [if_neg hc] at heq
              simp only [applyAcq, heq]
              show GroupLockMode.SIX =
                grantedJoin (l1 ++ { r with lock_mode := .S_IX } :: l2)
              rw [grantedJoin_split l1 l2 ({ r with lock_mode := .S_IX }) hgr2]
              by_cases hoc : onlyCurrentTxn tid q.request_queue = false
              · have hgset : ¬(q.group_lock_mode = .IX ∨
                    q.group_lock_mode = .X ∨ q.group_lock_mode = .SIX) :=
                  fun hset => hc ⟨hset, hoc⟩
                rw [hm] at hJ
                rw [hJ] at hgset
                exact (upgrade_key_S_to_SIX (grantedJoin l1) (grantedJoin l2)
                  hgset).symm
              · have hoc2 : onlyCurrentTxn tid q.request_queue = true := by
                  cases honly : onlyCurrentTxn tid q.request_queue
                  · exact absurd honly hoc
                  · rfl
                rw [hsp] at hoc2
                obtain ⟨e1, e2⟩ := onlyCurrentTxn_true_nil hoc2 hallg h1 h2
                subst e1; subst e2
                rfl
      · have hno : noTxn tid q.request_queue := fun x hx hxt => hex ⟨x, hx, hxt⟩
        cases a with
        | sharedRec =>
          have hg3 : q.group_lock_mode = .NON_LOCK ∨ q.group_lock_mode = .S ∨
              q.group_lock_mode = .X := by
            rw [hinv]; exact grantedJoin_recordModes (hrec rfl)
          have heq := lock_shared_on_record_noReq st tid q hno hg3
          rw [if_neg hst] at heq
          by_cases hcomp : compatible q.group_lock_mode .SHARED = false
          · rw [if_pos hcomp] at heq
            simp only [applyAcq, heq]
            exact hinv
          · rw [if_neg hcomp] at heq
            simp only [applyAcq, heq]
            exact groupInv_appendNew q tid .SHARED hinv
        | exclRec =>
          have heq := lock_exclusive_on_record_noReq st tid q hno
          rw [if_neg hst] at heq
          by_cases hcomp : compatible q.group_lock_mode .EXLUCSIVE = false
          · rw [if_pos hcomp] at heq
            simp only [applyAcq, heq]
            exact hinv
          · rw [if_neg hcomp] at heq
            simp only [applyAcq, heq]
            exact groupInv_appendNew q tid .EXLUCSIVE hinv
        | sharedTab =>
          have heq := lock_shared_on_table_noReq st tid q hno
          rw [if_neg hst] at heq
          by_cases hcomp : compatible q.group_lock_mode .SHARED = false
          · rw [if_pos hcomp] at heq
            simp only [applyAcq, heq]
            exact hinv
          · rw [if_neg hcomp] at heq
            simp only [applyAcq, heq]
            exact groupInv_appendNew q tid .SHARED hinv
        | exclTab =>
          have heq := lock_exclusive_on_table_noReq st tid q hno
          rw [if_neg hst] at heq
          by_cases hcomp : compatible q.group_lock_mode .EXLUCSIVE = false
          · rw [if_pos hcomp] at heq
            simp only [applyAcq, heq]
            exact hinv
          · rw [if_neg hcomp] at heq
            simp only [applyAcq, heq]
            exact groupInv_appendNew q tid .EXLUCSIVE hinv
        | isTab =>
          have heq := lock_IS_on_table_noReq st tid q hno
          rw [if_neg hst] at heq
          by_cases hcomp : compatible q.group_lock_mode .INTENTION_SHARED = false
          · rw [if_pos hcomp] at heq
            simp only [applyAcq, heq]
            exact hinv
          · rw [if_neg hcomp] at heq
            simp only [applyAcq, heq]
            exact groupInv_appendNew q tid .INTENTION_SHARED hinv
        | ixTab =>
          have heq := lock_IX_on_table_noReq st tid q hno
          rw [if_neg hst] at heq
          by_cases hcomp :
              compatible q.group_lock_mode .INTENTION_EXCLUSIVE = false
          · rw [if_pos hcomp] at heq
            simp only [applyAcq, heq]
            exact hinv
          · rw [if_neg hcomp] at heq
            simp only [applyAcq, heq]
            exact groupInv_appendNew q tid .INTENTION_EXCLUSIVE hinv

/-- C5: after every lock-manager operation (each of the five acquisition
functions and `unlock`) run on a well-formed queue, the `group_mode` of the
touched lock queue equals the lattice join of the modes of all granted requests
remaining in that queue (each operation touches exactly one queue, so the
invariant holds for every queue of the lock table). -/
theorem lock_ops_preserve_group_join (op : LockOp) (st : TransactionState)
    (tid : Nat) (q : LockRequestQueue) (hwf : WfQueue op.isRec q) :
    (queueAfter op st tid q).group_lock_mode =
      grantedJoin (queueAfter op st tid q).request_queue :=
  queueAfter_groupInv op st tid q hwf

/-- Witness for C5 at a concrete queue: transaction 2 acquires IX on a table
queue where transaction 1 holds IS. -/
theorem lock_ops_preserve_group_join_witness :
    WfQueue (LockOp.acq .ixTab).isRec
      ⟨[⟨1, .INTENTION_SHARED, true⟩], .IS⟩ ∧
    (queueAfter (.acq .ixTab) .GROWING 2
        ⟨[⟨1, .INTENTION_SHARED, true⟩], .IS⟩).group_lock_mode =
      grantedJoin (queueAfter (.acq .ixTab) .GROWING 2
        ⟨[⟨1, .INTENTION_SHARED, true⟩], .IS⟩).request_queue := by
  constructor
  · refine ⟨rfl, ?_, ?_, ?_⟩
    · intro r hr
      simp at hr
      rw [hr]
    · simp [uniqueTxn]
    · intro h
      cases h
  · exact lock_ops_preserve_group_join (.acq .ixTab) .GROWING 2
      ⟨[⟨1, .INTENTION_SHARED, true⟩], .IS⟩
      ⟨rfl, by intro r hr; simp at hr; rw [hr], by simp [uniqueTxn],
        by intro h; cases h⟩

/-! ### C6 and C7: acquisition outcome characterizations -/

/-- Queue used in counterexamples: transactions 1 and 2 both hold granted S. -/
def twoSharedQueue : LockRequestQueue :=
  ⟨[⟨1, .SHARED, true⟩, ⟨2, .SHARED, true⟩], .S⟩

/-- C6 counterexample: transaction 1 is GROWING and holds a granted request on
the target id, so neither failing clause of the claim applies and the claim
says the request is granted; the code instead throws DEADLOCK_PREVENTION
(`lock_exclusive_on_record` upgrade with another holder present). -/
theorem record_upgrade_conflict_aborts :
    (∃ r ∈ twoSharedQueue.request_queue, r.txn_id = 1 ∧ r.granted = true) ∧
    (.GROWING : TransactionState) ≠ .SHRINKING ∧
    lock_exclusive_on_record .GROWING 1 twoSharedQueue =
      .abort .DEADLOCK_PREVENTION := by
  refine ⟨⟨⟨1, .SHARED, true⟩, by simp [twoSharedQueue], rfl, rfl⟩, ?_, ?_⟩
  · intro h; cases h
  · decide

/-- C6 (amended): for every acquisition of mode M by transaction T that holds
no request on the target id: if T is SHRINKING the call fails with
LOCK_ON_SHRINKING; otherwise, if the queue's group mode is incompatible with M
the call fails with DEADLOCK_PREVENTION; otherwise a granted request is
appended immediately (no waiting), M is joined into the group mode, and the
lock id is added to T's lock set.  Failures return without modifying the
queue.  (When T does already hold a request, the upgrade rule applies
instead.) -/
theorem acquisition_no_prior_request_spec (op : AcqOp) (st : TransactionState)
    (tid : Nat) (q : LockRequestQueue) (hwf : WfQueue op.isRec q)
    (hno : noTxn tid q.request_queue) :
    applyAcq op st tid q =
      if st = .SHRINKING then .abort .LOCK_ON_SHIRINKING
      else if compatible q.group_lock_mode op.mode = false then
        .abort .DEADLOCK_PREVENTION
      else .ok ⟨q.request_queue ++ [⟨tid, op.mode, true⟩],
        gjoin q.group_lock_mode (modeGroup op.mode)⟩ true := by
  obtain ⟨hinv, hgr, huniq, hrec⟩ := hwf
  cases op with
  | sharedRec =>
    have hg3 : q.group_lock_mode = .NON_LOCK ∨ q.group_lock_mode = .S ∨
        q.group_lock_mode = .X := by
      rw [hinv]; exact grantedJoin_recordModes (hrec rfl)
    exact lock_shared_on_record_noReq st tid q hno hg3
  | exclRec => exact lock_exclusive_on_record_noReq st tid q hno
  | sharedTab => exact lock_shared_on_table_noReq st tid q hno
  | exclTab => exact lock_exclusive_on_table_noReq st tid q hno
  | isTab => exact lock_IS_on_table_noReq st tid q hno
  | ixTab => exact lock_IX_on_table_noReq st tid q hno

/-- Witness for the amended C6 at a concrete input: a fresh S acquisition on an
empty record queue is granted, joined into the group mode, and recorded in the
lock set. -/
theorem acquisition_no_prior_request_spec_witness :
    WfQueue AcqOp.sharedRec.isRec ⟨[], .NON_LOCK⟩ ∧
    noTxn 1 ([] : List LockRequest) ∧
    applyAcq .sharedRec .GROWING 1 ⟨[], .NON_LOCK⟩ =
      .ok ⟨[⟨1, .SHARED, true⟩], .S⟩ true := by
  have hwf : WfQueue AcqOp.sharedRec.isRec ⟨[], .NON_LOCK⟩ :=
    ⟨rfl, fun r hr => absurd hr (List.not_mem_nil r), List.Pairwise.nil,
      fun _ r hr => absurd hr (List.not_mem_nil r)⟩
  have hno : noTxn 1 ([] : List LockRequest) :=
    fun r hr => absurd hr (List.not_mem_nil r)
  refine ⟨hwf, hno, ?_⟩
  rw [acquisition_no_prior_request_spec .sharedRec .GROWING 1 _ hwf hno]
  rfl

/-- Request-mode against request-mode compatibility (the spec's matrix). -/
def lockCompat : LockMode → LockMode → Bool
  | .INTENTION_SHARED, m => m ≠ .EXLUCSIVE
  | .INTENTION_EXCLUSIVE, m =>
    m = .INTENTION_SHARED ∨ m = .INTENTION_EXCLUSIVE
  | .SHARED, m => m = .INTENTION_SHARED ∨ m = .SHARED
  | .S_IX, m => m = .INTENTION_SHARED
  | .EXLUCSIVE, _ => false

/-- Join of two request modes (`S ⊔ IX = SIX`). -/
def mjoin : LockMode → LockMode → LockMode
  | .EXLUCSIVE, _ => .EXLUCSIVE
  | _, .EXLUCSIVE => .EXLUCSIVE
  | .S_IX, _ => .S_IX
  | _, .S_IX => .S_IX
  | .SHARED, .INTENTION_EXCLUSIVE => .S_IX
  | .INTENTION_EXCLUSIVE, .SHARED => .S_IX
  | .SHARED, _ => .SHARED
  | _, .SHARED => .SHARED
  | .INTENTION_EXCLUSIVE, _ => .INTENTION_EXCLUSIVE
  | _, .INTENTION_EXCLUSIVE => .INTENTION_EXCLUSIVE
  | .INTENTION_SHARED, .INTENTION_SHARED => .INTENTION_SHARED

/-- C7 counterexample: transactions 1 and 2 both hold granted S table locks and
transaction 1 requests IX.  The upgraded mode SIX is incompatible with
transaction 2's granted S, so the claim demands DEADLOCK_PREVENTION — but the
code grants the upgrade, because its conflict check looks only for group modes
IX/X/SIX and the group mode here is S. -/
theorem table_upgrade_conflict_granted :
    lock_IX_on_table .GROWING 1 twoSharedQueue =
      .ok ⟨[⟨1, .S_IX, true⟩, ⟨2, .SHARED, true⟩], .SIX⟩ false ∧
    lockCompat (mjoin .SHARED .INTENTION_EXCLUSIVE) .SHARED = false := by
  constructor <;> decide

theorem onlyCurrentTxn_false_iff_other {tid : Nat} {l1 l2 : List LockRequest}
    {r : LockRequest} (hr : r.txn_id = tid) (h1 : noTxn tid l1)
    (h2 : noTxn tid l2) :
    onlyCurrentTxn tid (l1 ++ r :: l2) = false ↔
      ∃ x ∈ l1 ++ l2, x.granted = true := by
  rw [onlyCurrentTxn_false_iff]
  constructor
  · rintro ⟨x, hx, hxt, hxg⟩
    rcases List.mem_append.mp hx with hx1 | hx2
    · exact ⟨x, List.mem_append.mpr (Or.inl hx1), hxg⟩
    · rcases List.mem_cons.mp hx2 with rfl | hx3
      · exact absurd hr hxt
      · exact ⟨x, List.mem_append.mpr (Or.inr hx3), hxg⟩
  · rintro ⟨x, hx, hxg⟩
    rcases List.mem_append.mp hx with hx1 | hx2
    · exact ⟨x, by simp [hx1], h1 x hx1, hxg⟩
    · exact ⟨x, by simp [hx2], h2 x hx2, hxg⟩

theorem len_one_iff_no_other {l1 l2 : List LockRequest} {r : LockRequest}
    (hgr : allGranted (l1 ++ r :: l2)) :
    (l1 ++ r :: l2).length = 1 ↔ ¬∃ x ∈ l1 ++ l2, x.granted = true := by
  constructor
  · intro h
    obtain ⟨e1, e2⟩ := append_cons_len_one h
    subst e1; subst e2
    rintro ⟨x, hx, _⟩
    cases hx
  · intro h
    have hl1 : l1 = [] := by
      cases hll : l1 with
      | nil => rfl
      | cons a as =>
        exact absurd ⟨a, by rw [hll]; simp, hgr a (by rw [hll]; simp)⟩ h
    have hl2 : l2 = [] := by
      cases hll : l2 with
      | nil => rfl
      | cons a as =>
        exact absurd ⟨a, by rw [hll]; simp, hgr a (by rw [hll]; simp)⟩ h
    rw [hl1, hl2]
    rfl

theorem c7key_S_absorb_left (J1 J2 : GroupLockMode) (m : LockMode)
    (hm : lockCompat .SHARED m = false) (habs : gjoin J1 (modeGroup m) = J1) :
    gjoin (gjoin J1 .IS) J2 = .IX ∨ gjoin (gjoin J1 .IS) J2 = .X ∨
      gjoin (gjoin J1 .IS) J2 = .SIX := by
  revert hm habs; revert m; revert J1 J2; decide

theorem c7key_S_absorb_right (J1 J2 : GroupLockMode) (m : LockMode)
    (hm : lockCompat .SHARED m = false) (habs : gjoin J2 (modeGroup m) = J2) :
    gjoin (gjoin J1 .IS) J2 = .IX ∨ gjoin (gjoin J1 .IS) J2 = .X ∨
      gjoin (gjoin J1 .IS) J2 = .SIX := by
  revert hm habs; revert m; revert J1 J2; decide

theorem c7key_S_none (J1 J2 : GroupLockMode)
    (h1 : J1 = .NON_LOCK ∨ J1 = .IS ∨ J1 = .S)
    (h2 : J2 = .NON_LOCK ∨ J2 = .IS ∨ J2 = .S) :
    ¬(gjoin (gjoin J1 .IS) J2 = .IX ∨ gjoin (gjoin J1 .IS) J2 = .X ∨
      gjoin (gjoin J1 .IS) J2 = .SIX) := by
  revert h1 h2; revert J1 J2; decide

theorem c7key_IX_absorb_left (J1 J2 : GroupLockMode) (m : LockMode)
    (hm : lockCompat .INTENTION_EXCLUSIVE m = false)
    (habs : gjoin J1 (modeGroup m) = J1) :
    gjoin (gjoin J1 .IS) J2 = .S ∨ gjoin (gjoin J1 .IS) J2 = .X ∨
      gjoin (gjoin J1 .IS) J2 = .SIX := by
  revert hm habs; revert m; revert J1 J2; decide

theorem c7key_IX_absorb_right (J1 J2 : GroupLockMode) (m : LockMode)
    (hm : lockCompat .INTENTION_EXCLUSIVE m = false)
    (habs : gjoin J2 (modeGroup m) = J2) :
    gjoin (gjoin J1 .IS) J2 = .S ∨ gjoin (gjoin J1 .IS) J2 = .X ∨
      gjoin (gjoin J1 .IS) J2 = .SIX := by
  revert hm habs; revert m; revert J1 J2; decide

theorem c7key_IX_none (J1 J2 : GroupLockMode)
    (h1 : J1 = .NON_LOCK ∨ J1 = .IS ∨ J1 = .IX)
    (h2 : J2 = .NON_LOCK ∨ J2 = .IS ∨ J2 = .IX) :
    ¬(gjoin (gjoin J1 .IS) J2 = .S ∨ gjoin (gjoin J1 .IS) J2 = .X ∨
      gjoin (gjoin J1 .IS) J2 = .SIX) := by
  revert h1 h2; revert J1 J2; decide

theorem lockCompat_S_true {m : LockMode} (h : lockCompat .SHARED m = true) :
    m = .INTENTION_SHARED ∨ m = .SHARED := by
  revert h; cases m <;> decide

theorem lockCompat_IX_true {m : LockMode}
    (h : lockCompat .INTENTION_EXCLUSIVE m = true) :
    m = .INTENTION_SHARED ∨ m = .INTENTION_EXCLUSIVE := by
  revert h; cases m <;> decide

theorem mjoin_right_X (m : LockMode) : mjoin m .EXLUCSIVE = .EXLUCSIVE := by
  cases m <;> rfl

/-- C7 (amended): when transaction T requests mode M on an id where it already
holds a granted weaker mode, let u be the join of the held and requested
modes.  If u is not SIX, the call fails with DEADLOCK_PREVENTION exactly when
some other transaction's granted request is incompatible with u; if u is SIX,
it fails exactly when the queue's group mode is IX, X or SIX and some other
transaction holds a granted request.  On success T's request mode becomes u
and the group mode is recomputed to the join of the granted modes. -/
theorem lock_upgrade_spec (op : AcqOp) (st : TransactionState) (tid : Nat)
    (q : LockRequestQueue) (l1 l2 : List LockRequest) (r : LockRequest)
    (hwf : WfQueue op.isRec q) (hst : st ≠ .SHRINKING)
    (hsp : q.request_queue = l1 ++ r :: l2) (hr : r.txn_id = tid)
    (h1 : noTxn tid l1) (hweak : modeGe r.lock_mode op.mode = false) :
    (applyAcq op st tid q = .abort .DEADLOCK_PREVENTION ↔
      (if mjoin r.lock_mode op.mode = .S_IX then
        (q.group_lock_mode = .IX ∨ q.group_lock_mode = .X ∨
          q.group_lock_mode = .SIX) ∧ (∃ x ∈ l1 ++ l2, x.granted = true)
      else ∃ x ∈ l1 ++ l2, x.granted = true ∧
        lockCompat (mjoin r.lock_mode op.mode) x.lock_mode = false)) ∧
    (applyAcq op st tid q ≠ .abort .DEADLOCK_PREVENTION →
      applyAcq op st tid q =
        .ok ⟨l1 ++ { r with lock_mode := mjoin r.lock_mode op.mode } :: l2,
          grantedJoin (l1 ++
            { r with lock_mode := mjoin r.lock_mode op.mode } :: l2)⟩
          false) := by
  have hmem : r ∈ q.request_queue := by rw [hsp]; simp
  have hgr2 : r.granted = true := hwf.2.1 r hmem
  have h2 : noTxn tid l2 := noTxn_right_of_unique (hsp ▸ hwf.2.2.1) hr
  have hallg : allGranted (l1 ++ r :: l2) := by rw [← hsp]; exact hwf.2.1
  have hJ : q.group_lock_mode =
      gjoin (gjoin (grantedJoin l1) (modeGroup r.lock_mode))
        (grantedJoin l2) := by
    rw [hwf.1, hsp, grantedJoin_split l1 l2 r hgr2]
  have hocf := onlyCurrentTxn_false_iff_other hr h1 h2
  cases op with
  | sharedRec =>
    rcases hwf.2.2.2 rfl r hmem with hm | hm <;> rw [hm] at hweak <;>
      exact absurd hweak (by decide)
  | isTab =>
    cases hm : r.lock_mode <;> rw [hm] at hweak <;>
      exact absurd hweak (by decide)
  | exclRec =>
    rcases hwf.2.2.2 rfl r hmem with hm | hm
    · have heq := lock_exclusive_on_record_heldS st tid q l1 l2 r hsp h1 hr hm hst
      have hlen := @len_one_iff_no_other l1 l2 r hallg
      rw [hm]
      rw [show mjoin LockMode.SHARED AcqOp.exclRec.mode = LockMode.EXLUCSIVE
        from rfl]
      rw [if_neg (by decide : ¬(LockMode.EXLUCSIVE = .S_IX))]
      constructor
      · show lock_exclusive_on_record st tid q = _ ↔ _
        rw [heq]
        by_cases hl : q.request_queue.length = 1
        · rw [if_pos hl]
          constructor
          · intro habs; exact absurd habs (by simp)
          · rintro ⟨x, hx, hxg, _⟩
            rw [hsp] at hl
            exact absurd ⟨x, hx, hxg⟩ (hlen.mp hl)
        · rw [if_neg hl]
          constructor
          · intro _
            rw [hsp] at hl
            obtain ⟨x, hx, hxg⟩ := not_not.mp fun hno => hl (hlen.mpr hno)
            exact ⟨x, hx, hxg, rfl⟩
          · intro _; rfl
      · intro hne
        have hl : q.request_queue.length = 1 := by
          by_contra hl
          apply hne
          show lock_exclusive_on_record st tid q = _
          rw [heq, if_neg hl]
        have heq2 := heq
        rw [if_pos hl] at heq2
        have hq : queueAfter (.acq .exclRec) st tid q =
            ⟨l1 ++ { r with lock_mode := .EXLUCSIVE } :: l2, .X⟩ := by
          simp only [queueAfter, applyAcq, heq2]
        have hinv2 := queueAfter_groupInv (.acq .exclRec) st tid q hwf
        rw [hq] at hinv2
        have hgg : GroupLockMode.X =
            grantedJoin (l1 ++ { r with lock_mode := .EXLUCSIVE } :: l2) :=
          hinv2
        show lock_exclusive_on_record st tid q = _
        rw [heq, if_pos hl, ← hgg]
    · rw [hm] at hweak; exact absurd hweak (by decide)
  | exclTab =>
    cases hm : r.lock_mode
    case EXLUCSIVE => rw [hm] at hweak; exact absurd hweak (by decide)
    all_goals
      have hmx : r.lock_mode ≠ .EXLUCSIVE := by rw [hm]; decide
    all_goals
      have heq := lock_exclusive_on_table_heldOther st tid q l1 l2 r hsp h1 hr
        hmx hst
    all_goals
      have hlen := @len_one_iff_no_other l1 l2 r hallg
    all_goals rw [show AcqOp.exclTab.mode = LockMode.EXLUCSIVE from rfl,
      mjoin_right_X]
    all_goals rw [if_neg (by decide : ¬(LockMode.EXLUCSIVE = .S_IX))]
    all_goals constructor
    all_goals
      first
      | (show lock_exclusive_on_table st tid q = _ ↔ _
         rw [heq]
         by_cases hl : q.request_queue.length = 1
         · rw [if_pos hl]
           constructor
           · intro habs; exact absurd habs (by simp)
           · rintro ⟨x, hx, hxg, _⟩
             rw [hsp] at hl
             exact absurd ⟨x, hx, hxg⟩ (hlen.mp hl)
         · rw [if_neg hl]
           constructor
           · intro _
             rw [hsp] at hl
             obtain ⟨x, hx, hxg⟩ := not_not.mp fun hno => hl (hlen.mpr hno)
             exact ⟨x, hx, hxg, rfl⟩
           · intro _; rfl)
      | (intro hne
         have hl : q.request_queue.length = 1 := by
           by_contra hl
           apply hne
           show lock_exclusive_on_table st tid q = _
           rw [heq, if_neg hl]
         have heq2 := heq
         rw [if_pos hl] at heq2
         have hq : queueAfter (.acq .exclTab) st tid q =
             ⟨l1 ++ { r with lock_mode := .EXLUCSIVE } :: l2, .X⟩ := by
           simp only [queueAfter, applyAcq, heq2]
         have hinv2 := queueAfter_groupInv (.acq .exclTab) st tid q hwf
         rw [hq] at hinv2
         have hgg : GroupLockMode.X =
             grantedJoin (l1 ++ { r with lock_mode := .EXLUCSIVE } :: l2) :=
           hinv2
         show lock_exclusive_on_table st tid q = _
         rw [heq, if_pos hl, ← hgg])
  | sharedTab =>
    cases hm : r.lock_mode
    case SHARED => rw [hm] at hweak; exact absurd hweak (by decide)
    case EXLUCSIVE => rw [hm] at hweak; exact absurd hweak (by decide)
    case S_IX => rw [hm] at hweak; exact absurd hweak (by decide)
    case INTENTION_SHARED =>
      have heq := lock_shared_on_table_heldIS st tid q l1 l2 r hsp h1 hr hm hst
      rw [show mjoin LockMode.INTENTION_SHARED AcqOp.sharedTab.mode =
        LockMode.SHARED from rfl]
      rw [if_neg (by decide : ¬(LockMode.SHARED = .S_IX))]
      rw [hm] at hJ
      constructor
      · show lock_shared_on_table st tid q = _ ↔ _
        rw [heq]
        by_cases hc : (q.group_lock_mode = .IX ∨ q.group_lock_mode = .X ∨
            q.group_lock_mode = .SIX) ∧
            onlyCurrentTxn tid q.request_queue = false
        · rw [if_pos hc]
          constructor
          · intro _
            by_contra hno
            push_neg at hno
            have hcl1 : ∀ x ∈ l1, x.granted = true →
                x.lock_mode = .INTENTION_SHARED ∨ x.lock_mode = .SHARED := by
              intro x hx hxg
              have := hno x (List.mem_append.mpr (Or.inl hx)) hxg
              exact lockCompat_S_true (by
                cases hcc : lockCompat .SHARED x.lock_mode
                · exact absurd hcc this
                · rfl)
            have hcl2 : ∀ x ∈ l2, x.granted = true →
                x.lock_mode = .INTENTION_SHARED ∨ x.lock_mode = .SHARED := by
              intro x hx hxg
              have := hno x (List.mem_append.mpr (Or.inr hx)) hxg
              exact lockCompat_S_true (by
                cases hcc : lockCompat .SHARED x.lock_mode
                · exact absurd hcc this
                · rfl)
            have hset := hc.1
            rw [hJ] at hset
            exact c7key_S_none (grantedJoin l1) (grantedJoin l2)
              (grantedJoin_isOrS hcl1) (grantedJoin_isOrS hcl2) hset
          · intro _; rfl
        · rw [if_neg hc]
          constructor
          · intro habs; exact absurd habs (by simp)
          · rintro ⟨x, hx, hxg, hxc⟩
            exfalso
            apply hc
            refine ⟨?_, by rw [hsp]; exact hocf.mpr ⟨x, hx, hxg⟩⟩
            rw [hJ]
            rcases List.mem_append.mp hx with hx1 | hx2
            · exact c7key_S_absorb_left (grantedJoin l1) (grantedJoin l2)
                x.lock_mode hxc (grantedJoin_absorb hx1 hxg)
            · exact c7key_S_absorb_right (grantedJoin l1) (grantedJoin l2)
                x.lock_mode hxc (grantedJoin_absorb hx2 hxg)
      · intro hne
        have hc : ¬((q.group_lock_mode = .IX ∨ q.group_lock_mode = .X ∨
            q.group_lock_mode = .SIX) ∧
            onlyCurrentTxn tid q.request_queue = false) := by
          intro hc
          apply hne
          show lock_shared_on_table st tid q = _
          rw [heq, if_pos hc]
        have heq2 := heq
        rw [if_neg hc] at heq2
        have hq : queueAfter (.acq .sharedTab) st tid q =
            ⟨l1 ++ { r with lock_mode := .SHARED } :: l2, .S⟩ := by
          simp only [queueAfter, applyAcq, heq2]
        have hinv2 := queueAfter_groupInv (.acq .sharedTab) st tid q hwf
        rw [hq] at hinv2
        have hgg : GroupLockMode.S =
            grantedJoin (l1 ++ { r with lock_mode := .SHARED } :: l2) := hinv2
        show lock_shared_on_table st tid q = _
        rw [heq, if_neg hc, ← hgg]
    case INTENTION_EXCLUSIVE =>
      have heq := lock_shared_on_table_heldIX st tid q l1 l2 r hsp h1 hr hm hst
      rw [show mjoin LockMode.INTENTION_EXCLUSIVE AcqOp.sharedTab.mode =
        LockMode.S_IX from rfl]
      rw [if_pos (rfl : (LockMode.S_IX : LockMode) = .S_IX)]
      constructor
      · show lock_shared_on_table st tid q = _ ↔ _
        rw [heq]
        by_cases hc : (q.group_lock_mode = .IX ∨ q.group_lock_mode = .X ∨
            q.group_lock_mode = .SIX) ∧
            onlyCurrentTxn tid q.request_queue = false
        · rw [if_pos hc]
          constructor
          · intro _
            refine ⟨hc.1, ?_⟩
            have hc2 := hc.2
            rw [hsp] at hc2
            exact hocf.mp hc2
          · intro _; rfl
        · rw [if_neg hc]
          constructor
          · intro habs; exact absurd habs (by simp)
          · rintro ⟨hset, hex2⟩
            exact absurd ⟨hset, by rw [hsp]; exact hocf.mpr hex2⟩ hc
      · intro hne
        have hc : ¬((q.group_lock_mode = .IX ∨ q.group_lock_mode = .X ∨
            q.group_lock_mode = .SIX) ∧
            onlyCurrentTxn tid q.request_queue = false) := by
          intro hc
          apply hne
          show lock_shared_on_table st tid q = _
          rw [heq, if_pos hc]
        have heq2 := heq
        rw [if_neg hc] at heq2
        have hq : queueAfter (.acq .sharedTab) st tid q =
            ⟨l1 ++ { r with lock_mode := .S_IX } :: l2, .SIX⟩ := by
          simp only [queueAfter, applyAcq, heq2]
        have hinv2 := queueAfter_groupInv (.acq .sharedTab) st tid q hwf
        rw [hq] at hinv2
        have hgg : GroupLockMode.SIX =
            grantedJoin (l1 ++ { r with lock_mode := .S_IX } :: l2) := hinv2
        show lock_shared_on_table st tid q = _
        rw [heq, if_neg hc, ← hgg]
  | ixTab =>
    cases hm : r.lock_mode
    case INTENTION_EXCLUSIVE => rw [hm] at hweak; exact absurd hweak (by decide)
    case EXLUCSIVE => rw [hm] at hweak; exact absurd hweak (by decide)
    case S_IX => rw [hm] at hweak; exact absurd hweak (by decide)
    case INTENTION_SHARED =>
      have heq := lock_IX_on_table_heldIS st tid q l1 l2 r hsp h1 hr hm hst
      rw [show mjoin LockMode.INTENTION_SHARED AcqOp.ixTab.mode =
        LockMode.INTENTION_EXCLUSIVE from rfl]
      rw [if_neg (by decide : ¬(LockMode.INTENTION_EXCLUSIVE = .S_IX))]
      rw [hm] at hJ
      constructor
      · show lock_IX_on_table st tid q = _ ↔ _
        rw [heq]
        by_cases hc : (q.group_lock_mode = .S ∨ q.group_lock_mode = .X ∨
            q.group_lock_mode = .SIX) ∧
            onlyCurrentTxn tid q.request_queue = false
        · rw [if_pos hc]
          constructor
          · intro _
            by_contra hno
            push_neg at hno
            have hcl1 : ∀ x ∈ l1, x.granted = true →
                x.lock_mode = .INTENTION_SHARED ∨
                  x.lock_mode = .INTENTION_EXCLUSIVE := by
              intro x hx hxg
              have := hno x (List.mem_append.mpr (Or.inl hx)) hxg
              exact lockCompat_IX_true (by
                cases hcc : lockCompat .INTENTION_EXCLUSIVE x.lock_mode
                · exact absurd hcc this
                · rfl)
            have hcl2 : ∀ x ∈ l2, x.granted = true →
                x.lock_mode = .INTENTION_SHARED ∨
                  x.lock_mode = .INTENTION_EXCLUSIVE := by
              intro x hx hxg
              have := hno x (List.mem_append.mpr (Or.inr hx)) hxg
              exact lockCompat_IX_true (by
                cases hcc : lockCompat .INTENTION_EXCLUSIVE x.lock_mode
                · exact absurd hcc this
                · rfl)
            have hset := hc.1
            rw [hJ] at hset
            exact c7key_IX_none (grantedJoin l1) (grantedJoin l2)
              (grantedJoin_intention hcl1) (grantedJoin_intention hcl2) hset
          · intro _; rfl
        · rw [if_neg hc]
          constructor
          · intro habs; exact absurd habs (by simp)
          · rintro ⟨x, hx, hxg, hxc⟩
            exfalso
            apply hc
            refine ⟨?_, by rw [hsp]; exact hocf.mpr ⟨x, hx, hxg⟩⟩
            rw [hJ]
            rcases List.mem_append.mp hx with hx1 | hx2
            · exact c7key_IX_absorb_left (grantedJoin l1) (grantedJoin l2)
                x.lock_mode hxc (grantedJoin_absorb hx1 hxg)
            · exact c7key_IX_absorb_right (grantedJoin l1) (grantedJoin l2)
                x.lock_mode hxc (grantedJoin_absorb hx2 hxg)
      · intro hne
        have hc : ¬((q.group_lock_mode = .S ∨ q.group_lock_mode = .X ∨
            q.group_lock_mode = .SIX) ∧
            onlyCurrentTxn tid q.request_queue = false) := by
          intro hc
          apply hne
          show lock_IX_on_table st tid q = _
          rw [heq, if_pos hc]
        have heq2 := heq
        rw [if_neg hc] at heq2
        have hq : queueAfter (.acq .ixTab) st tid q =
            ⟨l1 ++ { r with lock_mode := .INTENTION_EXCLUSIVE } :: l2,
              if q.group_lock_mode = .IS ∨ q.group_lock_mode = .NON_LOCK
              then .IX else q.group_lock_mode⟩ := by
          simp only [queueAfter, applyAcq, heq2]
        have hinv2 := queueAfter_groupInv (.acq .ixTab) st tid q hwf
        rw [hq] at hinv2
        have hgg : (if q.group_lock_mode = .IS ∨ q.group_lock_mode = .NON_LOCK
            then GroupLockMode.IX else q.group_lock_mode) =
            grantedJoin (l1 ++
              { r with lock_mode := .INTENTION_EXCLUSIVE } :: l2) := hinv2
        show lock_IX_on_table st tid q = _
        rw [heq, if_neg hc, ← hgg]
    case SHARED =>
      have heq := lock_IX_on_table_heldS st tid q l1 l2 r hsp h1 hr hm hst
      rw [show mjoin LockMode.SHARED AcqOp.ixTab.mode = LockMode.S_IX
        from rfl]
      rw [if_pos (rfl : (LockMode.S_IX : LockMode) = .S_IX)]
      constructor
      · show lock_IX_on_table st tid q = _ ↔ _
        rw [heq]
        by_cases hc : (q.group_lock_mode = .IX ∨ q.group_lock_mode = .X ∨
            q.group_lock_mode = .SIX) ∧
            onlyCurrentTxn tid q.request_queue = false
        · rw [if_pos hc]
          constructor
          · intro _
            refine ⟨hc.1, ?_⟩
            have hc2 := hc.2
            rw [hsp] at hc2
            exact hocf.mp hc2
          · intro _; rfl
        · rw [if_neg hc]
          constructor
          · intro habs; exact absurd habs (by simp)
          · rintro ⟨hset, hex2⟩
            exact absurd ⟨hset, by rw [hsp]; exact hocf.mpr hex2⟩ hc
      · intro hne
        have hc : ¬((q.group_lock_mode = .IX ∨ q.group_lock_mode = .X ∨
            q.group_lock_mode = .SIX) ∧
            onlyCurrentTxn tid q.request_queue = false) := by
          intro hc
          apply hne
          show lock_IX_on_table st tid q = _
          rw [heq, if_pos hc]
        have heq2 := heq
        rw [if_neg hc] at heq2
        have hq : queueAfter (.acq .ixTab) st tid q =
            ⟨l1 ++ { r with lock_mode := .S_IX } :: l2, .SIX⟩ := by
          simp only [queueAfter, applyAcq, heq2]
        have hinv2 := queueAfter_groupInv (.acq .ixTab) st tid q hwf
        rw [hq] at hinv2
        have hgg : GroupLockMode.SIX =
            grantedJoin (l1 ++ { r with lock_mode := .S_IX } :: l2) := hinv2
        show lock_IX_on_table st tid q = _
        rw [heq, if_neg hc, ← hgg]

/-- Witness for the amended C7 at a concrete input: transaction 1 upgrades its
IS table lock to S in an otherwise-empty queue; the upgrade succeeds and the
group mode is recomputed. -/
theorem lock_upgrade_spec_witness :
    WfQueue AcqOp.sharedTab.isRec ⟨[⟨1, .INTENTION_SHARED, true⟩], .IS⟩ ∧
    modeGe LockMode.INTENTION_SHARED AcqOp.sharedTab.mode = false ∧
    applyAcq .sharedTab .GROWING 1 ⟨[⟨1, .INTENTION_SHARED, true⟩], .IS⟩ =
      .ok ⟨[⟨1, .SHARED, true⟩], .S⟩ false := by
  have hwf : WfQueue AcqOp.sharedTab.isRec
      ⟨[⟨1, .INTENTION_SHARED, true⟩], .IS⟩ := by
    refine ⟨rfl, ?_, ?_, ?_⟩
    · intro r hr
      simp at hr
      rw [hr]
    · simp [uniqueTxn]
    · intro h
      cases h
  have hmain := lock_upgrade_spec .sharedTab .GROWING 1
    ⟨[⟨1, .INTENTION_SHARED, true⟩], .IS⟩ [] []
    ⟨1, .INTENTION_SHARED, true⟩ hwf (by intro h; cases h) rfl rfl
    (fun x hx => absurd hx (List.not_mem_nil x)) (by decide)
  have hne : applyAcq .sharedTab .GROWING 1
      ⟨[⟨1, .INTENTION_SHARED, true⟩], .IS⟩ ≠ .abort .DEADLOCK_PREVENTION := by
    decide
  refine ⟨hwf, by decide, ?_⟩
  rw [hmain.2 hne]
  decide

/-! ## Heap file (`rm_file_handle.cpp`) -/

/-- `RM_NO_PAGE` (record-manager header constant, spec layout). -/
def RM_NO_PAGE : Int := -1

/-- `RM_FIRST_RECORD_PAGE`: data pages start at page 1; page 0 is the file
header (spec layout). -/
def RM_FIRST_RECORD_PAGE : Int := 1

/-- A fixed-width record payload, modelled as its list of bytes. -/
abbrev RmRec := List Int

/-- Physical record address. -/
structure Rid where
  page_no : Int
  slot_no : Int
  deriving DecidableEq, Repr

/-- One data page: page header (`num_records`, `next_free_page_no`), the slot
bitmap and the slot payloads. -/
structure RmPage where
  num_records : Nat
  next_free_page_no : Int
  bitmap : List Bool
  slots : List RmRec
  deriving DecidableEq, Repr

instance : Inhabited RmPage := ⟨⟨0, RM_NO_PAGE, [], []⟩⟩

/-- The heap file header (`RmFileHdr`). -/
structure RmFileHdr where
  record_size : Nat
  num_records_per_page : Nat
  num_pages : Nat
  first_free_page_no : Int
  deriving DecidableEq, Repr

/-- A heap file: header plus data pages; `pages[i]` is page number `i + 1`
(page 0 holds the serialized header). -/
structure RmFile where
  file_hdr : RmFileHdr
  pages : List RmPage
  deriving DecidableEq, Repr

/-- Heap error kinds surfaced by the record manager. -/
inductive RmError where
  | PAGE_NOT_EXIST
  | RECORD_NOT_FOUND
  deriving DecidableEq, Repr

/-- Look up data page `p` (page numbers start at 1). -/
def pageIdx (pages : List RmPage) (p : Int) : Option RmPage :=
  if 1 ≤ p then pages.get? (p - 1).toNat else none

/-- Total page access used after the bounds check of `fetch_page_handle`. -/
def getPage (f : RmFile) (p : Int) : RmPage :=
  (pageIdx f.pages p).getD default

/-- Replace data page `p`. -/
def setPage (f : RmFile) (p : Int) (pg : RmPage) : RmFile :=
  { f with pages := f.pages.set (p - 1).toNat pg }

/-- `Bitmap::is_set`. -/
def isSet (bm : List Bool) (i : Int) : Bool :=
  bm.getD i.toNat false

/-- `Bitmap::first_bit(false, ...)`: index of the first clear bit, or the
bitmap length when every bit is set. -/
def firstFreeSlot (bm : List Bool) : Nat :=
  bm.findIdx (fun b => !b)

/-- Number of set bits. -/
def popcount (bm : List Bool) : Nat := bm.count true

/-- The bounds check of `fetch_page_handle`: valid data pages are
`[RM_FIRST_RECORD_PAGE, num_pages)`. -/
def pageInBounds (f : RmFile) (p : Int) : Prop :=
  ¬(p < RM_FIRST_RECORD_PAGE ∨ p ≥ (f.file_hdr.num_pages : Int))

instance (f : RmFile) (p : Int) : Decidable (pageInBounds f p) := by
  unfold pageInBounds; infer_instance

/-- `get_record` (heap part, after the row-lock step). -/
def get_record_heap (f : RmFile) (rid : Rid) : Except RmError RmRec :=
  if ¬pageInBounds f rid.page_no then .error .PAGE_NOT_EXIST
  else
    let pg := getPage f rid.page_no
    if isSet pg.bitmap rid.slot_no = false then .error .RECORD_NOT_FOUND
    else .ok (pg.slots.getD rid.slot_no.toNat [])

/-- `create_new_page_handle`: allocate a new data page (page number
`num_pages`, threaded to the head of the free list) and bump the header. -/
def create_new_page_handle (f : RmFile) : RmFile × Int :=
  let pno : Int := f.file_hdr.num_pages
  let pg : RmPage :=
    { num_records := 0
      next_free_page_no := f.file_hdr.first_free_page_no
      bitmap := List.replicate f.file_hdr.num_records_per_page false
      slots := List.replicate f.file_hdr.num_records_per_page [] }
  ({ file_hdr := { f.file_hdr with
        first_free_page_no := pno
        num_pages := f.file_hdr.num_pages + 1 }
     pages := f.pages ++ [pg] }, pno)

/-- `create_page_handle`: head of the free-page list, or a new page. -/
def create_page_handle (f : RmFile) : RmFile × Int :=
  if f.file_hdr.first_free_page_no = RM_NO_PAGE then create_new_page_handle f
  else (f, f.file_hdr.first_free_page_no)

/-- `insert_record(char*, Context*)`: pick a page with a free slot, write the
payload into the first clear slot, set its bit, bump `num_records`, and unlink
the page from the free list when it becomes full.  Returns `Rid{-1,-1}` on the
defensive no-free-slot path. -/
def insert_record (f : RmFile) (buf : RmRec) : Rid × RmFile :=
  let fp := create_page_handle f
  let f1 := fp.1
  let pno := fp.2
  let pg := getPage f1 pno
  let slot := firstFreeSlot pg.bitmap
  if slot ≥ f1.file_hdr.num_records_per_page then (⟨-1, -1⟩, f1)
  else
    let pg1 : RmPage :=
      { pg with
        slots := pg.slots.set slot buf
        bitmap := pg.bitmap.set slot true
        num_records := pg.num_records + 1 }
    if pg1.num_records = f1.file_hdr.num_records_per_page then
      let f2 := setPage f1 pno { pg1 with next_free_page_no := RM_NO_PAGE }
      (⟨pno, (slot : Int)⟩,
        { f2 with file_hdr :=
            { f2.file_hdr with first_free_page_no := pg.next_free_page_no } })
    else (⟨pno, (slot : Int)⟩, setPage f1 pno pg1)

/-- `insert_record(const Rid&, char*)`: undo-replay insertion at a given rid.
Writes the slot, sets the bit and bumps `num_records`; the free-page list is
not updated. -/
def insert_record_at (f : RmFile) (rid : Rid) (buf : RmRec) :
    Except RmError Unit × RmFile :=
  if ¬pageInBounds f rid.page_no then (.error .PAGE_NOT_EXIST, f)
  else
    let pg := getPage f rid.page_no
    let pg1 : RmPage :=
      { pg with
        slots := pg.slots.set rid.slot_no.toNat buf
        bitmap := pg.bitmap.set rid.slot_no.toNat true
        num_records := pg.num_records + 1 }
    (.ok (), setPage f rid.page_no pg1)

/-- `delete_record` (heap part): clear the bit, decrement `num_records`, and
when the page was full, relink it at the head of the free list
(`release_page_handle`). -/
def delete_record_heap (f : RmFile) (rid : Rid) :
    Except RmError Unit × RmFile :=
  if ¬pageInBounds f rid.page_no then (.error .PAGE_NOT_EXIST, f)
  else
    let pg := getPage f rid.page_no
    if isSet pg.bitmap rid.slot_no = false then (.error .RECORD_NOT_FOUND, f)
    else
      let was_full := pg.num_records = f.file_hdr.num_records_per_page
      let pg1 : RmPage :=
        { pg with
          bitmap := pg.bitmap.set rid.slot_no.toNat false
          num_records := pg.num_records - 1 }
      if was_full then
        (.ok (),
          { file_hdr :=
              { f.file_hdr with first_free_page_no := rid.page_no }
            pages := (setPage f rid.page_no
              { pg1 with
                next_free_page_no := f.file_hdr.first_free_page_no }).pages })
      else (.ok (), setPage f rid.page_no pg1)

/-- `update_record` (heap part): overwrite the payload in place. -/
def update_record_heap (f : RmFile) (rid : Rid) (buf : RmRec) :
    Except RmError Unit × RmFile :=
  if ¬pageInBounds f rid.page_no then (.error .PAGE_NOT_EXIST, f)
  else
    let pg := getPage f rid.page_no
    if isSet pg.bitmap rid.slot_no = false then (.error .RECORD_NOT_FOUND, f)
    else
      (.ok (), setPage f rid.page_no
        { pg with slots := pg.slots.set rid.slot_no.toNat buf })

/-! ### The heap/bitmap/free-list invariant -/

/-- The free-page list threaded through `next_free_page_no`, rooted at
`first_free_page_no`. -/
inductive IsFreeChain (pages : List RmPage) : Int → List Int → Prop where
  | nil : IsFreeChain pages RM_NO_PAGE []
  | cons {p : Int} {pg : RmPage} {rest : List Int} :
      p ≠ RM_NO_PAGE →
      pageIdx pages p = some pg →
      IsFreeChain pages pg.next_free_page_no rest →
      IsFreeChain pages p (p :: rest)

/-- Structural well-formedness of the embedding: header page count, positive
page capacity, and per-page bitmap/slot lengths. -/
def heapWf (f : RmFile) : Prop :=
  f.file_hdr.num_pages = f.pages.length + 1 ∧
  0 < f.file_hdr.num_records_per_page ∧
  ∀ i, (h : i < f.pages.length) →
    (f.pages.get ⟨i, h⟩).bitmap.length = f.file_hdr.num_records_per_page ∧
    (f.pages.get ⟨i, h⟩).slots.length = f.file_hdr.num_records_per_page

/-- `num_records` of every page equals the popcount of its bitmap (a slot is
occupied exactly when its bit is set, and the counter agrees). -/
def popInv (f : RmFile) : Prop :=
  ∀ i, (h : i < f.pages.length) →
    (f.pages.get ⟨i, h⟩).num_records = popcount (f.pages.get ⟨i, h⟩).bitmap

/-- Free-list clauses for a given chain: every non-full page appears exactly
once in the free list; a full page appears in no list and has
`next_free_page_no = NONE`. -/
def freeClauses (f : RmFile) (chain : List Int) : Prop :=
  ∀ i, (h : i < f.pages.length) →
    ((f.pages.get ⟨i, h⟩).num_records < f.file_hdr.num_records_per_page →
      chain.count ((i : Int) + 1) = 1) ∧
    ((f.pages.get ⟨i, h⟩).num_records = f.file_hdr.num_records_per_page →
      ((i : Int) + 1) ∉ chain ∧
      (f.pages.get ⟨i, h⟩).next_free_page_no = RM_NO_PAGE)

/-- The free-list part of the heap invariant. -/
def freeInv (f : RmFile) : Prop :=
  ∃ chain, IsFreeChain f.pages f.file_hdr.first_free_page_no chain ∧
    freeClauses f chain

/-- The heap/bitmap/free-list invariant of the spec. -/
def heapInv (f : RmFile) : Prop := popInv f ∧ freeInv f

instance (f : RmFile) : Decidable (popInv f) := by
  unfold popInv
  infer_instance

instance (f : RmFile) : Decidable (heapWf f) := by
  unfold heapWf
  infer_instance

instance (f : RmFile) (chain : List Int) : Decidable (freeClauses f chain) := by
  unfold freeClauses
  infer_instance

/-! ### Bitmap and page-lookup lemmas -/

theorem count_set_false (bm : List Bool) (i : Nat) (h : i < bm.length)
    (hb : bm.get ⟨i, h⟩ = true) :
    popcount (bm.set i false) + 1 = popcount bm := by
  induction bm generalizing i with
  | nil => cases h
  | cons b bs ih =>
    cases i with
    | zero =>
      simp only [List.get] at hb
      simp [popcount, List.set, hb]
    | succ j =>
      simp only [List.get] at hb
      have := ih j (by simpa using h) hb
      simp only [popcount, List.set, List.count_cons] at *
      omega

theorem count_set_true (bm : List Bool) (i : Nat) (h : i < bm.length)
    (hb : bm.get ⟨i, h⟩ = false) :
    popcount (bm.set i true) = popcount bm + 1 := by
  induction bm generalizing i with
  | nil => cases h
  | cons b bs ih =>
    cases i with
    | zero =>
      simp only [List.get] at hb
      simp [popcount, List.set, hb]
    | succ j =>
      simp only [List.get] at hb
      have := ih j (by simpa using h) hb
      simp only [popcount, List.set, List.count_cons] at *
      omega

theorem popcount_le_length (bm : List Bool) : popcount bm ≤ bm.length :=
  List.count_le_length _ _

theorem firstFreeSlot_lt (bm : List Bool) (h : popcount bm < bm.length) :
    firstFreeSlot bm < bm.length := by
  apply List.findIdx_lt_length_of_exists
  by_contra hno
  push_neg at hno
  have hall : ∀ x ∈ bm, true = x := by
    intro x hx
    have := hno x hx
    cases x
    · simp at this
    · rfl
  have := List.count_eq_length.mpr hall
  rw [popcount] at h
  omega

theorem firstFreeSlot_get (bm : List Bool) (h : firstFreeSlot bm < bm.length) :
    bm.get ⟨firstFreeSlot bm, h⟩ = false := by
  have h2 := @List.findIdx_get _ (fun b => !b) bm h
  have h3 : (!bm.get ⟨firstFreeSlot bm, h⟩) = true := h2
  cases hb : bm.get ⟨firstFreeSlot bm, h⟩
  · rfl
  · rw [hb] at h3
    exact absurd h3 (by decide)

/-- Traversal of a free chain only depends on the `next_free_page_no` of the
pages on the chain. -/
def nextOf (pages : List RmPage) (p : Int) : Option Int :=
  (pageIdx pages p).map (·.next_free_page_no)

theorem chain_congr {pages pages2 : List RmPage} {first : Int} {l : List Int}
    (hch : IsFreeChain pages first l)
    (h : ∀ p ∈ l, nextOf pages2 p = nextOf pages p) :
    IsFreeChain pages2 first l := by
  induction hch with
  | nil => exact .nil
  | cons hne hidx hrest ih =>
    rename_i p pg rest
    have h1 : nextOf pages2 p = some pg.next_free_page_no := by
      rw [h p (by simp), nextOf, hidx]
      rfl
    obtain ⟨pg2, hpg2, hnext⟩ : ∃ pg2, pageIdx pages2 p = some pg2 ∧
        pg2.next_free_page_no = pg.next_free_page_no := by
      unfold nextOf at h1
      cases hidx2 : pageIdx pages2 p with
      | none => rw [hidx2] at h1; cases h1
      | some pg2 =>
        rw [hidx2] at h1
        exact ⟨pg2, rfl, by simpa using h1⟩
    refine .cons hne hpg2 ?_
    rw [hnext]
    exact ih fun q hq => h q (by simp [hq])

theorem pageIdx_eq_some {pages : List RmPage} {p : Int} {pg : RmPage}
    (h : pageIdx pages p = some pg) :
    1 ≤ p ∧ ∃ hlt : (p - 1).toNat < pages.length,
      pages.get ⟨(p - 1).toNat, hlt⟩ = pg := by
  unfold pageIdx at h
  by_cases hp : 1 ≤ p
  · rw [if_pos hp] at h
    obtain ⟨hlt, hget⟩ := List.get?_eq_some.mp h
    exact ⟨hp, hlt, hget⟩
  · rw [if_neg hp] at h
    cases h

theorem pageIdx_of_get {pages : List RmPage} {i : Nat} (h : i < pages.length) :
    pageIdx pages ((i : Int) + 1) = some (pages.get ⟨i, h⟩) := by
  unfold pageIdx
  rw [if_pos (by omega)]
  have : (((i : Int) + 1) - 1).toNat = i := by omega
  rw [this]
  exact List.get?_eq_get h

theorem pageIdx_set_ne {pages : List RmPage} {p q : Int} (hp : 1 ≤ p)
    (hne : q ≠ p) (pg : RmPage) :
    pageIdx (pages.set (p - 1).toNat pg) q = pageIdx pages q := by
  unfold pageIdx
  by_cases hq : 1 ≤ q
  · rw [if_pos hq, if_pos hq]
    exact List.get?_set_ne pg pages (by omega)
  · rw [if_neg hq, if_neg hq]

theorem pageIdx_set_self {pages : List RmPage} {p : Int} {pg0 : RmPage}
    (h : pageIdx pages p = some pg0) (pg : RmPage) :
    pageIdx (pages.set (p - 1).toNat pg) p = some pg := by
  obtain ⟨hp, hlt, _⟩ := pageIdx_eq_some h
  unfold pageIdx
  rw [if_pos hp]
  exact List.get?_set_eq_of_lt pg hlt

theorem pageIdx_append {pages : List RmPage} {q : Int} {pg0 : RmPage}
    (h : pageIdx pages q = some pg0) (pg : RmPage) :
    pageIdx (pages ++ [pg]) q = some pg0 := by
  obtain ⟨hq, hlt, hget⟩ := pageIdx_eq_some h
  unfold pageIdx
  rw [if_pos hq, List.get?_append hlt, List.get?_eq_get hlt, hget]

theorem pageIdx_append_new (pages : List RmPage) (pg : RmPage) :
    pageIdx (pages ++ [pg]) ((pages.length : Int) + 1) = some pg := by
  unfold pageIdx
  rw [if_pos (by omega)]
  have h1 : (((pages.length : Int) + 1) - 1).toNat = pages.length := by omega
  rw [h1]
  rw [List.get?_append_right (by omega)]
  simp

/-! ### Free-chain and page-update helper lemmas -/

theorem isFreeChain_inv {pages : List RmPage} {first : Int} {l : List Int}
    (h : IsFreeChain pages first l) :
    (first = RM_NO_PAGE ∧ l = []) ∨
    (first ≠ RM_NO_PAGE ∧ ∃ pg rest, pageIdx pages first = some pg ∧
      l = first :: rest ∧ IsFreeChain pages pg.next_free_page_no rest) := by
  cases h with
  | nil => exact .inl ⟨rfl, rfl⟩
  | cons hne hidx hrest => exact .inr ⟨hne, _, _, hidx, rfl, hrest⟩

theorem getPage_spec {f : RmFile} {p : Int}
    (hnp : f.file_hdr.num_pages = f.pages.length + 1)
    (hb : pageInBounds f p) :
    ∃ hlt : (p - 1).toNat < f.pages.length,
      getPage f p = f.pages.get ⟨(p - 1).toNat, hlt⟩ ∧
      pageIdx f.pages p = some (getPage f p) ∧ 1 ≤ p := by
  unfold pageInBounds RM_FIRST_RECORD_PAGE at hb
  push_neg at hb
  obtain ⟨h1, h2⟩ := hb
  rw [hnp] at h2
  have hlt : (p - 1).toNat < f.pages.length := by omega
  have hidx : pageIdx f.pages p = some (f.pages.get ⟨(p - 1).toNat, hlt⟩) := by
    unfold pageIdx
    rw [if_pos h1]
    exact List.get?_eq_get hlt
  have hgp : getPage f p = f.pages.get ⟨(p - 1).toNat, hlt⟩ := by
    unfold getPage
    rw [hidx]
    rfl
  exact ⟨hlt, hgp, by rw [hgp]; exact hidx, h1⟩

theorem pages_set_get {pages : List RmPage} {p : Int} (hp : 1 ≤ p)
    (pg : RmPage) {i : Nat} (h : i < pages.length)
    (h2 : i < (pages.set (p - 1).toNat pg).length) :
    (pages.set (p - 1).toNat pg).get ⟨i, h2⟩ =
      if (p - 1).toNat = i then pg else pages.get ⟨i, h⟩ := by
  by_cases he : (p - 1).toNat = i
  · rw [if_pos he]
    subst he
    exact List.get_set_eq h2
  · rw [if_neg he]
    exact List.get_set_ne he h2

theorem nextOf_set_preserved {pages : List RmPage} {p : Int} {pg0 pg : RmPage}
    (hidx : pageIdx pages p = some pg0)
    (hnext : pg.next_free_page_no = pg0.next_free_page_no) (q : Int) :
    nextOf (pages.set (p - 1).toNat pg) q = nextOf pages q := by
  obtain ⟨hp, hlt, hget⟩ := pageIdx_eq_some hidx
  by_cases hq : q = p
  · subst hq
    unfold nextOf
    rw [pageIdx_set_self hidx, hidx]
    simp [hnext]
  · unfold nextOf
    rw [pageIdx_set_ne hp hq]

theorem nextOf_set_ne {pages : List RmPage} {p q : Int} (hp : 1 ≤ p)
    (hq : q ≠ p) (pg : RmPage) :
    nextOf (pages.set (p - 1).toNat pg) q = nextOf pages q := by
  unfold nextOf
  rw [pageIdx_set_ne hp hq]

theorem isFreeChain_append {pages : List RmPage} {first : Int} {l : List Int}
    (h : IsFreeChain pages first l) (pg : RmPage) :
    IsFreeChain (pages ++ [pg]) first l := by
  induction h with
  | nil => exact .nil
  | cons hne hidx _ ih => exact .cons hne (pageIdx_append hidx pg) ih

theorem chain_mem_bound {pages : List RmPage} {first : Int} {l : List Int}
    (h : IsFreeChain pages first l) :
    ∀ q ∈ l, 1 ≤ q ∧ (q - 1).toNat < pages.length := by
  induction h with
  | nil => intro q hq; cases hq
  | cons hne hidx hrest ih =>
    intro q hq
    rcases List.mem_cons.mp hq with rfl | hq'
    · obtain ⟨h1, hlt, _⟩ := pageIdx_eq_some hidx
      exact ⟨h1, hlt⟩
    · exact ih q hq'

theorem isSet_true_spec {bm : List Bool} {s : Int} (h : ¬isSet bm s = false) :
    ∃ hlt : s.toNat < bm.length, bm.get ⟨s.toNat, hlt⟩ = true := by
  unfold isSet at h
  by_cases hlt : s.toNat < bm.length
  · refine ⟨hlt, ?_⟩
    rw [List.getD_eq_get bm false hlt] at h
    cases hb : bm.get ⟨s.toNat, hlt⟩
    · rw [hb] at h
      exact absurd rfl h
    · rfl
  · exfalso
    apply h
    unfold List.getD
    rw [List.get?_eq_none.mpr (by omega)]
    rfl

theorem popcount_replicate (n : Nat) :
    popcount (List.replicate n false) = 0 := by
  unfold popcount
  induction n with
  | zero => rfl
  | succ k ih => simp [List.replicate, List.count_cons, ih]

theorem popcount_pos_of_get {bm : List Bool} {i : Nat} (h : i < bm.length)
    (hb : bm.get ⟨i, h⟩ = true) : 0 < popcount bm := by
  unfold popcount
  rw [List.count_pos_iff]
  rw [← hb]
  exact bm.get_mem _ _

/-! ### Invariant transfer along a single-page update -/

theorem popInv_set_of {f : RmFile} {p : Int} {pg0 pg : RmPage}
    (hidx : pageIdx f.pages p = some pg0)
    (hpop : popInv f)
    (hpg : pg.num_records = popcount pg.bitmap) :
    popInv (setPage f p pg) := by
  obtain ⟨hp1, hlt, hget⟩ := pageIdx_eq_some hidx
  intro i h
  simp only [setPage] at h ⊢
  have h' : i < f.pages.length := by simpa using h
  rw [pages_set_get hp1 pg h']
  by_cases he : (p - 1).toNat = i
  · rw [if_pos he]
    exact hpg
  · rw [if_neg he]
    exact hpop i h'

theorem freeClauses_set_of {f : RmFile} {p : Int} {pg0 pg : RmPage}
    {chain : List Int}
    (hidx : pageIdx f.pages p = some pg0)
    (hcl : freeClauses f chain)
    (h1 : pg.num_records < f.file_hdr.num_records_per_page →
      chain.count p = 1)
    (h2 : pg.num_records = f.file_hdr.num_records_per_page →
      p ∉ chain ∧ pg.next_free_page_no = RM_NO_PAGE) :
    freeClauses (setPage f p pg) chain := by
  obtain ⟨hp1, hlt, hget⟩ := pageIdx_eq_some hidx
  intro i h
  simp only [setPage] at h ⊢
  have h' : i < f.pages.length := by simpa using h
  rw [pages_set_get hp1 pg h']
  by_cases he : (p - 1).toNat = i
  · rw [if_pos he]
    have hpi : ((i : Int) + 1) = p := by omega
    rw [hpi]
    exact ⟨h1, h2⟩
  · rw [if_neg he]
    exact hcl i h'

/-- `update_record` (heap part) preserves the heap invariant. -/
theorem update_record_heap_inv (f : RmFile) (rid : Rid) (buf : RmRec)
    (hnp : f.file_hdr.num_pages = f.pages.length + 1)
    (hinv : heapInv f) :
    heapInv (update_record_heap f rid buf).2 := by
  obtain ⟨hpop, chain, hch, hcl⟩ := hinv
  by_cases hb : pageInBounds f rid.page_no
  swap
  · simp only [update_record_heap, if_pos hb]
    exact ⟨hpop, chain, hch, hcl⟩
  by_cases hs : isSet (getPage f rid.page_no).bitmap rid.slot_no = false
  · simp only [update_record_heap, if_neg (not_not_intro hb), if_pos hs]
    exact ⟨hpop, chain, hch, hcl⟩
  obtain ⟨hlt, hgp, hidx, hp1⟩ := getPage_spec hnp hb
  simp only [update_record_heap, if_neg (not_not_intro hb), if_neg hs]
  have hpgnum : (getPage f rid.page_no).num_records
      = popcount (getPage f rid.page_no).bitmap := by
    rw [hgp]
    exact hpop _ hlt
  have hpi : (((rid.page_no - 1).toNat : Int) + 1) = rid.page_no := by omega
  have hold := hcl (rid.page_no - 1).toNat hlt
  rw [hpi, ← hgp] at hold
  refine ⟨popInv_set_of hidx hpop hpgnum, chain, ?_,
    freeClauses_set_of hidx hcl (fun hnf => hold.1 hnf)
      (fun hf => hold.2 hf)⟩
  apply chain_congr hch
  intro q hq
  apply nextOf_set_preserved hidx
  rfl

theorem popInv_set_of2 {f g : RmFile} {p : Int} {pg0 pg : RmPage}
    (hidx : pageIdx f.pages p = some pg0)
    (hg : g.pages = f.pages.set (p - 1).toNat pg)
    (hpop : popInv f)
    (hpg : pg.num_records = popcount pg.bitmap) :
    popInv g := by
  obtain ⟨hp1, hlt, hget⟩ := pageIdx_eq_some hidx
  obtain ⟨ghdr, gpages⟩ := g
  have hg' : gpages = f.pages.set (p - 1).toNat pg := hg
  subst hg'
  intro i h
  dsimp only at h ⊢
  have h' : i < f.pages.length := by simpa using h
  rw [pages_set_get hp1 pg h']
  by_cases he : (p - 1).toNat = i
  · rw [if_pos he]
    exact hpg
  · rw [if_neg he]
    exact hpop i h'

theorem freeClauses_set_of2 {f g : RmFile} {p : Int} {pg0 pg : RmPage}
    {chain : List Int}
    (hidx : pageIdx f.pages p = some pg0)
    (hg : g.pages = f.pages.set (p - 1).toNat pg)
    (hr : g.file_hdr.num_records_per_page = f.file_hdr.num_records_per_page)
    (hcl : freeClauses f chain)
    (h1 : pg.num_records < f.file_hdr.num_records_per_page →
      chain.count p = 1)
    (h2 : pg.num_records = f.file_hdr.num_records_per_page →
      p ∉ chain ∧ pg.next_free_page_no = RM_NO_PAGE) :
    freeClauses g chain := by
  obtain ⟨hp1, hlt, hget⟩ := pageIdx_eq_some hidx
  obtain ⟨ghdr, gpages⟩ := g
  have hg' : gpages = f.pages.set (p - 1).toNat pg := hg
  have hr' : ghdr.num_records_per_page = f.file_hdr.num_records_per_page := hr
  subst hg'
  intro i h
  dsimp only at h ⊢
  have h' : i < f.pages.length := by simpa using h
  rw [pages_set_get hp1 pg h', hr']
  by_cases he : (p - 1).toNat = i
  · rw [if_pos he]
    have hpi : ((i : Int) + 1) = p := by omega
    rw [hpi]
    exact ⟨h1, h2⟩
  · rw [if_neg he]
    exact hcl i h'

theorem freeClauses_relink_head {f g : RmFile} {p : Int} {pg0 pg : RmPage}
    {chain : List Int}
    (hidx : pageIdx f.pages p = some pg0)
    (hg : g.pages = f.pages.set (p - 1).toNat pg)
    (hr : g.file_hdr.num_records_per_page = f.file_hdr.num_records_per_page)
    (hcl : freeClauses f chain)
    (hnm : p ∉ chain)
    (hnonfull : pg.num_records < f.file_hdr.num_records_per_page) :
    freeClauses g (p :: chain) := by
  obtain ⟨hp1, hlt, hget⟩ := pageIdx_eq_some hidx
  obtain ⟨ghdr, gpages⟩ := g
  have hg' : gpages = f.pages.set (p - 1).toNat pg := hg
  have hr' : ghdr.num_records_per_page = f.file_hdr.num_records_per_page := hr
  subst hg'
  intro i h
  dsimp only at h ⊢
  have h' : i < f.pages.length := by simpa using h
  rw [pages_set_get hp1 pg h', hr']
  by_cases he : (p - 1).toNat = i
  · rw [if_pos he]
    have hpi : ((i : Int) + 1) = p := by omega
    rw [hpi]
    constructor
    · intro _
      rw [List.count_cons_self, List.count_eq_zero.mpr hnm]
    · intro hf
      exact absurd hf (by omega)
  · rw [if_neg he]
    have hne : ((i : Int) + 1) ≠ p := by omega
    have hcli := hcl i h'
    constructor
    · intro hnf
      rw [List.count_cons_of_ne hne]
      exact hcli.1 hnf
    · intro hf
      obtain ⟨hm, hx⟩ := hcli.2 hf
      refine ⟨?_, hx⟩
      intro hmem
      rcases List.mem_cons.mp hmem with he2 | hc
      · exact hne he2
      · exact hm hc

theorem freeClauses_unlink_head {f g : RmFile} {p : Int} {pg0 pg : RmPage}
    {rest : List Int}
    (hidx : pageIdx f.pages p = some pg0)
    (hg : g.pages = f.pages.set (p - 1).toNat pg)
    (hr : g.file_hdr.num_records_per_page = f.file_hdr.num_records_per_page)
    (hcl : freeClauses f (p :: rest))
    (hnm : p ∉ rest)
    (hfull : pg.num_records = f.file_hdr.num_records_per_page)
    (hnx : pg.next_free_page_no = RM_NO_PAGE) :
    freeClauses g rest := by
  obtain ⟨hp1, hlt, hget⟩ := pageIdx_eq_some hidx
  obtain ⟨ghdr, gpages⟩ := g
  have hg' : gpages = f.pages.set (p - 1).toNat pg := hg
  have hr' : ghdr.num_records_per_page = f.file_hdr.num_records_per_page := hr
  subst hg'
  intro i h
  dsimp only at h ⊢
  have h' : i < f.pages.length := by simpa using h
  rw [pages_set_get hp1 pg h', hr']
  by_cases he : (p - 1).toNat = i
  · rw [if_pos he]
    have hpi : ((i : Int) + 1) = p := by omega
    rw [hpi]
    constructor
    · intro hnf
      exact absurd hnf (by omega)
    · intro _
      exact ⟨hnm, hnx⟩
  · rw [if_neg he]
    have hne : ((i : Int) + 1) ≠ p := by omega
    have hcli := hcl i h'
    constructor
    · intro hnf
      have := hcli.1 hnf
      rw [List.count_cons_of_ne hne] at this
      exact this
    · intro hf
      obtain ⟨hm, hx⟩ := hcli.2 hf
      exact ⟨fun hmem => hm (List.mem_cons.mpr (.inr hmem)), hx⟩

/-- `delete_record` (heap part) preserves the heap invariant. -/
theorem delete_record_heap_inv (f : RmFile) (rid : Rid)
    (hwf : heapWf f) (hinv : heapInv f) :
    heapInv (delete_record_heap f rid).2 := by
  obtain ⟨hnp, hrpp, hbs⟩ := hwf
  obtain ⟨hpop, chain, hch, hcl⟩ := hinv
  by_cases hb : pageInBounds f rid.page_no
  swap
  · simp only [delete_record_heap, if_pos hb]
    exact ⟨hpop, chain, hch, hcl⟩
  by_cases hs : isSet (getPage f rid.page_no).bitmap rid.slot_no = false
  · simp only [delete_record_heap, if_neg (not_not_intro hb), if_pos hs]
    exact ⟨hpop, chain, hch, hcl⟩
  obtain ⟨hlt, hgp, hidx, hp1⟩ := getPage_spec hnp hb
  obtain ⟨hslt, hsget⟩ := isSet_true_spec hs
  have hpi : (((rid.page_no - 1).toNat : Int) + 1) = rid.page_no := by omega
  have hpgnum : (getPage f rid.page_no).num_records
      = popcount (getPage f rid.page_no).bitmap := by
    rw [hgp]
    exact hpop _ hlt
  have hpos : 0 < popcount (getPage f rid.page_no).bitmap :=
    popcount_pos_of_get hslt hsget
  have hcnt := count_set_false (getPage f rid.page_no).bitmap
    rid.slot_no.toNat hslt hsget
  have hold := hcl (rid.page_no - 1).toNat hlt
  rw [hpi, ← hgp] at hold
  by_cases hfull : (getPage f rid.page_no).num_records
      = f.file_hdr.num_records_per_page
  · -- the page was full: it is relinked at the head of the free list
    simp only [delete_record_heap, if_neg (not_not_intro hb), if_neg hs,
      if_pos hfull]
    obtain ⟨hnm, hnx⟩ := hold.2 hfull
    constructor
    · refine popInv_set_of2 hidx rfl hpop ?_
      dsimp only
      omega
    · refine ⟨rid.page_no :: chain, ?_, ?_⟩
      · refine IsFreeChain.cons (by simp only [RM_NO_PAGE]; omega)
          (pageIdx_set_self hidx _) ?_
        · show IsFreeChain _ f.file_hdr.first_free_page_no chain
          apply chain_congr hch
          intro q hq
          exact nextOf_set_ne hp1 (fun he => hnm (he ▸ hq)) _
      · refine freeClauses_relink_head hidx rfl rfl hcl hnm ?_
        dsimp only
        omega
  · -- the page stays non-full: the free list is untouched
    simp only [delete_record_heap, if_neg (not_not_intro hb), if_neg hs,
      if_neg hfull]
    have hnf : (getPage f rid.page_no).num_records
        < f.file_hdr.num_records_per_page := by
      have hle : popcount (getPage f rid.page_no).bitmap
          ≤ (getPage f rid.page_no).bitmap.length := popcount_le_length _
      have hbml : (getPage f rid.page_no).bitmap.length
          = f.file_hdr.num_records_per_page := by
        rw [hgp]
        exact (hbs _ hlt).1
      omega
    constructor
    · refine popInv_set_of2 hidx rfl hpop ?_
      dsimp only
      omega
    · refine ⟨chain, ?_, ?_⟩
      · apply chain_congr hch
        intro q hq
        apply nextOf_set_preserved hidx
        rfl
      · refine freeClauses_set_of2 hidx rfl rfl hcl ?_ ?_
        · intro _
          exact hold.1 hnf
        · intro hf
          dsimp only at hf
          exact absurd hf (by omega)

/-- `insert_record(const Rid&, char*)` (undo replay) preserves the popcount
part of the invariant whenever the target slot bit is clear, and the whole
invariant when the page does not become full. -/
theorem insert_record_at_inv (f : RmFile) (rid : Rid) (buf : RmRec)
    (hnp : f.file_hdr.num_pages = f.pages.length + 1)
    (hinv : heapInv f)
    (hb : pageInBounds f rid.page_no)
    (hslt : rid.slot_no.toNat < (getPage f rid.page_no).bitmap.length)
    (hclear : (getPage f rid.page_no).bitmap.get ⟨rid.slot_no.toNat, hslt⟩
      = false) :
    popInv (insert_record_at f rid buf).2 ∧
    ((getPage f rid.page_no).num_records + 1
        < f.file_hdr.num_records_per_page →
      heapInv (insert_record_at f rid buf).2) := by
  obtain ⟨hpop, chain, hch, hcl⟩ := hinv
  obtain ⟨hlt, hgp, hidx, hp1⟩ := getPage_spec hnp hb
  have hpi : (((rid.page_no - 1).toNat : Int) + 1) = rid.page_no := by omega
  have hpgnum : (getPage f rid.page_no).num_records
      = popcount (getPage f rid.page_no).bitmap := by
    rw [hgp]
    exact hpop _ hlt
  have hcnt := count_set_true (getPage f rid.page_no).bitmap
    rid.slot_no.toNat hslt hclear
  have hold := hcl (rid.page_no - 1).toNat hlt
  rw [hpi, ← hgp] at hold
  simp only [insert_record_at, if_neg (not_not_intro hb)]
  constructor
  · refine popInv_set_of2 hidx rfl hpop ?_
    dsimp only
    omega
  · intro hroom
    constructor
    · refine popInv_set_of2 hidx rfl hpop ?_
      dsimp only
      omega
    · refine ⟨chain, ?_, ?_⟩
      · apply chain_congr hch
        intro q hq
        apply nextOf_set_preserved hidx
        rfl
      · refine freeClauses_set_of2 hidx rfl rfl hcl ?_ ?_
        · intro _
          exact hold.1 (by omega)
        · intro hf
          dsimp only at hf
          exact absurd hf (by omega)

theorem insert_record_inv_aux {f f1 : RmFile} {pno : Int} {pg : RmPage}
    {rest : List Int} (buf : RmRec)
    (hcp : create_page_handle f = (f1, pno))
    (hidx : pageIdx f1.pages pno = some pg)
    (hfirst : f1.file_hdr.first_free_page_no = pno)
    (hnonfull : pg.num_records < f1.file_hdr.num_records_per_page)
    (hbml : pg.bitmap.length = f1.file_hdr.num_records_per_page)
    (hpop1 : popInv f1)
    (hch1 : IsFreeChain f1.pages pg.next_free_page_no rest)
    (hnm : pno ∉ rest)
    (hcl1 : freeClauses f1 (pno :: rest)) :
    heapInv (insert_record f buf).2 := by
  obtain ⟨hp1, hlt, hget⟩ := pageIdx_eq_some hidx
  have hgp1 : getPage f1 pno = pg := by
    unfold getPage
    rw [hidx]
    rfl
  have hpgnum : pg.num_records = popcount pg.bitmap := by
    have h2 := hpop1 _ hlt
    rw [hget] at h2
    exact h2
  have hslot_lt : firstFreeSlot pg.bitmap < pg.bitmap.length :=
    firstFreeSlot_lt _ (by omega)
  have hclear := firstFreeSlot_get pg.bitmap hslot_lt
  have hcnt := count_set_true pg.bitmap (firstFreeSlot pg.bitmap)
    hslot_lt hclear
  have hpi : (((pno - 1).toNat : Int) + 1) = pno := by omega
  have hcnt1 : (pno :: rest).count pno = 1 := by
    rw [List.count_cons_self, List.count_eq_zero.mpr hnm]
  simp only [insert_record, hcp, setPage]
  rw [hgp1]
  rw [if_neg (by omega :
    ¬ firstFreeSlot pg.bitmap ≥ f1.file_hdr.num_records_per_page)]
  by_cases hfull : pg.num_records + 1 = f1.file_hdr.num_records_per_page
  · rw [if_pos hfull]
    refine ⟨popInv_set_of2 hidx rfl hpop1 ?_, rest, ?_, ?_⟩
    · dsimp only
      omega
    · apply chain_congr hch1
      intro q hq
      exact nextOf_set_ne hp1 (fun he => hnm (he ▸ hq)) _
    · refine freeClauses_unlink_head hidx rfl rfl hcl1 hnm ?_ rfl
      dsimp only
      omega
  · rw [if_neg hfull]
    refine ⟨popInv_set_of2 hidx rfl hpop1 ?_, ?_⟩
    · dsimp only
      omega
    show freeInv _
    unfold freeInv
    dsimp only
    rw [hfirst]
    refine ⟨pno :: rest, ?_, ?_⟩
    · refine IsFreeChain.cons (by simp only [RM_NO_PAGE]; omega)
        (pageIdx_set_self hidx _) ?_
      apply chain_congr hch1
      intro q hq
      apply nextOf_set_preserved hidx
      rfl
    · refine freeClauses_set_of2 hidx rfl rfl hcl1 ?_ ?_
      · intro _
        exact hcnt1
      · intro hf
        dsimp only at hf
        exact absurd hf (by omega)

theorem popInv_append_new {f : RmFile} {pg : RmPage} {hdr2 : RmFileHdr}
    (hpop : popInv f) (hpg : pg.num_records = popcount pg.bitmap) :
    popInv { file_hdr := hdr2, pages := f.pages ++ [pg] } := by
  intro i h
  dsimp only at h ⊢
  have hlen : i < f.pages.length + 1 := by simpa using h
  by_cases hi : i < f.pages.length
  · rw [List.get_append i hi]
    exact hpop i hi
  · have he : i = f.pages.length := by omega
    subst he
    rw [show (f.pages ++ [pg]).get ⟨f.pages.length, h⟩ = pg from by
      rw [List.get_append_right] <;> simp]
    exact hpg

theorem freeClauses_all_full {f g : RmFile} {pg : RmPage}
    (hcl : freeClauses f [])
    (hpop : popInv f)
    (hbs : ∀ i, (h : i < f.pages.length) →
      (f.pages.get ⟨i, h⟩).bitmap.length = f.file_hdr.num_records_per_page)
    (hg : g.pages = f.pages ++ [pg])
    (hr : g.file_hdr.num_records_per_page = f.file_hdr.num_records_per_page)
    (hnf : pg.num_records < f.file_hdr.num_records_per_page) :
    freeClauses g [(f.pages.length : Int) + 1] := by
  obtain ⟨ghdr, gpages⟩ := g
  have hg' : gpages = f.pages ++ [pg] := hg
  have hr' : ghdr.num_records_per_page = f.file_hdr.num_records_per_page := hr
  subst hg'
  intro i h
  dsimp only at h ⊢
  have hlen : i < f.pages.length + 1 := by simpa using h
  rw [hr']
  by_cases hi : i < f.pages.length
  · rw [List.get_append i hi]
    have hfull : (f.pages.get ⟨i, hi⟩).num_records
        = f.file_hdr.num_records_per_page := by
      by_contra hne
      have h2 := hpop i hi
      have h3 := popcount_le_length (f.pages.get ⟨i, hi⟩).bitmap
      have h4 := hbs i hi
      have := (hcl i hi).1 (by omega)
      simp at this
    constructor
    · intro hnf2
      exact absurd hfull (by omega)
    · intro _
      refine ⟨?_, ((hcl i hi).2 hfull).2⟩
      intro hmem
      rcases List.mem_cons.mp hmem with he | hc
      · omega
      · cases hc
  · have he : i = f.pages.length := by omega
    subst he
    rw [show (f.pages ++ [pg]).get ⟨f.pages.length, h⟩ = pg from by
      rw [List.get_append_right] <;> simp]
    constructor
    · intro _
      simp
    · intro hf
      exact absurd hf (by omega)

/-- `insert_record(char*, Context*)` preserves the heap invariant. -/
theorem insert_record_inv (f : RmFile) (buf : RmRec)
    (hwf : heapWf f) (hinv : heapInv f) :
    heapInv (insert_record f buf).2 := by
  obtain ⟨hnp, hrpp, hbs⟩ := hwf
  obtain ⟨hpop, chain, hch, hcl⟩ := hinv
  by_cases h0 : f.file_hdr.first_free_page_no = RM_NO_PAGE
  · -- empty free list: a fresh page is allocated and linked
    have hcp : create_page_handle f =
        ({ file_hdr := { f.file_hdr with
              first_free_page_no := (f.file_hdr.num_pages : Int)
              num_pages := f.file_hdr.num_pages + 1 }
           pages := f.pages ++
             [{ num_records := 0
                next_free_page_no := f.file_hdr.first_free_page_no
                bitmap := List.replicate f.file_hdr.num_records_per_page false
                slots :=
                  List.replicate f.file_hdr.num_records_per_page [] }] },
         (f.file_hdr.num_pages : Int)) := by
      unfold create_page_handle create_new_page_handle
      rw [if_pos h0]
    rcases isFreeChain_inv hch with ⟨_, hnil⟩ | ⟨hne, _⟩
    swap
    · exact absurd h0 hne
    subst hnil
    have hpn : ((f.file_hdr.num_pages : Int)) = (f.pages.length : Int) + 1 := by
      omega
    have hidx := pageIdx_append_new f.pages
      { num_records := 0
        next_free_page_no := f.file_hdr.first_free_page_no
        bitmap := List.replicate f.file_hdr.num_records_per_page false
        slots := List.replicate f.file_hdr.num_records_per_page [] }
    rw [← hpn] at hidx
    have hch1 : IsFreeChain
        (f.pages ++
          [{ num_records := 0
             next_free_page_no := f.file_hdr.first_free_page_no
             bitmap := List.replicate f.file_hdr.num_records_per_page false
             slots := List.replicate f.file_hdr.num_records_per_page [] }])
        f.file_hdr.first_free_page_no [] := by
      rw [h0]
      exact .nil
    refine insert_record_inv_aux buf hcp hidx rfl hrpp (by simp) ?_ hch1 ?_ ?_
    · exact popInv_append_new hpop (by dsimp only; rw [popcount_replicate])
    · simp
    · rw [hpn]
      exact freeClauses_all_full hcl hpop (fun i h => (hbs i h).1) rfl rfl hrpp
  · -- non-empty free list: its head page is reused
    have hcp : create_page_handle f = (f, f.file_hdr.first_free_page_no) := by
      unfold create_page_handle
      rw [if_neg h0]
    rcases isFreeChain_inv hch with ⟨he, _⟩ | ⟨hne, pg, rest, hidx, hceq, hrest⟩
    · exact absurd he h0
    subst hceq
    obtain ⟨hp1, hlt, hget⟩ := pageIdx_eq_some hidx
    have hpi : (((f.file_hdr.first_free_page_no - 1).toNat : Int) + 1)
        = f.file_hdr.first_free_page_no := by omega
    have hcli := hcl (f.file_hdr.first_free_page_no - 1).toNat hlt
    rw [hpi, hget] at hcli
    have hbml4 : pg.bitmap.length = f.file_hdr.num_records_per_page := by
      have h4 := (hbs _ hlt).1
      rw [hget] at h4
      exact h4
    have hble : pg.num_records ≤ f.file_hdr.num_records_per_page := by
      have h2 := hpop _ hlt
      rw [hget] at h2
      have h3 := popcount_le_length pg.bitmap
      omega
    have hnonfull : pg.num_records < f.file_hdr.num_records_per_page := by
      rcases Nat.lt_or_ge pg.num_records f.file_hdr.num_records_per_page
        with h | h
      · exact h
      · exfalso
        have hfull : pg.num_records = f.file_hdr.num_records_per_page := by
          omega
        exact (hcli.2 hfull).1 (List.mem_cons_self _ _)
    have hcnt1 := hcli.1 hnonfull
    rw [List.count_cons_self] at hcnt1
    have hnm : f.file_hdr.first_free_page_no ∉ rest := by
      intro hmem
      have := List.count_pos_iff.mpr hmem
      omega
    exact insert_record_inv_aux buf hcp hidx rfl hnonfull hbml4 hpop hrest
      hnm hcl

/-- A one-data-page heap file: slot capacity 2, slot 0 occupied, page 1 on the
free list. -/
def rmDemoFile : RmFile :=
  { file_hdr :=
      { record_size := 1
        num_records_per_page := 2
        num_pages := 2
        first_free_page_no := 1 }
    pages := [{ num_records := 1
                next_free_page_no := RM_NO_PAGE
                bitmap := [true, false]
                slots := [[7], [0]] }] }

theorem rmDemoFile_heapInv : heapInv rmDemoFile := by
  refine ⟨by decide, [1], ?_, by decide⟩
  exact IsFreeChain.cons (by decide)
    (show pageIdx rmDemoFile.pages 1
        = some ⟨1, RM_NO_PAGE, [true, false], [[7], [0]]⟩ from by decide)
    IsFreeChain.nil

/-- C3 counterexample: replaying `insert_record(const Rid&, char*)` into the
free slot of `rmDemoFile`'s only data page fills the page, but the function
never touches the free-page list, so the now-full page is left on the list
(and keeps `next_free_page_no = RM_NO_PAGE` only vacuously): the heap
invariant is broken. -/
theorem undo_insert_leaves_full_page_on_free_list :
    heapWf rmDemoFile ∧ heapInv rmDemoFile ∧
    (insert_record_at rmDemoFile ⟨1, 1⟩ [9]).1 = .ok () ∧
    ¬heapInv (insert_record_at rmDemoFile ⟨1, 1⟩ [9]).2 := by
  refine ⟨by decide, rmDemoFile_heapInv, by rfl, ?_⟩
  rintro ⟨hpop, chain, hch, hcl⟩
  rcases isFreeChain_inv hch with ⟨h1, _⟩ | ⟨_, pg', rest, hidx', hceq, hrest⟩
  · exact absurd h1 (by decide)
  have hpgx : pageIdx (insert_record_at rmDemoFile ⟨1, 1⟩ [9]).2.pages 1
      = some (⟨2, RM_NO_PAGE, [true, true], [[7], [9]]⟩ : RmPage) := by
    decide
  have hpg' : pg' = ⟨2, RM_NO_PAGE, [true, true], [[7], [9]]⟩ :=
    (Option.some.inj (hpgx.symm.trans hidx')).symm
  rw [hpg'] at hrest
  rcases isFreeChain_inv hrest with ⟨_, hrnil⟩ | ⟨hne2, _⟩
  swap
  · exact hne2 rfl
  subst hrnil
  subst hceq
  have h3 := (hcl 0 (by decide)).2 (by decide)
  exact h3.1 (by decide)

/-- C3 (amended): `insert_record(char*, Context*)`, `delete_record` and
`update_record` each preserve the heap/bitmap/free-list invariant on every
well-formed file.  The undo-replay `insert_record(const Rid&, char*)`
preserves the bitmap/num_records (popcount) part whenever its target slot bit
is clear, and preserves the whole invariant when the target page does not
become full; when the insertion fills the page the free-list clause can break,
because the function never updates the free-page list (see the
counterexample). -/
theorem heap_ops_preserve_invariant (f : RmFile) (rid : Rid) (buf : RmRec)
    (hwf : heapWf f) (hinv : heapInv f) :
    heapInv (insert_record f buf).2 ∧
    heapInv (delete_record_heap f rid).2 ∧
    heapInv (update_record_heap f rid buf).2 ∧
    (∀ (hb : pageInBounds f rid.page_no)
       (hslt : rid.slot_no.toNat < (getPage f rid.page_no).bitmap.length),
       (getPage f rid.page_no).bitmap.get ⟨rid.slot_no.toNat, hslt⟩ = false →
       popInv (insert_record_at f rid buf).2 ∧
       ((getPage f rid.page_no).num_records + 1
           < f.file_hdr.num_records_per_page →
         heapInv (insert_record_at f rid buf).2)) :=
  ⟨insert_record_inv f buf hwf hinv,
   delete_record_heap_inv f rid hwf hinv,
   update_record_heap_inv f rid buf hwf.1 hinv,
   fun hb hslt hclear =>
     insert_record_at_inv f rid buf hwf.1 hinv hb hslt hclear⟩

/-- Witness for the amended C3 at a concrete input: inserting into
`rmDemoFile` (via the free-list path) keeps the heap invariant. -/
theorem heap_ops_preserve_invariant_witness :
    heapWf rmDemoFile ∧ heapInv (insert_record rmDemoFile [5]).2 :=
  ⟨by decide,
   (heap_ops_preserve_invariant rmDemoFile ⟨1, 0⟩ [5] (by decide)
     rmDemoFile_heapInv).1⟩

/-! ## Record manager with transaction context (`rm_file_handle.cpp` +
`lock_manager.cpp`): C9 -/

/-- Transaction context as seen by the record manager: state, id and the
transaction's lock set (`txn->get_lock_set()`), restricted to record ids of
this table. -/
structure RmContext where
  txn_state : TransactionState
  txn_id : Nat
  lock_set : List Rid
  deriving DecidableEq, Repr

/-- Combined record-manager + lock-manager state for one table file. -/
structure RmSys where
  file : RmFile
  lock_table : List (Rid × LockRequestQueue)
  ctx : RmContext
  deriving DecidableEq, Repr

/-- `lock_table_[lock_data_id]`: lookup with default construction (a missing
entry behaves as an empty queue with `NON_LOCK` group mode). -/
def getQueue (t : List (Rid × LockRequestQueue)) (rid : Rid) :
    LockRequestQueue :=
  match t.find? (fun e => e.1 == rid) with
  | some e => e.2
  | none => ⟨[], .NON_LOCK⟩

/-- Store a queue back into the lock table. -/
def setQueue : List (Rid × LockRequestQueue) → Rid → LockRequestQueue →
    List (Rid × LockRequestQueue)
  | [], rid, q => [(rid, q)]
  | e :: rest, rid, q =>
    if e.1 = rid then (rid, q) :: rest else e :: setQueue rest rid q

/-- `std::set::insert` on the transaction's lock set. -/
def insertLock (s : List Rid) (rid : Rid) : List Rid :=
  if rid ∈ s then s else rid :: s

/-- Apply a successful lock acquisition to the system state (Steps 7-9 of the
acquisition functions: store the queue; the lock-set insert happened only on
the fresh-request path). -/
def applyLock (sys : RmSys) (rid : Rid) (q : LockRequestQueue)
    (added : Bool) : RmSys :=
  { sys with
    lock_table := setQueue sys.lock_table rid q
    ctx := { sys.ctx with lock_set :=
      if added then insertLock sys.ctx.lock_set rid else sys.ctx.lock_set } }

/-- `RmFileHandle::get_record` with a transaction context: row S lock first,
then the page bounds check of `fetch_page_handle`, then the bitmap check. -/
def get_record (sys : RmSys) (rid : Rid) :
    Except AbortReason (Except RmError RmRec) × RmSys :=
  match lock_shared_on_record sys.ctx.txn_state sys.ctx.txn_id
      (getQueue sys.lock_table rid) with
  | .abort r => (.error r, sys)
  | .ok q added =>
    let sys1 := applyLock sys rid q added
    (.ok (get_record_heap sys1.file rid), sys1)

/-- `RmFileHandle::delete_record` with a transaction context: row X lock
first, then the heap delete. -/
def delete_record (sys : RmSys) (rid : Rid) :
    Except AbortReason (Except RmError Unit) × RmSys :=
  match lock_exclusive_on_record sys.ctx.txn_state sys.ctx.txn_id
      (getQueue sys.lock_table rid) with
  | .abort r => (.error r, sys)
  | .ok q added =>
    let sys1 := applyLock sys rid q added
    let res := delete_record_heap sys1.file rid
    (.ok res.1, { sys1 with file := res.2 })

/-- `RmFileHandle::update_record` with a transaction context: row X lock
first, then the heap update. -/
def update_record (sys : RmSys) (rid : Rid) (buf : RmRec) :
    Except AbortReason (Except RmError Unit) × RmSys :=
  match lock_exclusive_on_record sys.ctx.txn_state sys.ctx.txn_id
      (getQueue sys.lock_table rid) with
  | .abort r => (.error r, sys)
  | .ok q added =>
    let sys1 := applyLock sys rid q added
    let res := update_record_heap sys1.file rid buf
    (.ok res.1, { sys1 with file := res.2 })

theorem getQueue_setQueue (t : List (Rid × LockRequestQueue)) (rid : Rid)
    (q : LockRequestQueue) :
    getQueue (setQueue t rid q) rid = q := by
  induction t with
  | nil => simp [setQueue, getQueue, List.find?]
  | cons e rest ih =>
    by_cases he : e.1 = rid
    · simp [setQueue, he, getQueue, List.find?]
    · simp only [setQueue, if_neg he]
      rw [getQueue, List.find?]
      rw [show (e.1 == rid) = false from by simpa using he]
      exact ih

theorem mem_insertLock (s : List Rid) (rid : Rid) : rid ∈ insertLock s rid := by
  unfold insertLock
  by_cases h : rid ∈ s
  · rw [if_pos h]
    exact h
  · rw [if_neg h]
    exact List.mem_cons_self _ _

theorem sharedRecordLoop_ret_mem {tid : Nat} {l reqs : List LockRequest}
    {g : Option GroupLockMode}
    (hg : allGranted l)
    (h : sharedRecordLoop tid l = .ret reqs g) :
    (∃ r ∈ reqs, r.txn_id = tid ∧ r.granted = true) ∧
    ∃ r ∈ l, r.txn_id = tid := by
  induction l generalizing reqs g with
  | nil => cases h
  | cons r rs ih =>
    by_cases hc : r.txn_id = tid ∧
        (r.lock_mode = .SHARED ∨ r.lock_mode = .EXLUCSIVE)
    · rw [sharedRecordLoop, if_pos hc] at h
      cases h
      exact ⟨⟨r, by simp, hc.1, hg r (by simp)⟩, r, by simp, hc.1⟩
    · rw [sharedRecordLoop, if_neg hc] at h
      cases hrec : sharedRecordLoop tid rs with
      | fall => rw [hrec] at h; cases h
      | err => rw [hrec] at h; cases h
      | ret reqs2 g2 =>
        rw [hrec] at h
        simp only [scanCons] at h
        cases h
        obtain ⟨⟨r1, hm, ht, hgr⟩, r2, hm2, ht2⟩ :=
          ih (fun x hx => hg x (by simp [hx])) hrec
        exact ⟨⟨r1, by simp [hm], ht, hgr⟩, r2, by simp [hm2], ht2⟩

theorem exclusiveRecordLoop_ret_mem {tid qsize : Nat}
    {l reqs : List LockRequest} {g : Option GroupLockMode}
    (hg : allGranted l)
    (h : exclusiveRecordLoop tid qsize l = .ret reqs g) :
    (∃ r ∈ reqs, r.txn_id = tid ∧ r.granted = true ∧
      r.lock_mode = .EXLUCSIVE) ∧
    ∃ r ∈ l, r.txn_id = tid := by
  induction l generalizing reqs g with
  | nil => cases h
  | cons r rs ih =>
    by_cases ht : r.txn_id = tid
    · by_cases hx : r.lock_mode = .EXLUCSIVE
      · rw [exclusiveRecordLoop, if_pos ht, if_pos hx] at h
        cases h
        exact ⟨⟨r, by simp, ht, hg r (by simp), hx⟩, r, by simp, ht⟩
      · by_cases hs : r.lock_mode = .SHARED
        · by_cases h1 : qsize = 1
          · rw [exclusiveRecordLoop, if_pos ht, if_neg hx, if_pos hs,
              if_pos h1] at h
            cases h
            exact ⟨⟨{ r with lock_mode := .EXLUCSIVE }, by simp, ht,
              hg r (by simp), rfl⟩, r, by simp, ht⟩
          · rw [exclusiveRecordLoop, if_pos ht, if_neg hx, if_pos hs,
              if_neg h1] at h
            cases h
        · rw [exclusiveRecordLoop, if_pos ht, if_neg hx, if_neg hs] at h
          cases hrec : exclusiveRecordLoop tid qsize rs with
          | fall => rw [hrec] at h; cases h
          | err => rw [hrec] at h; cases h
          | ret reqs2 g2 =>
            rw [hrec] at h
            simp only [scanCons] at h
            cases h
            obtain ⟨⟨r1, hm, a, b, c⟩, r2, hm2, d⟩ :=
              ih (fun x hx2 => hg x (by simp [hx2])) hrec
            exact ⟨⟨r1, by simp [hm], a, b, c⟩, r2, by simp [hm2], d⟩
    · rw [exclusiveRecordLoop, if_neg ht] at h
      cases hrec : exclusiveRecordLoop tid qsize rs with
      | fall => rw [hrec] at h; cases h
      | err => rw [hrec] at h; cases h
      | ret reqs2 g2 =>
        rw [hrec] at h
        simp only [scanCons] at h
        cases h
        obtain ⟨⟨r1, hm, a, b, c⟩, r2, hm2, d⟩ :=
          ih (fun x hx2 => hg x (by simp [hx2])) hrec
        exact ⟨⟨r1, by simp [hm], a, b, c⟩, r2, by simp [hm2], d⟩

theorem lock_shared_on_record_ok_mem {st : TransactionState} {tid : Nat}
    {q q' : LockRequestQueue} {a : Bool}
    (hg : allGranted q.request_queue)
    (h : lock_shared_on_record st tid q = .ok q' a) :
    (∃ r ∈ q'.request_queue, r.txn_id = tid ∧ r.granted = true) ∧
    (a = false → ∃ r ∈ q.request_queue, r.txn_id = tid) := by
  unfold lock_shared_on_record at h
  by_cases hst : st = .SHRINKING
  · rw [if_pos hst] at h
    cases h
  rw [if_neg hst] at h
  cases hrec : sharedRecordLoop tid q.request_queue with
  | ret reqs g =>
    rw [hrec] at h
    cases h
    obtain ⟨h1, h2⟩ := sharedRecordLoop_ret_mem hg hrec
    exact ⟨h1, fun _ => h2⟩
  | err =>
    rw [hrec] at h
    cases h
  | fall =>
    rw [hrec] at h
    by_cases hX : q.group_lock_mode = .X
    · rw [if_pos hX] at h
      cases h
    · rw [if_neg hX] at h
      cases h
      exact ⟨⟨⟨tid, .SHARED, true⟩, by simp, rfl, rfl⟩,
        fun hfa => by cases hfa⟩

theorem lock_exclusive_on_record_ok_mem {st : TransactionState} {tid : Nat}
    {q q' : LockRequestQueue} {a : Bool}
    (hg : allGranted q.request_queue)
    (h : lock_exclusive_on_record st tid q = .ok q' a) :
    (∃ r ∈ q'.request_queue, r.txn_id = tid ∧ r.granted = true ∧
      r.lock_mode = .EXLUCSIVE) ∧
    (a = false → ∃ r ∈ q.request_queue, r.txn_id = tid) := by
  unfold lock_exclusive_on_record at h
  by_cases hst : st = .SHRINKING
  · rw [if_pos hst] at h
    cases h
  rw [if_neg hst] at h
  cases hrec : exclusiveRecordLoop tid q.request_queue.length
      q.request_queue with
  | ret reqs g =>
    rw [hrec] at h
    cases h
    obtain ⟨h1, h2⟩ := exclusiveRecordLoop_ret_mem hg hrec
    exact ⟨h1, fun _ => h2⟩
  | err =>
    rw [hrec] at h
    cases h
  | fall =>
    rw [hrec] at h
    by_cases hX : q.group_lock_mode ≠ .NON_LOCK
    · rw [if_pos hX] at h
      cases h
    · rw [if_neg hX] at h
      cases h
      exact ⟨⟨⟨tid, .EXLUCSIVE, true⟩, by simp, rfl, rfl, rfl⟩,
        fun hfa => by cases hfa⟩

theorem get_record_heap_error_cases (f : RmFile) (rid : Rid) (e : RmError)
    (h : get_record_heap f rid = .error e) :
    e = .PAGE_NOT_EXIST ↔ ¬pageInBounds f rid.page_no := by
  unfold get_record_heap at h
  by_cases hb : pageInBounds f rid.page_no
  · rw [if_neg (not_not_intro hb)] at h
    by_cases hs : isSet (getPage f rid.page_no).bitmap rid.slot_no = false
    · rw [if_pos hs] at h
      cases h
      exact ⟨fun h2 => absurd h2 (by decide), fun h2 => absurd hb h2⟩
    · rw [if_neg hs] at h
      cases h
  · rw [if_pos hb] at h
    cases h
    exact ⟨fun _ => hb, fun _ => rfl⟩

theorem delete_record_heap_error_state (f : RmFile) (rid : Rid) (e : RmError)
    (h : (delete_record_heap f rid).1 = .error e) :
    (delete_record_heap f rid).2 = f ∧
    (e = .PAGE_NOT_EXIST ↔ ¬pageInBounds f rid.page_no) := by
  unfold delete_record_heap at *
  by_cases hb : pageInBounds f rid.page_no
  · rw [if_neg (not_not_intro hb)] at h ⊢
    by_cases hs : isSet (getPage f rid.page_no).bitmap rid.slot_no = false
    · rw [if_pos hs] at h ⊢
      cases h
      exact ⟨rfl, fun h2 => absurd h2 (by decide), fun h2 => absurd hb h2⟩
    · rw [if_neg hs] at h
      by_cases hf : (getPage f rid.page_no).num_records
          = f.file_hdr.num_records_per_page
      · rw [if_pos hf] at h
        cases h
      · rw [if_neg hf] at h
        cases h
  · rw [if_pos hb] at h ⊢
    cases h
    exact ⟨rfl, fun _ => hb, fun _ => rfl⟩

theorem update_record_heap_error_state (f : RmFile) (rid : Rid) (buf : RmRec)
    (e : RmError)
    (h : (update_record_heap f rid buf).1 = .error e) :
    (update_record_heap f rid buf).2 = f ∧
    (e = .PAGE_NOT_EXIST ↔ ¬pageInBounds f rid.page_no) := by
  unfold update_record_heap at *
  by_cases hb : pageInBounds f rid.page_no
  · rw [if_neg (not_not_intro hb)] at h ⊢
    by_cases hs : isSet (getPage f rid.page_no).bitmap rid.slot_no = false
    · rw [if_pos hs] at h ⊢
      cases h
      exact ⟨rfl, fun h2 => absurd h2 (by decide), fun h2 => absurd hb h2⟩
    · rw [if_neg hs] at h
      cases h
  · rw [if_pos hb] at h ⊢
    cases h
    exact ⟨rfl, fun _ => hb, fun _ => rfl⟩

/-- C9: `get_record`, `delete_record` and `update_record` acquire the row lock
(S for get, X for the other two) before validating the rid, so a call whose
heap part fails — `PAGE_NOT_EXIST` exactly when `rid.page_no` is outside
`[RM_FIRST_RECORD_PAGE, num_pages)`, otherwise `RECORD_NOT_FOUND` when the
slot bit is clear — still leaves the row lock granted to the transaction and
the lock id in its lock set, while the heap file (pages and header) is
unchanged. -/
theorem failed_record_access_keeps_lock (sys : RmSys) (rid : Rid)
    (buf : RmRec) (e : RmError)
    (hg : allGranted (getQueue sys.lock_table rid).request_queue)
    (hcons : (∃ r ∈ (getQueue sys.lock_table rid).request_queue,
        r.txn_id = sys.ctx.txn_id) → rid ∈ sys.ctx.lock_set) :
    ((get_record sys rid).1 = .ok (.error e) →
      (get_record sys rid).2.file = sys.file ∧
      (∃ r ∈ (getQueue (get_record sys rid).2.lock_table rid).request_queue,
        r.txn_id = sys.ctx.txn_id ∧ r.granted = true) ∧
      rid ∈ (get_record sys rid).2.ctx.lock_set ∧
      (e = .PAGE_NOT_EXIST ↔ ¬pageInBounds sys.file rid.page_no)) ∧
    ((delete_record sys rid).1 = .ok (.error e) →
      (delete_record sys rid).2.file = sys.file ∧
      (∃ r ∈ (getQueue (delete_record sys rid).2.lock_table
          rid).request_queue,
        r.txn_id = sys.ctx.txn_id ∧ r.granted = true ∧
        r.lock_mode = .EXLUCSIVE) ∧
      rid ∈ (delete_record sys rid).2.ctx.lock_set ∧
      (e = .PAGE_NOT_EXIST ↔ ¬pageInBounds sys.file rid.page_no)) ∧
    ((update_record sys rid buf).1 = .ok (.error e) →
      (update_record sys rid buf).2.file = sys.file ∧
      (∃ r ∈ (getQueue (update_record sys rid buf).2.lock_table
          rid).request_queue,
        r.txn_id = sys.ctx.txn_id ∧ r.granted = true ∧
        r.lock_mode = .EXLUCSIVE) ∧
      rid ∈ (update_record sys rid buf).2.ctx.lock_set ∧
      (e = .PAGE_NOT_EXIST ↔ ¬pageInBounds sys.file rid.page_no)) := by
  refine ⟨?_, ?_, ?_⟩
  · intro hres
    unfold get_record at hres ⊢
    cases hlk : lock_shared_on_record sys.ctx.txn_state sys.ctx.txn_id
        (getQueue sys.lock_table rid) with
    | abort r =>
      rw [hlk] at hres
      cases hres
    | ok q added =>
      simp only [hlk] at hres ⊢
      have herr : get_record_heap (applyLock sys rid q added).file rid
          = .error e := Except.ok.inj hres
      refine ⟨rfl, ?_, ?_, get_record_heap_error_cases _ rid e herr⟩
      · have h3 := (lock_shared_on_record_ok_mem hg hlk).1
        simpa [applyLock, getQueue_setQueue] using h3
      · cases added with
        | true => simpa [applyLock] using mem_insertLock sys.ctx.lock_set rid
        | false =>
          have h4 := (lock_shared_on_record_ok_mem hg hlk).2 rfl
          simpa [applyLock] using hcons h4
  · intro hres
    unfold delete_record at hres ⊢
    cases hlk : lock_exclusive_on_record sys.ctx.txn_state sys.ctx.txn_id
        (getQueue sys.lock_table rid) with
    | abort r =>
      rw [hlk] at hres
      cases hres
    | ok q added =>
      simp only [hlk] at hres ⊢
      have herr : (delete_record_heap (applyLock sys rid q added).file rid).1
          = .error e := Except.ok.inj hres
      have hst := delete_record_heap_error_state _ rid e herr
      refine ⟨hst.1, ?_, ?_, hst.2⟩
      · have h3 := (lock_exclusive_on_record_ok_mem hg hlk).1
        simpa [applyLock, getQueue_setQueue] using h3
      · cases added with
        | true => simpa [applyLock] using mem_insertLock sys.ctx.lock_set rid
        | false =>
          have h4 := (lock_exclusive_on_record_ok_mem hg hlk).2 rfl
          simpa [applyLock] using hcons h4
  · intro hres
    unfold update_record at hres ⊢
    cases hlk : lock_exclusive_on_record sys.ctx.txn_state sys.ctx.txn_id
        (getQueue sys.lock_table rid) with
    | abort r =>
      rw [hlk] at hres
      cases hres
    | ok q added =>
      simp only [hlk] at hres ⊢
      have herr :
          (update_record_heap (applyLock sys rid q added).file rid buf).1
          = .error e := Except.ok.inj hres
      have hst := update_record_heap_error_state _ rid buf e herr
      refine ⟨hst.1, ?_, ?_, hst.2⟩
      · have h3 := (lock_exclusive_on_record_ok_mem hg hlk).1
        simpa [applyLock, getQueue_setQueue] using h3
      · cases added with
        | true => simpa [applyLock] using mem_insertLock sys.ctx.lock_set rid
        | false =>
          have h4 := (lock_exclusive_on_record_ok_mem hg hlk).2 rfl
          simpa [applyLock] using hcons h4

/-- Concrete system state: `rmDemoFile`, empty lock table, growing
transaction 1 with an empty lock set. -/
def rmDemoSys : RmSys :=
  { file := rmDemoFile
    lock_table := []
    ctx := { txn_state := .GROWING, txn_id := 1, lock_set := [] } }

/-- Witness for C9 at a concrete input: `get_record` on the out-of-bounds
page 5 fails with `PAGE_NOT_EXIST` but leaves transaction 1's fresh S lock
granted and recorded, with the file untouched. -/
theorem failed_record_access_keeps_lock_witness :
    (get_record rmDemoSys ⟨5, 0⟩).2.file = rmDemoSys.file ∧
    (∃ r ∈ (getQueue (get_record rmDemoSys ⟨5, 0⟩).2.lock_table
        ⟨5, 0⟩).request_queue,
      r.txn_id = rmDemoSys.ctx.txn_id ∧ r.granted = true) ∧
    (⟨5, 0⟩ : Rid) ∈ (get_record rmDemoSys ⟨5, 0⟩).2.ctx.lock_set ∧
    (RmError.PAGE_NOT_EXIST = .PAGE_NOT_EXIST ↔
      ¬pageInBounds rmDemoSys.file (⟨5, 0⟩ : Rid).page_no) :=
  (failed_record_access_keeps_lock rmDemoSys ⟨5, 0⟩ [0] .PAGE_NOT_EXIST
    (by intro r hr; simp [getQueue, rmDemoSys] at hr)
    (by rintro ⟨r, hr, _⟩; simp [getQueue, rmDemoSys] at hr)).1 (by rfl)

/-! ## Nested-loop join (`executor_nestedloop_join.h`): C10 -/

/-- State of `NestedLoopJoinExecutor` over finite child outputs: the two
child record streams, the children's cursor positions (`is_end` of a child
means its cursor ran past its list), and the join's `isend` flag. -/
structure JoinState where
  leftRecs : List RmRec
  rightRecs : List RmRec
  li : Nat
  ri : Nat
  isend : Bool
  deriving DecidableEq, Repr

/-- The advance phase of `nextTuple`: `right_->nextTuple()` followed by the
`while (right_->is_end())` block, which runs its body at most once — it either
returns early (left exhausted, or a fresh right scan is empty) or leaves the
loop with the right cursor rewound to 0. -/
def joinAdvance (s : JoinState) : JoinState :=
  if s.ri + 1 < s.rightRecs.length then { s with ri := s.ri + 1 }
  else if s.li + 1 ≥ s.leftRecs.length then
    { s with li := s.li + 1, ri := s.ri + 1, isend := true }
  else if s.rightRecs.length = 0 then
    { s with li := s.li + 1, ri := 0, isend := true }
  else { s with li := s.li + 1, ri := 0 }

theorem joinAdvance_lex (s : JoinState)
    (h : (joinAdvance s).isend = false) :
    Prod.Lex (· < ·) (· < ·)
      ((joinAdvance s).leftRecs.length - (joinAdvance s).li,
       (joinAdvance s).rightRecs.length - (joinAdvance s).ri)
      (s.leftRecs.length - s.li, s.rightRecs.length - s.ri) := by
  unfold joinAdvance at *
  by_cases hc1 : s.ri + 1 < s.rightRecs.length
  · rw [if_pos hc1] at h ⊢
    exact Prod.Lex.right _ (by dsimp only; omega)
  · rw [if_neg hc1] at h ⊢
    by_cases hc2 : s.li + 1 ≥ s.leftRecs.length
    · rw [if_pos hc2] at h
      simp at h
    · rw [if_neg hc2] at h ⊢
      by_cases hc3 : s.rightRecs.length = 0
      · rw [if_pos hc3] at h
        simp at h
      · rw [if_neg hc3] at h ⊢
        exact Prod.Lex.left _ _ (by dsimp only; omega)

/-- `nextTuple`: advance once, then keep advancing until the join condition
holds for the current pair or the scan is exhausted. -/
def nextTuple (cond : RmRec → RmRec → Bool) (s : JoinState) : JoinState :=
  if h : (joinAdvance s).isend = true then joinAdvance s
  else if cond ((joinAdvance s).leftRecs.getD (joinAdvance s).li [])
      ((joinAdvance s).rightRecs.getD (joinAdvance s).ri []) then joinAdvance s
  else nextTuple cond (joinAdvance s)
termination_by (s.leftRecs.length - s.li, s.rightRecs.length - s.ri)
decreasing_by
  exact joinAdvance_lex s (by revert h; cases (joinAdvance s).isend <;> simp)

/-- `beginTuple`: rewind both children; empty child means an empty join;
otherwise test the first pair and fall into `nextTuple` when it fails. -/
def beginTuple (cond : RmRec → RmRec → Bool) (l r : List RmRec) : JoinState :=
  if l.length = 0 then ⟨l, r, 0, 0, true⟩
  else if r.length = 0 then ⟨l, r, 0, 0, true⟩
  else if cond (l.getD 0 []) (r.getD 0 []) then ⟨l, r, 0, 0, false⟩
  else nextTuple cond ⟨l, r, 0, 0, false⟩

/-- Strict lexicographic order on (outer-left, inner-right) cursor pairs. -/
def posLt (p q : Nat × Nat) : Prop :=
  p.1 < q.1 ∨ (p.1 = q.1 ∧ p.2 < q.2)

/-- `(i, j)` lies strictly after the current position of `s`. -/
def afterPos (s : JoinState) (i j : Nat) : Prop :=
  posLt (s.li, s.ri) (i, j)

/-- The join condition evaluated at the pair `(i, j)` of `s`'s streams. -/
def condAt (cond : RmRec → RmRec → Bool) (s : JoinState) (i j : Nat) : Bool :=
  cond (s.leftRecs.getD i []) (s.rightRecs.getD j [])

/-- Number of record pairs strictly after the current position. -/
def remainingPairs (s : JoinState) : Nat :=
  (s.leftRecs.length - s.li - 1) * s.rightRecs.length +
    (s.rightRecs.length - s.ri - 1)

theorem remainingPairs_advance (s : JoinState) (h0 : s.isend = false)
    (h1 : s.li < s.leftRecs.length) (h2 : s.ri < s.rightRecs.length) :
    ((joinAdvance s).isend = false →
      remainingPairs (joinAdvance s) + 1 = remainingPairs s) ∧
    ((joinAdvance s).isend = true → remainingPairs s = 0) := by
  unfold joinAdvance remainingPairs
  by_cases hc1 : s.ri + 1 < s.rightRecs.length
  · simp only [if_pos hc1]
    constructor
    · intro _
      omega
    · intro hf
      rw [h0] at hf
      cases hf
  · simp only [if_neg hc1]
    by_cases hc2 : s.li + 1 ≥ s.leftRecs.length
    · simp only [if_pos hc2]
      constructor
      · intro hf
        cases hf
      · intro _
        have hz : s.leftRecs.length - s.li - 1 = 0 := by omega
        rw [hz, Nat.zero_mul]
        omega
    · simp only [if_neg hc2]
      by_cases hc3 : s.rightRecs.length = 0
      · omega
      · simp only [if_neg hc3]
        constructor
        · intro _
          have hk : s.leftRecs.length - s.li - 1
              = (s.leftRecs.length - (s.li + 1) - 1) + 1 := by omega
          rw [hk, Nat.succ_mul]
          omega
        · intro hf
          rw [h0] at hf
          cases hf

theorem joinAdvance_spec (s : JoinState) (h0 : s.isend = false)
    (h1 : s.li < s.leftRecs.length) (h2 : s.ri < s.rightRecs.length) :
    (joinAdvance s).leftRecs = s.leftRecs ∧
    (joinAdvance s).rightRecs = s.rightRecs ∧
    (((joinAdvance s).isend = true ∧
       ∀ i j, i < s.leftRecs.length → j < s.rightRecs.length →
         ¬afterPos s i j) ∨
     ((joinAdvance s).isend = false ∧
       (joinAdvance s).li < s.leftRecs.length ∧
       (joinAdvance s).ri < s.rightRecs.length ∧
       afterPos s (joinAdvance s).li (joinAdvance s).ri ∧
       (∀ i j, i < s.leftRecs.length → j < s.rightRecs.length →
         afterPos s i j →
         (i = (joinAdvance s).li ∧ j = (joinAdvance s).ri) ∨
         afterPos (joinAdvance s) i j) ∧
       (∀ i j, afterPos (joinAdvance s) i j → afterPos s i j) ∧
       (∀ i j, i < s.leftRecs.length → j < s.rightRecs.length →
         afterPos s i j →
         posLt (i, j) ((joinAdvance s).li, (joinAdvance s).ri) →
         False))) := by
  unfold joinAdvance
  by_cases hc1 : s.ri + 1 < s.rightRecs.length
  · simp only [if_pos hc1]
    refine ⟨by trivial, by trivial, .inr ⟨h0, h1, hc1, ?_, ?_, ?_, ?_⟩⟩
    · unfold afterPos posLt
      first
      | dsimp only
      | skip
      omega
    · intro i j hi hj ha
      unfold afterPos posLt at *
      first
      | dsimp only at *
      | skip
      omega
    · intro i j ha
      unfold afterPos posLt at *
      first
      | dsimp only at *
      | skip
      omega
    · intro i j hi hj ha hlt
      unfold afterPos posLt at *
      first
      | dsimp only at *
      | skip
      omega
  · simp only [if_neg hc1]
    by_cases hc2 : s.li + 1 ≥ s.leftRecs.length
    · simp only [if_pos hc2]
      refine ⟨by trivial, by trivial, .inl ⟨by trivial, ?_⟩⟩
      intro i j hi hj ha
      unfold afterPos posLt at ha
      omega
    · simp only [if_neg hc2]
      by_cases hc3 : s.rightRecs.length = 0
      · omega
      · simp only [if_neg hc3]
        refine ⟨by trivial, by trivial,
          .inr ⟨h0, by omega, by omega, ?_, ?_, ?_, ?_⟩⟩
        · unfold afterPos posLt
          first
          | dsimp only
          | skip
          omega
        · intro i j hi hj ha
          unfold afterPos posLt at *
          first
          | dsimp only at *
          | skip
          omega
        · intro i j ha
          unfold afterPos posLt at *
          first
          | dsimp only at *
          | skip
          omega
        · intro i j hi hj ha hlt
          unfold afterPos posLt at *
          first
          | dsimp only at *
          | skip
          omega

/-- The conclusion of the `nextTuple` correctness spec, as a predicate on the
starting state. -/
def nextTupleSpecStmt (cond : RmRec → RmRec → Bool) (s : JoinState) : Prop :=
  s.isend = false → s.li < s.leftRecs.length → s.ri < s.rightRecs.length →
  ((nextTuple cond s).leftRecs = s.leftRecs ∧
   (nextTuple cond s).rightRecs = s.rightRecs ∧
   (((nextTuple cond s).isend = true ∧
      ∀ i j, i < s.leftRecs.length → j < s.rightRecs.length →
        afterPos s i j → condAt cond s i j = false) ∨
    ((nextTuple cond s).isend = false ∧
      (nextTuple cond s).li < s.leftRecs.length ∧
      (nextTuple cond s).ri < s.rightRecs.length ∧
      afterPos s (nextTuple cond s).li (nextTuple cond s).ri ∧
      condAt cond s (nextTuple cond s).li (nextTuple cond s).ri = true ∧
      ∀ i j, i < s.leftRecs.length → j < s.rightRecs.length →
        afterPos s i j →
        posLt (i, j) ((nextTuple cond s).li, (nextTuple cond s).ri) →
        condAt cond s i j = false)))

theorem nextTuple_spec_all (cond : RmRec → RmRec → Bool) :
    ∀ s, nextTupleSpecStmt cond s := by
  refine nextTuple.induct cond (nextTupleSpecStmt cond) ?_ ?_ ?_
  · intro s hend h0 h1 h2
    obtain ⟨hfl, hfr, hdis⟩ := joinAdvance_spec s h0 h1 h2
    rw [nextTuple, dif_pos hend]
    refine ⟨hfl, hfr, .inl ⟨hend, ?_⟩⟩
    intro i j hi hj ha
    rcases hdis with ⟨_, hnone⟩ | ⟨hne, _⟩
    · exact absurd ha (hnone i j hi hj)
    · rw [hend] at hne
      cases hne
  · intro s hend hcond h0 h1 h2
    obtain ⟨hfl, hfr, hdis⟩ := joinAdvance_spec s h0 h1 h2
    rw [nextTuple, dif_neg hend, if_pos hcond]
    rcases hdis with ⟨ht, _⟩ | ⟨hf, hli, hri, haft, hdec, hconv, hmin⟩
    · exact absurd ht hend
    refine ⟨hfl, hfr, .inr ⟨hf, hli, hri, haft, ?_, ?_⟩⟩
    · show cond (s.leftRecs.getD _ []) (s.rightRecs.getD _ []) = true
      rw [← hfl, ← hfr]
      exact hcond
    · intro i j hi hj ha hlt
      exact (hmin i j hi hj ha hlt).elim
  · intro s hend hcond ih h0 h1 h2
    obtain ⟨hfl, hfr, hdis⟩ := joinAdvance_spec s h0 h1 h2
    rcases hdis with ⟨ht, _⟩ | ⟨hf, hli, hri, haft, hdec, hconv, hmin⟩
    · exact absurd ht hend
    rw [nextTuple, dif_neg hend, if_neg hcond]
    have ih2 := ih hf (by rw [hfl]; exact hli) (by rw [hfr]; exact hri)
    obtain ⟨ihl, ihr, ihdis⟩ := ih2
    have hfl2 : (nextTuple cond (joinAdvance s)).leftRecs = s.leftRecs := by
      rw [ihl, hfl]
    have hfr2 : (nextTuple cond (joinAdvance s)).rightRecs = s.rightRecs := by
      rw [ihr, hfr]
    have hca : ∀ i j, condAt cond (joinAdvance s) i j = condAt cond s i j := by
      intro i j
      unfold condAt
      rw [hfl, hfr]
    have hcf : condAt cond (joinAdvance s) (joinAdvance s).li
        (joinAdvance s).ri = false := by
      unfold condAt
      simpa using hcond
    refine ⟨hfl2, hfr2, ?_⟩
    rcases ihdis with ⟨hend2, hall⟩ | ⟨hne2, hli2, hri2, haft2, hcond2, hmin2⟩
    · refine .inl ⟨hend2, ?_⟩
      intro i j hi hj ha
      rcases hdec i j hi hj ha with ⟨hieq, hjeq⟩ | ha2
      · subst hieq
        subst hjeq
        rw [← hca]
        exact hcf
      · have h5 := hall i j (by rw [hfl]; exact hi) (by rw [hfr]; exact hj) ha2
        rw [hca] at h5
        exact h5
    · refine .inr ⟨hne2, ?_, ?_, ?_, ?_, ?_⟩
      · rw [hfl] at hli2
        exact hli2
      · rw [hfr] at hri2
        exact hri2
      · exact hconv _ _ haft2
      · rw [hca] at hcond2
        exact hcond2
      · intro i j hi hj ha hlt
        rcases hdec i j hi hj ha with ⟨hieq, hjeq⟩ | ha2
        · subst hieq
          subst hjeq
          rw [← hca]
          exact hcf
        · have h5 := hmin2 i j (by rw [hfl]; exact hi) (by rw [hfr]; exact hj)
            ha2 hlt
          rw [hca] at h5
          exact h5

theorem beginTuple_spec (cond : RmRec → RmRec → Bool) (l r : List RmRec) :
    (beginTuple cond l r).leftRecs = l ∧
    (beginTuple cond l r).rightRecs = r ∧
    (((beginTuple cond l r).isend = true ∧
       ∀ i j, i < l.length → j < r.length →
         cond (l.getD i []) (r.getD j []) = false) ∨
     ((beginTuple cond l r).isend = false ∧
       (beginTuple cond l r).li < l.length ∧
       (beginTuple cond l r).ri < r.length ∧
       cond (l.getD (beginTuple cond l r).li [])
         (r.getD (beginTuple cond l r).ri []) = true ∧
       ∀ i j, i < l.length → j < r.length →
         posLt (i, j) ((beginTuple cond l r).li, (beginTuple cond l r).ri) →
         cond (l.getD i []) (r.getD j []) = false)) := by
  unfold beginTuple
  by_cases he1 : l.length = 0
  · simp only [if_pos he1]
    exact ⟨by trivial, by trivial, .inl ⟨by trivial, fun i j hi hj => absurd hi (by omega)⟩⟩
  · simp only [if_neg he1]
    by_cases he2 : r.length = 0
    · simp only [if_pos he2]
      exact ⟨by trivial, by trivial, .inl ⟨by trivial, fun i j hi hj => absurd hj (by omega)⟩⟩
    · simp only [if_neg he2]
      by_cases hc : cond (l.getD 0 []) (r.getD 0 []) = true
      · simp only [if_pos hc]
        refine ⟨by trivial, by trivial, .inr ⟨by trivial, by omega, by omega, hc, ?_⟩⟩
        intro i j hi hj hlt
        unfold posLt at hlt
        dsimp only at hlt
        omega
      · simp only [if_neg hc]
        obtain ⟨hfl, hfr, hdis⟩ := nextTuple_spec_all cond ⟨l, r, 0, 0, false⟩
          rfl (by dsimp only; omega) (by dsimp only; omega)
        refine ⟨hfl, hfr, ?_⟩
        rcases hdis with ⟨hend, hall⟩ | ⟨hne, hli, hri, haft, hcd, hmin⟩
        · refine .inl ⟨hend, ?_⟩
          intro i j hi hj
          by_cases hz : i = 0 ∧ j = 0
          · obtain ⟨h5, h6⟩ := hz
            subst h5
            subst h6
            simpa using hc
          · have ha : afterPos ⟨l, r, 0, 0, false⟩ i j := by
              unfold afterPos posLt
              dsimp only
              omega
            exact hall i j hi hj ha
        · refine .inr ⟨hne, hli, hri, hcd, ?_⟩
          intro i j hi hj hlt
          by_cases hz : i = 0 ∧ j = 0
          · obtain ⟨h5, h6⟩ := hz
            subst h5
            subst h6
            simpa using hc
          · have ha : afterPos ⟨l, r, 0, 0, false⟩ i j := by
              unfold afterPos posLt
              dsimp only
              omega
            exact hmin i j hi hj ha hlt

/-- C10: over every pair of finite child inputs the join terminates.  Part 1:
each advance taken by a recursive `nextTuple` step consumes exactly one of the
remaining (left, right) record pairs, and `isend` is raised exactly when no
pair remains.  Part 2 (`nextTupleSpecStmt`): a `nextTuple` call ends either
with `is_end` (and no later pair satisfies the join condition) or positioned
on the first pair after the current one — in outer-left, inner-right order —
that satisfies the condition.  Part 3: `beginTuple` likewise ends on the
first satisfying pair overall, or with `is_end` when none exists. -/
theorem nested_loop_join_terminates (cond : RmRec → RmRec → Bool)
    (s : JoinState) (l r : List RmRec)
    (h0 : s.isend = false) (h1 : s.li < s.leftRecs.length)
    (h2 : s.ri < s.rightRecs.length) :
    (((joinAdvance s).isend = false →
       remainingPairs (joinAdvance s) + 1 = remainingPairs s) ∧
     ((joinAdvance s).isend = true → remainingPairs s = 0)) ∧
    nextTupleSpecStmt cond s ∧
    ((beginTuple cond l r).leftRecs = l ∧
     (beginTuple cond l r).rightRecs = r ∧
     (((beginTuple cond l r).isend = true ∧
        ∀ i j, i < l.length → j < r.length →
          cond (l.getD i []) (r.getD j []) = false) ∨
      ((beginTuple cond l r).isend = false ∧
        (beginTuple cond l r).li < l.length ∧
        (beginTuple cond l r).ri < r.length ∧
        cond (l.getD (beginTuple cond l r).li [])
          (r.getD (beginTuple cond l r).ri []) = true ∧
        ∀ i j, i < l.length → j < r.length →
          posLt (i, j)
            ((beginTuple cond l r).li, (beginTuple cond l r).ri) →
          cond (l.getD i []) (r.getD j []) = false))) :=
  ⟨remainingPairs_advance s h0 h1 h2, nextTuple_spec_all cond s,
   beginTuple_spec cond l r⟩

/-- Witness for C10 at a concrete input: advancing from the first of the two
(left) × one (right) pairs consumes exactly one remaining pair. -/
theorem nested_loop_join_terminates_witness :
    remainingPairs (joinAdvance ⟨[[1], [2]], [[3]], 0, 0, false⟩) + 1
      = remainingPairs ⟨[[1], [2]], [[3]], 0, 0, false⟩ :=
  ((nested_loop_join_terminates (fun _ _ => true)
    ⟨[[1], [2]], [[3]], 0, 0, false⟩ [[1]] [[2]]
    rfl (by decide) (by decide)).1).1 (by decide)

/-! ## DML executor event order (`executor_insert.h`, `executor_delete.h`,
`executor_update.h`): C2 -/

/-- Observable per-record steps of the three DML executors. -/
inductive DmlEvent where
  | lockIX
  | heapRead (rid : Rid)
  | heapWrite (rid : Rid)
  | undoAppend (rid : Rid)
  | indexDelete (idx : Nat) (rid : Rid)
  | indexInsert (idx : Nat) (rid : Rid)
  deriving DecidableEq, Repr

/-- Event trace of `InsertExecutor::Next` (Steps 1, 3, 4, 5): table IX lock,
heap insert, undo append, then one index insert per index. -/
def insertTrace (rid : Rid) (n : Nat) : List DmlEvent :=
  [.lockIX, .heapWrite rid, .undoAppend rid] ++
    (List.range n).map (fun i => .indexInsert i rid)

/-- Event trace of `DeleteExecutor::Next` (Steps 1, 2.1-2.4): table IX lock,
then per rid: read, undo append, index deletes, and the heap delete last. -/
def deleteTrace (rids : List Rid) (n : Nat) : List DmlEvent :=
  [.lockIX] ++ rids.flatMap (fun rid =>
    [.heapRead rid, .undoAppend rid] ++
    (List.range n).map (fun i => .indexDelete i rid) ++
    [.heapWrite rid])

/-- Event trace of `UpdateExecutor::Next` (Steps 1, 2.1, 2.2, 3, 4): table IX
lock, then per rid: read, undo append, delete+insert on each affected index,
and the heap update last. -/
def updateTrace (rids : List Rid) (n : Nat) (affected : Nat → Bool) :
    List DmlEvent :=
  [.lockIX] ++ rids.flatMap (fun rid =>
    [.heapRead rid, .undoAppend rid] ++
    (List.range n).flatMap (fun i =>
      if affected i then [.indexDelete i rid, .indexInsert i rid] else []) ++
    [.heapWrite rid])

/-- `a` occurs strictly before `b` in the trace. -/
def occursBefore (tr : List DmlEvent) (a b : DmlEvent) : Prop :=
  ∃ l1 l2, tr = l1 ++ l2 ∧ a ∈ l1 ∧ b ∈ l2

theorem flatMap_mem_split {α β : Type} (f : α → List β) {l : List α} {x : α}
    (hx : x ∈ l) :
    ∃ L R, l.flatMap f = L ++ (f x ++ R) := by
  obtain ⟨s, t, rfl⟩ := List.mem_iff_append.mp hx
  exact ⟨s.flatMap f, t.flatMap f, by simp⟩

/-- C2 counterexample: a `Delete` of one record over one index performs the
heap write LAST — after the undo append and the index delete — not first as
the claim states. -/
theorem delete_writes_heap_last :
    deleteTrace [⟨1, 0⟩] 1
      = [.lockIX, .heapRead ⟨1, 0⟩, .undoAppend ⟨1, 0⟩,
         .indexDelete 0 ⟨1, 0⟩, .heapWrite ⟨1, 0⟩] ∧
    (deleteTrace [⟨1, 0⟩] 1).indexOf (.undoAppend ⟨1, 0⟩) = 2 ∧
    (deleteTrace [⟨1, 0⟩] 1).indexOf (.heapWrite ⟨1, 0⟩) = 4 := by
  decide

/-- C2 (amended): per mutated record, `Insert` performs (1) heap write,
(2) undo append, (3) index inserts — as claimed; but `Delete` and `Update`
perform (1) record read, (2) undo append, (3) index maintenance, and only
then (4) the heap write, i.e. the heap write comes LAST, not first (see the
counterexample). -/
theorem dml_event_order (rid : Rid) (n : Nat) (affected : Nat → Bool)
    (i : Nat) (hi : i < n) :
    (occursBefore (insertTrace rid n) (.heapWrite rid) (.undoAppend rid) ∧
     occursBefore (insertTrace rid n) (.undoAppend rid)
       (.indexInsert i rid)) ∧
    (occursBefore (deleteTrace [rid] n) (.undoAppend rid)
       (.indexDelete i rid) ∧
     occursBefore (deleteTrace [rid] n) (.indexDelete i rid)
       (.heapWrite rid) ∧
     occursBefore (deleteTrace [rid] n) (.undoAppend rid) (.heapWrite rid)) ∧
    (affected i = true →
      occursBefore (updateTrace [rid] n affected) (.undoAppend rid)
        (.indexDelete i rid) ∧
      occursBefore (updateTrace [rid] n affected) (.indexDelete i rid)
        (.indexInsert i rid) ∧
      occursBefore (updateTrace [rid] n affected) (.indexInsert i rid)
        (.heapWrite rid)) := by
  have hd : deleteTrace [rid] n
      = [.lockIX, .heapRead rid, .undoAppend rid] ++
        ((List.range n).map (fun j => .indexDelete j rid) ++
          [.heapWrite rid]) := by
    simp [deleteTrace]
  have hu : updateTrace [rid] n affected
      = [.lockIX, .heapRead rid, .undoAppend rid] ++
        (((List.range n).flatMap (fun j =>
            if affected j then
              [DmlEvent.indexDelete j rid, .indexInsert j rid]
            else [])) ++ [.heapWrite rid]) := by
    simp [updateTrace]
  refine ⟨⟨?_, ?_⟩, ⟨?_, ?_, ?_⟩, fun haff => ⟨?_, ?_, ?_⟩⟩
  · exact ⟨[.lockIX, .heapWrite rid],
      .undoAppend rid :: (List.range n).map (fun j => .indexInsert j rid),
      by simp [insertTrace], by simp, by simp⟩
  · exact ⟨[.lockIX, .heapWrite rid, .undoAppend rid],
      (List.range n).map (fun j => .indexInsert j rid),
      by simp [insertTrace], by simp,
      List.mem_map.mpr ⟨i, List.mem_range.mpr hi, rfl⟩⟩
  · exact ⟨[.lockIX, .heapRead rid, .undoAppend rid],
      (List.range n).map (fun j => .indexDelete j rid) ++ [.heapWrite rid],
      hd, by simp,
      List.mem_append_left _
        (List.mem_map.mpr ⟨i, List.mem_range.mpr hi, rfl⟩)⟩
  · refine ⟨[.lockIX, .heapRead rid, .undoAppend rid] ++
      (List.range n).map (fun j => .indexDelete j rid), [.heapWrite rid],
      by rw [hd, ← List.append_assoc], ?_, by simp⟩
    exact List.mem_append_right _
      (List.mem_map.mpr ⟨i, List.mem_range.mpr hi, rfl⟩)
  · exact ⟨[.lockIX, .heapRead rid, .undoAppend rid],
      (List.range n).map (fun j => .indexDelete j rid) ++ [.heapWrite rid],
      hd, by simp, by simp⟩
  · refine ⟨[.lockIX, .heapRead rid, .undoAppend rid],
      ((List.range n).flatMap (fun j =>
        if affected j then
          [DmlEvent.indexDelete j rid, .indexInsert j rid]
        else [])) ++ [.heapWrite rid],
      hu, by simp, ?_⟩
    exact List.mem_append_left _
      (List.mem_flatMap.mpr ⟨i, List.mem_range.mpr hi, by simp [haff]⟩)
  · obtain ⟨L, R, hsplit⟩ := flatMap_mem_split
      (fun j => if affected j then
        [DmlEvent.indexDelete j rid, .indexInsert j rid] else [])
      (List.mem_range.mpr hi)
    simp only [haff, if_true] at hsplit
    refine ⟨[.lockIX, .heapRead rid, .undoAppend rid] ++ L ++
        [.indexDelete i rid],
      .indexInsert i rid :: (R ++ [.heapWrite rid]),
      ?_, by simp, by simp⟩
    rw [hu, hsplit]
    simp
  · refine ⟨[.lockIX, .heapRead rid, .undoAppend rid] ++
      ((List.range n).flatMap (fun j =>
        if affected j then
          [DmlEvent.indexDelete j rid, .indexInsert j rid]
        else [])), [.heapWrite rid],
      by rw [hu, ← List.append_assoc], ?_, by simp⟩
    exact List.mem_append_right _
      (List.mem_flatMap.mpr ⟨i, List.mem_range.mpr hi, by simp [haff]⟩)

/-- Witness for the amended C2 at a concrete input: in a one-record delete
over one index, the undo append precedes the heap delete. -/
theorem dml_event_order_witness :
    occursBefore (deleteTrace [⟨1, 0⟩] 1) (.undoAppend ⟨1, 0⟩)
      (.heapWrite ⟨1, 0⟩) :=
  ((dml_event_order ⟨1, 0⟩ 1 (fun _ => true) 0 (by decide)).2.1).2.2

/-! ## B+tree index (`ix_index_handle.cpp`): C4, C8 and the index part of C1 -/

/-- `IX_NO_PAGE` (spec layout). -/
def IX_NO_PAGE : Int := -1

/-- `IX_LEAF_HEADER_PAGE`: page 1 is the leaf-list sentinel (spec layout). -/
def IX_LEAF_HEADER_PAGE : Int := 1

/-- One B+tree node page (`IxNodeHandle`): header fields plus the parallel
key/rid arrays.  Keys are single-column integer keys (`ix_compare` on one int
column is integer comparison); `num_key` is `keys.length`.  For an internal
node `rids[i].page_no` is the page number of child `i`. -/
structure IxNode where
  is_leaf : Bool
  parent : Int
  keys : List Int
  rids : List Rid
  prev_leaf : Int
  next_leaf : Int
  deriving DecidableEq, Repr

instance : Inhabited IxNode :=
  ⟨⟨true, IX_NO_PAGE, [], [], IX_NO_PAGE, IX_NO_PAGE⟩⟩

/-- The index file (`IxFileHdr` + node pages): root page, last leaf, page
count, node capacity (`btree_order`), and the node pages keyed by page
number. -/
structure IxTree where
  root_page : Int
  last_leaf : Int
  num_pages : Nat
  btree_order : Nat
  nodes : List (Int × IxNode)
  deriving DecidableEq, Repr

/-- `fetch_node`. -/
def getIxNode (t : IxTree) (p : Int) : IxNode :=
  (((t.nodes.find? (fun e => e.1 == p)).map (fun e => e.2))).getD default

/-- Write a node page back. -/
def setIxAssoc : List (Int × IxNode) → Int → IxNode → List (Int × IxNode)
  | [], p, n => [(p, n)]
  | e :: rest, p, n =>
    if e.1 = p then (p, n) :: rest else e :: setIxAssoc rest p n

def setIxNode (t : IxTree) (p : Int) (n : IxNode) : IxTree :=
  { t with nodes := setIxAssoc t.nodes p n }

/-- Binary-search loop of `IxNodeHandle::lower_bound` (first key `≥ target`);
the fuel argument bounds the number of iterations (the interval shrinks every
round, so `keys.length + 1` rounds always suffice). -/
def lowerBoundAux (keys : List Int) (target : Int) :
    Nat → Nat → Nat → Nat
  | 0, left, _ => left
  | fuel + 1, left, right =>
    if left < right then
      let mid := left + (right - left) / 2
      if keys.getD mid 0 < target then
        lowerBoundAux keys target fuel (mid + 1) right
      else lowerBoundAux keys target fuel left mid
    else left

def IxNode.lower_bound (n : IxNode) (target : Int) : Nat :=
  lowerBoundAux n.keys target (n.keys.length + 1) 0 n.keys.length

/-- Binary-search loop of `IxNodeHandle::upper_bound` (first key `> target`,
search range starting at index 1). -/
def upperBoundAux (keys : List Int) (target : Int) :
    Nat → Nat → Nat → Nat
  | 0, left, _ => left
  | fuel + 1, left, right =>
    if left < right then
      let mid := left + (right - left) / 2
      if keys.getD mid 0 ≤ target then
        upperBoundAux keys target fuel (mid + 1) right
      else upperBoundAux keys target fuel left mid
    else left

def IxNode.upper_bound (n : IxNode) (target : Int) : Nat :=
  upperBoundAux n.keys target (n.keys.length + 1) 1 n.keys.length

/-- `IxNodeHandle::leaf_lookup`. -/
def IxNode.leaf_lookup (n : IxNode) (key : Int) : Option Rid :=
  let pos := n.lower_bound key
  if pos < n.keys.length then
    if n.keys.getD pos 0 = key then some (n.rids.getD pos ⟨-1, -1⟩)
    else none
  else none

/-- `IxNodeHandle::internal_lookup`: child page for `key`. -/
def IxNode.internal_lookup (n : IxNode) (key : Int) : Int :=
  (n.rids.getD (n.upper_bound key - 1) ⟨-1, -1⟩).page_no

/-- `IxNodeHandle::insert_pairs`. -/
def IxNode.insert_pairs (n : IxNode) (pos : Nat) (ks : List Int)
    (rs : List Rid) : IxNode :=
  { n with
    keys := n.keys.take pos ++ ks ++ n.keys.drop pos
    rids := n.rids.take pos ++ rs ++ n.rids.drop pos }

/-- `IxNodeHandle::insert`: refuse duplicates, otherwise insert at the
`lower_bound` position; returns the resulting size. -/
def IxNode.insert (n : IxNode) (key : Int) (value : Rid) : IxNode × Nat :=
  let pos := n.lower_bound key
  if pos < n.keys.length ∧ n.keys.getD pos 0 = key then (n, n.keys.length)
  else
    let n2 := n.insert_pairs pos [key] [value]
    (n2, n2.keys.length)

/-- `IxNodeHandle::erase_pair`. -/
def IxNode.erase_pair (n : IxNode) (pos : Nat) : IxNode :=
  { n with
    keys := n.keys.take pos ++ n.keys.drop (pos + 1)
    rids := n.rids.take pos ++ n.rids.drop (pos + 1) }

/-- `IxNodeHandle::remove`: erase the key when present; returns the resulting
size. -/
def IxNode.remove (n : IxNode) (key : Int) : IxNode × Nat :=
  let pos := n.lower_bound key
  if pos < n.keys.length ∧ n.keys.getD pos 0 = key then
    let n2 := n.erase_pair pos
    (n2, n2.keys.length)
  else (n, n.keys.length)

/-- Modelled from the spec: `IxNodeHandle::find_child` scans the parent's
values for the child's page number. -/
def IxNode.find_child (n : IxNode) (child_page : Int) : Nat :=
  n.rids.findIdx (fun r => r.page_no == child_page)

/-- Modelled from the spec: node capacity is `btree_order` and every non-root
node keeps at least `ceil(btree_order / 2)` keys. -/
def IxTree.max_size (t : IxTree) : Nat := t.btree_order

/-- Modelled from the spec: minimum occupancy `ceil(btree_order / 2)`. -/
def IxTree.min_size (t : IxTree) : Nat := (t.btree_order + 1) / 2

/-- Descent loop of `find_leaf_page`; the page count bounds the depth. -/
def findLeafAux (t : IxTree) (key : Int) : Nat → Int → Int
  | 0, p => p
  | fuel + 1, p =>
    let n := getIxNode t p
    if n.is_leaf then p
    else findLeafAux t key fuel (n.internal_lookup key)

/-- `find_leaf_page`. -/
def find_leaf_page (t : IxTree) (key : Int) : Int :=
  findLeafAux t key t.num_pages t.root_page

/-- `get_value`: whether `key` is present (the rid result is not needed by
the claims). -/
def get_value (t : IxTree) (key : Int) : Bool :=
  ((getIxNode t (find_leaf_page t key)).leaf_lookup key).isSome

/-- `maintain_child`: re-point one child's parent pointer. -/
def maintain_child (t : IxTree) (p : Int) (child_idx : Nat) : IxTree :=
  let n := getIxNode t p
  if n.is_leaf then t
  else
    let cp := (n.rids.getD child_idx ⟨-1, -1⟩).page_no
    let c := getIxNode t cp
    setIxNode t cp { c with parent := p }

/-- `for i in [start, start + cnt)` loop of `maintain_child` calls. -/
def maintainChildRange (t : IxTree) (p : Int) (start : Nat) :
    Nat → IxTree
  | 0 => t
  | i + 1 => maintain_child (maintainChildRange t p start i) p (start + i)

/-- `IxIndexHandle::split`: move `[size/2, size)` into a fresh right sibling,
splice the leaf chain (and `last_leaf`) for leaves, re-parent moved children
for internal nodes. -/
def split (t : IxTree) (p : Int) : IxTree × Int :=
  let node := getIxNode t p
  let new_page : Int := (t.num_pages : Int)
  let t0 : IxTree := { t with num_pages := t.num_pages + 1 }
  let split_pos := node.keys.length / 2
  let newNode0 : IxNode :=
    { is_leaf := node.is_leaf
      parent := node.parent
      keys := []
      rids := []
      prev_leaf := IX_NO_PAGE
      next_leaf := IX_NO_PAGE }
  let newNode1 := newNode0.insert_pairs 0 (node.keys.drop split_pos)
    (node.rids.drop split_pos)
  let node1 := { node with
    keys := node.keys.take split_pos
    rids := node.rids.take split_pos }
  if node.is_leaf then
    let next_no := node.next_leaf
    let newNode2 := { newNode1 with prev_leaf := p, next_leaf := next_no }
    let node2 := { node1 with next_leaf := new_page }
    let t1 := setIxNode (setIxNode t0 p node2) new_page newNode2
    let nxt := getIxNode t1 next_no
    let t2 := setIxNode t1 next_no { nxt with prev_leaf := new_page }
    let t3 :=
      if t2.last_leaf = p then { t2 with last_leaf := new_page } else t2
    (t3, new_page)
  else
    let t1 := setIxNode (setIxNode t0 p node1) new_page newNode1
    let t2 := maintainChildRange t1 new_page 0 newNode1.keys.length
    (t2, new_page)

/-- `insert_into_parent`: recursive upward insertion after a split; the page
count bounds the recursion depth (`is_root_page()` is `parent == IX_NO_PAGE`).
-/
def insert_into_parent : Nat → IxTree → Int → Int → Int → IxTree
  | 0, t, _, _, _ => t
  | fuel + 1, t, old_p, key, new_p =>
    let old_node := getIxNode t old_p
    if old_node.parent = IX_NO_PAGE then
      let root_page : Int := (t.num_pages : Int)
      let new_root : IxNode :=
        { is_leaf := false
          parent := IX_NO_PAGE
          keys := [old_node.keys.getD 0 0, key]
          rids := [⟨old_p, 0⟩, ⟨new_p, 0⟩]
          prev_leaf := IX_NO_PAGE
          next_leaf := IX_NO_PAGE }
      let t1 := setIxNode { t with num_pages := t.num_pages + 1 }
        root_page new_root
      let t2 := setIxNode t1 old_p
        { (getIxNode t1 old_p) with parent := root_page }
      let t3 := setIxNode t2 new_p
        { (getIxNode t2 new_p) with parent := root_page }
      { t3 with root_page := root_page }
    else
      let parent_p := old_node.parent
      let parent := getIxNode t parent_p
      let old_idx := parent.find_child old_p
      let parent1 := parent.insert_pairs (old_idx + 1) [key] [⟨new_p, 0⟩]
      let t1 := setIxNode t parent_p parent1
      let t2 := setIxNode t1 new_p
        { (getIxNode t1 new_p) with parent := parent_p }
      if parent1.keys.length = t2.max_size then
        let sp := split t2 parent_p
        let sep := (getIxNode sp.1 sp.2).keys.getD 0 0
        insert_into_parent fuel sp.1 parent_p sep sp.2
      else t2

/-- `maintain_parent`: walk up rewriting each ancestor's separator to the
node's first key until the separator already matches. -/
def maintain_parent : Nat → IxTree → Int → IxTree
  | 0, t, _ => t
  | fuel + 1, t, p =>
    let curr := getIxNode t p
    if curr.parent = IX_NO_PAGE then t
    else
      let parent_p := curr.parent
      let parent := getIxNode t parent_p
      let rank := parent.find_child p
      if parent.keys.getD rank 0 = curr.keys.getD 0 0 then t
      else
        let parent1 :=
          { parent with keys := parent.keys.set rank (curr.keys.getD 0 0) }
        maintain_parent fuel (setIxNode t parent_p parent1) parent_p

/-- `insert_entry`: returns the leaf page number (also on the duplicate-key
no-op path) and the updated tree. -/
def insert_entry (t : IxTree) (key : Int) (value : Rid) : Int × IxTree :=
  let leaf_p := find_leaf_page t key
  let leaf := getIxNode t leaf_p
  let old_size := leaf.keys.length
  let ins := leaf.insert key value
  if ins.2 = old_size then (leaf_p, t)
  else
    let t1 := setIxNode t leaf_p ins.1
    let t2 := maintain_parent t1.num_pages t1 leaf_p
    if ins.2 = t2.max_size then
      let sp := split t2 leaf_p
      let sep := (getIxNode sp.1 sp.2).keys.getD 0 0
      let t3 := insert_into_parent sp.1.num_pages sp.1 leaf_p sep sp.2
      (leaf_p, t3)
    else (leaf_p, t2)

/-- `erase_leaf`: unlink a leaf from the doubly linked chain. -/
def erase_leaf (t : IxTree) (p : Int) : IxTree :=
  let leaf := getIxNode t p
  let prev := getIxNode t leaf.prev_leaf
  let t1 := setIxNode t leaf.prev_leaf
    { prev with next_leaf := leaf.next_leaf }
  let nxt := getIxNode t1 leaf.next_leaf
  setIxNode t1 leaf.next_leaf { nxt with prev_leaf := leaf.prev_leaf }

/-- `release_node_handle`: only the page counter changes (the page bytes
stay). -/
def release_node_handle (t : IxTree) : IxTree :=
  { t with num_pages := t.num_pages - 1 }

/-- `adjust_root`. -/
def adjust_root (t : IxTree) (p : Int) : Bool × IxTree :=
  let root := getIxNode t p
  if ¬root.is_leaf ∧ root.keys.length = 1 then
    let child_p := (root.rids.getD 0 ⟨-1, -1⟩).page_no
    let child := getIxNode t child_p
    let t1 := setIxNode t child_p { child with parent := IX_NO_PAGE }
    (true, release_node_handle { t1 with root_page := child_p })
  else if root.is_leaf ∧ root.keys.length = 0 then
    (true, release_node_handle { t with root_page := IX_NO_PAGE })
  else (false, t)

/-- `redistribute`: move one end pair from the sibling into `node` and fix
the parent separator. -/
def redistribute (t : IxTree) (neighbor_p node_p parent_p : Int)
    (index : Nat) : IxTree :=
  if index = 0 then
    let neighbor := getIxNode t neighbor_p
    let node := getIxNode t node_p
    let node1 := node.insert_pairs node.keys.length
      [neighbor.keys.getD 0 0] [neighbor.rids.getD 0 ⟨-1, -1⟩]
    let neighbor1 := neighbor.erase_pair 0
    let t1 := setIxNode (setIxNode t node_p node1) neighbor_p neighbor1
    let parent := getIxNode t1 parent_p
    let parent1 := { parent with
      keys := parent.keys.set (index + 1) (neighbor1.keys.getD 0 0) }
    let t2 := setIxNode t1 parent_p parent1
    if ¬node1.is_leaf then maintain_child t2 node_p (node1.keys.length - 1)
    else t2
  else
    let neighbor := getIxNode t neighbor_p
    let node := getIxNode t node_p
    let last_idx := neighbor.keys.length - 1
    let node1 := node.insert_pairs 0
      [neighbor.keys.getD last_idx 0] [neighbor.rids.getD last_idx ⟨-1, -1⟩]
    let neighbor1 := neighbor.erase_pair last_idx
    let t1 := setIxNode (setIxNode t node_p node1) neighbor_p neighbor1
    let parent := getIxNode t1 parent_p
    let parent1 := { parent with
      keys := parent.keys.set index (node1.keys.getD 0 0) }
    let t2 := setIxNode t1 parent_p parent1
    if ¬node1.is_leaf then maintain_child t2 node_p 0 else t2

/-- `coalesce_or_redistribute`; the page count bounds the upward recursion. -/
def coalesce_or_redistribute : Nat → IxTree → Int → Bool × IxTree
  | 0, t, _ => (false, t)
  | fuel + 1, t, p =>
    let node := getIxNode t p
    if node.parent = IX_NO_PAGE then adjust_root t p
    else if node.keys.length ≥ t.min_size then (false, t)
    else
      let parent_p := node.parent
      let parent := getIxNode t parent_p
      let node_idx := parent.find_child p
      let neighbor_idx := if node_idx > 0 then node_idx - 1 else node_idx + 1
      let neighbor_p := (parent.rids.getD neighbor_idx ⟨-1, -1⟩).page_no
      let neighbor := getIxNode t neighbor_p
      if node.keys.length + neighbor.keys.length ≥ t.min_size * 2 then
        (false, redistribute t neighbor_p p parent_p node_idx)
      else if node_idx = 0 then
        let node1 := node.insert_pairs node.keys.length
          neighbor.keys neighbor.rids
        let t1 := setIxNode t p node1
        let t2 :=
          if ¬neighbor.is_leaf then
            maintainChildRange t1 p node.keys.length neighbor.keys.length
          else t1
        let t3 :=
          if neighbor.is_leaf then
            let t2a := erase_leaf t2 neighbor_p
            if t2a.last_leaf = neighbor_p then { t2a with last_leaf := p }
            else t2a
          else t2
        let t4 := release_node_handle t3
        let parent2 := (getIxNode t4 parent_p).erase_pair neighbor_idx
        let t5 := setIxNode t4 parent_p parent2
        (false, (coalesce_or_redistribute fuel t5 parent_p).2)
      else
        let neighbor1 := neighbor.insert_pairs neighbor.keys.length
          node.keys node.rids
        let t1 := setIxNode t neighbor_p neighbor1
        let t2 :=
          if ¬node.is_leaf then
            maintainChildRange t1 neighbor_p neighbor.keys.length
              node.keys.length
          else t1
        let t3 :=
          if node.is_leaf then
            let t2a := erase_leaf t2 p
            if t2a.last_leaf = p then { t2a with last_leaf := neighbor_p }
            else t2a
          else t2
        let t4 := release_node_handle t3
        let parent2 := (getIxNode t4 parent_p).erase_pair node_idx
        let t5 := setIxNode t4 parent_p parent2
        (true, (coalesce_or_redistribute fuel t5 parent_p).2)

/-- `delete_entry`: returns whether a key was deleted, plus the updated
tree. -/
def delete_entry (t : IxTree) (key : Int) : Bool × IxTree :=
  let leaf_p := find_leaf_page t key
  let leaf := getIxNode t leaf_p
  let old_size := leaf.keys.length
  let rm := leaf.remove key
  if rm.2 = old_size then (false, t)
  else
    let t1 := setIxNode t leaf_p rm.1
    let t2 := if rm.2 > 0 then maintain_parent t1.num_pages t1 leaf_p else t1
    (true, (coalesce_or_redistribute t2.num_pages t2 leaf_p).2)

theorem getAssoc_set_self (l : List (Int × IxNode)) (p : Int) (n : IxNode) :
    ((((setIxAssoc l p n).find? (fun e => e.1 == p)).map
      (fun e => e.2))).getD default = n := by
  induction l with
  | nil => simp [setIxAssoc, List.find?]
  | cons e rest ih =>
    by_cases he : e.1 = p
    · simp [setIxAssoc, he, List.find?]
    · simp only [setIxAssoc, if_neg he]
      rw [List.find?]
      rw [show (e.1 == p) = false from by simpa using he]
      exact ih

theorem getIxNode_set_self (t : IxTree) (p : Int) (n : IxNode) :
    getIxNode (setIxNode t p n) p = n :=
  getAssoc_set_self t.nodes p n

theorem getAssoc_set_ne (l : List (Int × IxNode)) (p q : Int) (n : IxNode)
    (h : q ≠ p) :
    (((setIxAssoc l p n).find? (fun e => e.1 == q)).map
      (fun e => e.2)).getD default
      = ((l.find? (fun e => e.1 == q)).map (fun e => e.2)).getD default := by
  have hpq : (p == q) = false := by
    simp only [beq_eq_false_iff_ne]
    exact fun hh => h hh.symm
  induction l with
  | nil => simp [setIxAssoc, List.find?, hpq]
  | cons e rest ih =>
    by_cases he : e.1 = p
    · have he2 : (e.1 == q) = false := by
        simp only [beq_eq_false_iff_ne]
        rw [he]
        exact fun hh => h hh.symm
      simp [setIxAssoc, if_pos he, List.find?, hpq, he2]
    · simp only [setIxAssoc, if_neg he]
      cases hq : (e.1 == q) with
      | true => simp [List.find?, hq]
      | false => simpa [List.find?, hq] using ih

theorem getIxNode_set_ne (t : IxTree) (p q : Int) (n : IxNode) (h : q ≠ p) :
    getIxNode (setIxNode t p n) q = getIxNode t q :=
  getAssoc_set_ne t.nodes p q n h

theorem maintainChildRange_spec (t : IxTree) (p : Int) (start : Nat)
    (cnt : Nat)
    (hleaf : (getIxNode t p).is_leaf = false)
    (hstable : ∀ i, start ≤ i → i < start + cnt →
      ((getIxNode t p).rids.getD i ⟨-1, -1⟩).page_no ≠ p) :
    getIxNode (maintainChildRange t p start cnt) p = getIxNode t p ∧
    (∀ q, (∀ i, start ≤ i → i < start + cnt →
        ((getIxNode t p).rids.getD i ⟨-1, -1⟩).page_no ≠ q) →
      getIxNode (maintainChildRange t p start cnt) q = getIxNode t q) ∧
    (∀ i, start ≤ i → i < start + cnt →
      (getIxNode (maintainChildRange t p start cnt)
        (((getIxNode t p).rids.getD i ⟨-1, -1⟩).page_no)).parent = p) := by
  induction cnt with
  | zero =>
    exact ⟨rfl, fun q _ => rfl, fun i h1 h2 => absurd h2 (by omega)⟩
  | succ k ih =>
    obtain ⟨iha, ihb, ihc⟩ := ih (fun i h1 h2 => hstable i h1 (by omega))
    have hck := hstable (start + k) (by omega) (by omega)
    have hmc : maintainChildRange t p start (k + 1)
        = setIxNode (maintainChildRange t p start k)
          (((getIxNode t p).rids.getD (start + k) ⟨-1, -1⟩).page_no)
          { getIxNode (maintainChildRange t p start k)
              (((getIxNode t p).rids.getD (start + k) ⟨-1, -1⟩).page_no)
            with parent := p } := by
      show maintain_child (maintainChildRange t p start k) p (start + k) = _
      unfold maintain_child
      rw [iha]
      rw [if_neg (by simp [hleaf])]
    refine ⟨?_, ?_, ?_⟩
    · rw [hmc, getIxNode_set_ne _ _ _ _ (Ne.symm hck)]
      exact iha
    · intro q hq
      rw [hmc, getIxNode_set_ne _ _ _ _
        (Ne.symm (hq (start + k) (by omega) (by omega)))]
      exact ihb q (fun i h1 h2 => hq i h1 (by omega))
    · intro i h1 h2
      by_cases hik : i = start + k
      · subst hik
        rw [hmc, getIxNode_set_self]
      · have h2' : i < start + k := by omega
        by_cases hci : ((getIxNode t p).rids.getD i ⟨-1, -1⟩).page_no
            = ((getIxNode t p).rids.getD (start + k) ⟨-1, -1⟩).page_no
        · rw [hmc, hci, getIxNode_set_self]
        · rw [hmc, getIxNode_set_ne _ _ _ _ hci]
          exact ihc i h1 h2'

theorem getIxNode_lastleaf_ite (c : Prop) [Decidable c] (t : IxTree)
    (x : Int) (q : Int) :
    getIxNode (if c then { t with last_leaf := x } else t) q
      = getIxNode t q := by
  by_cases h : c
  · rw [if_pos h]
    rfl
  · rw [if_neg h]

theorem lastleaf_ite (c : Prop) [Decidable c] (t : IxTree) (x : Int) :
    (if c then { t with last_leaf := x } else t).last_leaf
      = if c then x else t.last_leaf := by
  by_cases h : c
  · rw [if_pos h, if_pos h]
  · rw [if_neg h, if_neg h]

theorem getD_drop_zero (l : List Int) (n : Nat) :
    (l.drop n).getD 0 0 = l.getD n 0 := by
  unfold List.getD
  rw [List.get?_drop]
  simp

theorem split_internal_aux (t0 : IxTree) (p newp : Int)
    (node1 newNode1 : IxNode) (hpn : p ≠ newp)
    (hleaf : newNode1.is_leaf = false)
    (hst : ∀ i, i < newNode1.keys.length →
      (newNode1.rids.getD i ⟨-1, -1⟩).page_no ≠ newp ∧
      (newNode1.rids.getD i ⟨-1, -1⟩).page_no ≠ p) :
    getIxNode (maintainChildRange
        (setIxNode (setIxNode t0 p node1) newp newNode1) newp 0
        newNode1.keys.length) newp = newNode1 ∧
    getIxNode (maintainChildRange
        (setIxNode (setIxNode t0 p node1) newp newNode1) newp 0
        newNode1.keys.length) p = node1 ∧
    ∀ i, i < newNode1.keys.length →
      (getIxNode (maintainChildRange
          (setIxNode (setIxNode t0 p node1) newp newNode1) newp 0
          newNode1.keys.length)
        (newNode1.rids.getD i ⟨-1, -1⟩).page_no).parent = newp := by
  have hg : getIxNode (setIxNode (setIxNode t0 p node1) newp newNode1) newp
      = newNode1 := getIxNode_set_self _ _ _
  obtain ⟨ha, hb, hc⟩ := maintainChildRange_spec
    (setIxNode (setIxNode t0 p node1) newp newNode1) newp 0
    newNode1.keys.length (by rw [hg]; exact hleaf)
    (fun i h1 h2 => by rw [hg]; exact (hst i (by omega)).1)
  refine ⟨?_, ?_, ?_⟩
  · rw [ha, hg]
  · rw [hb p ?_]
    · rw [getIxNode_set_ne _ _ _ _ hpn, getIxNode_set_self]
    · intro i h1 h2
      rw [hg]
      exact (hst i (by omega)).2
  · intro i hi
    have h4 := hc i (by omega) (by omega)
    rw [hg] at h4
    exact h4

theorem split_spec (t : IxTree) (p : Int)
    (hp : p ≠ (t.num_pages : Int))
    (hlen : (getIxNode t p).rids.length = (getIxNode t p).keys.length)
    (hnl : (getIxNode t p).is_leaf = true →
      (getIxNode t p).next_leaf ≠ p ∧
      (getIxNode t p).next_leaf ≠ (t.num_pages : Int))
    (hch : (getIxNode t p).is_leaf = false →
      ∀ r ∈ (getIxNode t p).rids,
        r.page_no ≠ p ∧ r.page_no ≠ (t.num_pages : Int)) :
    (split t p).2 = (t.num_pages : Int) ∧
    (getIxNode (split t p).1 (t.num_pages : Int)).keys
      = (getIxNode t p).keys.drop ((getIxNode t p).keys.length / 2) ∧
    (getIxNode (split t p).1 p).keys
      = (getIxNode t p).keys.take ((getIxNode t p).keys.length / 2) ∧
    (getIxNode (split t p).1 (t.num_pages : Int)).keys.getD 0 0
      = (getIxNode t p).keys.getD ((getIxNode t p).keys.length / 2) 0 ∧
    ((getIxNode t p).is_leaf = true →
      (getIxNode (split t p).1 p).next_leaf = (t.num_pages : Int) ∧
      (getIxNode (split t p).1 (t.num_pages : Int)).prev_leaf = p ∧
      (getIxNode (split t p).1 (t.num_pages : Int)).next_leaf
        = (getIxNode t p).next_leaf ∧
      (t.last_leaf = p → (split t p).1.last_leaf = (t.num_pages : Int)) ∧
      (t.last_leaf ≠ p → (split t p).1.last_leaf = t.last_leaf)) ∧
    ((getIxNode t p).is_leaf = false →
      ∀ i, i < (getIxNode t p).keys.length
          - (getIxNode t p).keys.length / 2 →
        (getIxNode (split t p).1
          ((((getIxNode t p).rids.drop
            ((getIxNode t p).keys.length / 2)).getD i ⟨-1, -1⟩)).page_no).parent
          = (t.num_pages : Int)) := by
  by_cases hlf : (getIxNode t p).is_leaf
  · obtain ⟨hn1, hn2⟩ := hnl hlf
    simp only [split]
    rw [if_pos hlf]
    dsimp only
    rw [getIxNode_lastleaf_ite, getIxNode_lastleaf_ite,
      getIxNode_set_ne _ _ _ _ (Ne.symm hn2),
      getIxNode_set_ne _ _ _ _ (Ne.symm hn1),
      getIxNode_set_self,
      getIxNode_set_ne _ _ _ _ hp,
      getIxNode_set_self]
    refine ⟨rfl, ?_, ?_, ?_, ?_, ?_⟩
    · simp [IxNode.insert_pairs]
    · rfl
    · simp [IxNode.insert_pairs, getD_drop_zero]
    · intro _
      refine ⟨rfl, rfl, rfl, ?_, ?_⟩
      · intro hll
        rw [lastleaf_ite]
        simp only [setIxNode]
        rw [if_pos hll]
      · intro hll
        rw [lastleaf_ite]
        simp only [setIxNode]
        rw [if_neg hll]
    · intro hcontra
      rw [hlf] at hcontra
      cases hcontra
  · have hlf2 : (getIxNode t p).is_leaf = false := by
      revert hlf
      cases (getIxNode t p).is_leaf <;> simp
    have hchf := hch hlf2
    obtain ⟨ha, hb, hc⟩ := split_internal_aux
      { t with num_pages := t.num_pages + 1 } p (t.num_pages : Int)
      { getIxNode t p with
          keys := (getIxNode t p).keys.take ((getIxNode t p).keys.length / 2)
          rids :=
            (getIxNode t p).rids.take ((getIxNode t p).keys.length / 2) }
      (IxNode.insert_pairs
        { is_leaf := (getIxNode t p).is_leaf
          parent := (getIxNode t p).parent
          keys := []
          rids := []
          prev_leaf := IX_NO_PAGE
          next_leaf := IX_NO_PAGE } 0
        ((getIxNode t p).keys.drop ((getIxNode t p).keys.length / 2))
        ((getIxNode t p).rids.drop ((getIxNode t p).keys.length / 2)))
      hp
      (by simpa [IxNode.insert_pairs] using hlf2)
      (by
        intro i hi
        simp only [IxNode.insert_pairs] at hi ⊢
        simp only [List.take_nil, List.drop_nil, List.nil_append,
          List.append_nil, List.length_drop] at hi ⊢
        have hlen2 : i
            < ((getIxNode t p).rids.drop
              ((getIxNode t p).keys.length / 2)).length := by
          rw [List.length_drop, hlen]
          omega
        have hget : ((getIxNode t p).rids.drop
              ((getIxNode t p).keys.length / 2)).getD i ⟨-1, -1⟩
            ∈ (getIxNode t p).rids.drop ((getIxNode t p).keys.length / 2) := by
          rw [List.getD_eq_get _ _ hlen2]
          exact List.get_mem _ _ hlen2
        have hmem := List.drop_subset _ _ hget
        obtain ⟨hne_p, hne_new⟩ := hchf _ hmem
        exact ⟨hne_new, hne_p⟩)
    simp only [split]
    rw [if_neg (by rw [hlf2]; exact fun hh => by cases hh)]
    dsimp only
    refine ⟨rfl, ?_, ?_, ?_, ?_, ?_⟩
    · rw [ha]
      simp [IxNode.insert_pairs]
    · rw [hb]
    · rw [ha]
      simp [IxNode.insert_pairs, getD_drop_zero]
    · intro hcontra
      rw [hlf2] at hcontra
      cases hcontra
    · intro _ i hi
      have h4 := hc i (by
        simp only [IxNode.insert_pairs]
        simp only [List.take_nil, List.drop_nil, List.nil_append,
          List.append_nil, List.length_drop]
        omega)
      simp only [IxNode.insert_pairs, List.take_nil, List.drop_nil,
        List.nil_append, List.append_nil] at h4 ⊢
      exact h4

/-! ### The C4 split scenario: capacity 4, keys 10,20,30,40,50 -/

/-- A freshly created index: page 0 is the file header (not modelled as a
node), page 1 the leaf-chain sentinel, page 2 the empty root leaf. -/
def ixEmptyTree : IxTree :=
  { root_page := 2, last_leaf := 2, num_pages := 3, btree_order := 4,
    nodes := [(1, { is_leaf := true, parent := IX_NO_PAGE, keys := [],
                    rids := [], prev_leaf := 2, next_leaf := 2 }),
              (2, { is_leaf := true, parent := IX_NO_PAGE, keys := [],
                    rids := [], prev_leaf := 1, next_leaf := 1 })] }

/-- The tree after inserting keys `10,20,30,40,50` in order with leaf
capacity 4 (`btree_order = 4`). -/
def ixScenario : IxTree :=
  List.foldl (fun t kv => (insert_entry t kv.1 kv.2).2) ixEmptyTree
    [(10, ⟨1, 0⟩), (20, ⟨1, 1⟩), (30, ⟨1, 2⟩), (40, ⟨1, 3⟩), (50, ⟨1, 4⟩)]

/-- The claimed end state of the split scenario: original leaf `[10,20]`,
new leaf `[30,40,50]`, root separators `[10,30]`, `last_leaf` on the new
leaf, and a consistent `prev_leaf`/`next_leaf` cycle through the
sentinel page. -/
def ixScenarioProp : Prop :=
  ixScenario.root_page = 4 ∧
  (getIxNode ixScenario 4).is_leaf = false ∧
  (getIxNode ixScenario 4).keys = [10, 30] ∧
  (getIxNode ixScenario 4).rids = [⟨2, 0⟩, ⟨3, 0⟩] ∧
  (getIxNode ixScenario 2).keys = [10, 20] ∧
  (getIxNode ixScenario 3).keys = [30, 40, 50] ∧
  (getIxNode ixScenario 2).parent = 4 ∧
  (getIxNode ixScenario 3).parent = 4 ∧
  ixScenario.last_leaf = 3 ∧
  (getIxNode ixScenario 2).next_leaf = 3 ∧
  (getIxNode ixScenario 3).prev_leaf = 2 ∧
  (getIxNode ixScenario 2).prev_leaf = IX_LEAF_HEADER_PAGE ∧
  (getIxNode ixScenario 3).next_leaf = IX_LEAF_HEADER_PAGE ∧
  (getIxNode ixScenario IX_LEAF_HEADER_PAGE).prev_leaf = 3 ∧
  (getIxNode ixScenario IX_LEAF_HEADER_PAGE).next_leaf = 2

/-- The general behaviour of `split t p`: the new node gets page number
`num_pages`; keys `[0, len/2)` stay, keys `[len/2, len)` move; the
separator (first key of the new node) equals the key at `len/2`; a split
leaf is spliced into the chain and `last_leaf` follows the old node;
a split internal node re-parents every moved child. -/
def splitSpecStmt (t : IxTree) (p : Int) : Prop :=
  (split t p).2 = (t.num_pages : Int) ∧
  (getIxNode (split t p).1 (t.num_pages : Int)).keys
    = (getIxNode t p).keys.drop ((getIxNode t p).keys.length / 2) ∧
  (getIxNode (split t p).1 p).keys
    = (getIxNode t p).keys.take ((getIxNode t p).keys.length / 2) ∧
  (getIxNode (split t p).1 (t.num_pages : Int)).keys.getD 0 0
    = (getIxNode t p).keys.getD ((getIxNode t p).keys.length / 2) 0 ∧
  ((getIxNode t p).is_leaf = true →
    (getIxNode (split t p).1 p).next_leaf = (t.num_pages : Int) ∧
    (getIxNode (split t p).1 (t.num_pages : Int)).prev_leaf = p ∧
    (getIxNode (split t p).1 (t.num_pages : Int)).next_leaf
      = (getIxNode t p).next_leaf ∧
    (t.last_leaf = p → (split t p).1.last_leaf = (t.num_pages : Int)) ∧
    (t.last_leaf ≠ p → (split t p).1.last_leaf = t.last_leaf)) ∧
  ((getIxNode t p).is_leaf = false →
    ∀ i, i < (getIxNode t p).keys.length
        - (getIxNode t p).keys.length / 2 →
      (getIxNode (split t p).1
        ((((getIxNode t p).rids.drop
          ((getIxNode t p).keys.length / 2)).getD i ⟨-1, -1⟩)).page_no).parent
        = (t.num_pages : Int))

/-- A one-leaf tree whose root leaf is at capacity (4 keys), about to be
split. -/
def ixWitnessTree : IxTree :=
  { root_page := 2, last_leaf := 2, num_pages := 3, btree_order := 4,
    nodes := [(1, { is_leaf := true, parent := IX_NO_PAGE, keys := [],
                    rids := [], prev_leaf := 2, next_leaf := 2 }),
              (2, { is_leaf := true, parent := IX_NO_PAGE,
                    keys := [10, 20, 30, 40],
                    rids := [⟨1, 0⟩, ⟨1, 1⟩, ⟨1, 2⟩, ⟨1, 3⟩],
                    prev_leaf := 1, next_leaf := 1 })] }

/-- **C4**: `split` divides a full node at position `floor(max/2)`: keys at
positions `[0, max/2)` stay in the old node, the rest move to a new node
(whose page number `split` returns), and the separator pushed to the parent
is the first key of the new node; a split leaf is spliced into the doubly
linked leaf chain with `last_leaf` updated exactly when the old node was
the last leaf, and a split internal node has every moved child re-parented.
Concretely, with leaf capacity 4, inserting `10,20,30,40,50` in order
yields the original leaf `[10,20]`, a new leaf `[30,40,50]`, a root with
separators `[10,30]`, `last_leaf` on the new leaf, and a consistent
`prev_leaf`/`next_leaf` chain through the sentinel. -/
theorem split_at_half_matches_spec (t : IxTree) (p : Int)
    (hp : p ≠ (t.num_pages : Int))
    (hlen : (getIxNode t p).rids.length = (getIxNode t p).keys.length)
    (hnl : (getIxNode t p).is_leaf = true →
      (getIxNode t p).next_leaf ≠ p ∧
      (getIxNode t p).next_leaf ≠ (t.num_pages : Int))
    (hch : (getIxNode t p).is_leaf = false →
      ∀ r ∈ (getIxNode t p).rids,
        r.page_no ≠ p ∧ r.page_no ≠ (t.num_pages : Int)) :
    splitSpecStmt t p ∧ ixScenarioProp := by
  constructor
  · unfold splitSpecStmt
    exact split_spec t p hp hlen hnl hch
  · unfold ixScenarioProp
    decide

/-- Witness for C4: the hypotheses hold for the full root leaf of
`ixWitnessTree`, and the theorem applies there. -/
theorem split_at_half_matches_spec_witness :
    (((2 : Int) ≠ (ixWitnessTree.num_pages : Int)) ∧
     (getIxNode ixWitnessTree 2).rids.length
        = (getIxNode ixWitnessTree 2).keys.length ∧
     ((getIxNode ixWitnessTree 2).is_leaf = true →
       (getIxNode ixWitnessTree 2).next_leaf ≠ 2 ∧
       (getIxNode ixWitnessTree 2).next_leaf
         ≠ (ixWitnessTree.num_pages : Int)) ∧
     ((getIxNode ixWitnessTree 2).is_leaf = false →
       ∀ r ∈ (getIxNode ixWitnessTree 2).rids,
         r.page_no ≠ 2 ∧ r.page_no ≠ (ixWitnessTree.num_pages : Int))) ∧
    (splitSpecStmt ixWitnessTree 2 ∧ ixScenarioProp) :=
  ⟨⟨by decide, by decide, by decide, by decide⟩,
   split_at_half_matches_spec ixWitnessTree 2 (by decide) (by decide)
     (by decide) (by decide)⟩

/-! ### C8: duplicate insert / missing delete -/

/-- A tree with a root leaf holding keys `[10, 20]`. -/
def ixDupTree : IxTree :=
  { root_page := 2, last_leaf := 2, num_pages := 3, btree_order := 4,
    nodes := [(1, { is_leaf := true, parent := IX_NO_PAGE, keys := [],
                    rids := [], prev_leaf := 2, next_leaf := 2 }),
              (2, { is_leaf := true, parent := IX_NO_PAGE,
                    keys := [10, 20], rids := [⟨1, 0⟩, ⟨1, 1⟩],
                    prev_leaf := 1, next_leaf := 1 })] }

/-- Counterexample to C8's "distinguishable from a successful insert":
inserting the duplicate key 10 is a no-op returning page 2, but the
successful insert of 25 returns the very same value 2 while changing the
tree, so the caller cannot tell the two outcomes apart from the return
value.  (The missing-key delete no-op part of the claim does hold.) -/
theorem duplicate_insert_not_distinguishable :
    insert_entry ixDupTree 10 ⟨9, 9⟩ = (2, ixDupTree) ∧
    (insert_entry ixDupTree 25 ⟨9, 9⟩).1 = 2 ∧
    (insert_entry ixDupTree 25 ⟨9, 9⟩).2 ≠ ixDupTree ∧
    delete_entry ixDupTree 99 = (false, ixDupTree) := by decide

/-- **C8** (amended): inserting a key that is already present in its leaf
(an equal key sits at the `lower_bound` position, full-key comparison) is a
no-op that leaves the tree unchanged, and deleting an absent key is a no-op
returning `false`; neither raises an error at this layer.  But the value
`insert_entry` returns is the leaf page number on the duplicate path AND on
the success path alike, so the caller receives no duplicate-key indication
distinguishable from a successful insert. -/
theorem ix_noop_semantics (t : IxTree) (kd ka : Int) (v : Rid)
    (hdup : (getIxNode t (find_leaf_page t kd)).lower_bound kd
        < (getIxNode t (find_leaf_page t kd)).keys.length ∧
      (getIxNode t (find_leaf_page t kd)).keys.getD
        ((getIxNode t (find_leaf_page t kd)).lower_bound kd) 0 = kd)
    (habs : ¬((getIxNode t (find_leaf_page t ka)).lower_bound ka
        < (getIxNode t (find_leaf_page t ka)).keys.length ∧
      (getIxNode t (find_leaf_page t ka)).keys.getD
        ((getIxNode t (find_leaf_page t ka)).lower_bound ka) 0 = ka)) :
    insert_entry t kd v = (find_leaf_page t kd, t) ∧
    delete_entry t ka = (false, t) ∧
    ∀ key : Int, ∀ v2 : Rid,
      (insert_entry t key v2).1 = find_leaf_page t key := by
  have hins : (getIxNode t (find_leaf_page t kd)).insert kd v
      = (getIxNode t (find_leaf_page t kd),
         (getIxNode t (find_leaf_page t kd)).keys.length) := by
    unfold IxNode.insert
    rw [if_pos hdup]
  have hrm : (getIxNode t (find_leaf_page t ka)).remove ka
      = (getIxNode t (find_leaf_page t ka),
         (getIxNode t (find_leaf_page t ka)).keys.length) := by
    unfold IxNode.remove
    rw [if_neg habs]
  refine ⟨?_, ?_, ?_⟩
  · simp only [insert_entry]
    rw [hins]
    simp
  · simp only [delete_entry]
    rw [hrm]
    simp
  · intro key v2
    simp only [insert_entry]
    split_ifs <;> rfl

/-- Witness for C8: on `ixDupTree`, key 10 is a present duplicate and key 99
is absent, and the theorem applies there. -/
theorem ix_noop_semantics_witness :
    ((getIxNode ixDupTree (find_leaf_page ixDupTree 10)).lower_bound 10
        < (getIxNode ixDupTree (find_leaf_page ixDupTree 10)).keys.length ∧
      (getIxNode ixDupTree (find_leaf_page ixDupTree 10)).keys.getD
        ((getIxNode ixDupTree (find_leaf_page ixDupTree 10)).lower_bound 10)
        0 = 10) ∧
    (¬((getIxNode ixDupTree (find_leaf_page ixDupTree 99)).lower_bound 99
        < (getIxNode ixDupTree (find_leaf_page ixDupTree 99)).keys.length ∧
      (getIxNode ixDupTree (find_leaf_page ixDupTree 99)).keys.getD
        ((getIxNode ixDupTree (find_leaf_page ixDupTree 99)).lower_bound 99)
        0 = 99)) ∧
    (insert_entry ixDupTree 10 ⟨9, 9⟩
        = (find_leaf_page ixDupTree 10, ixDupTree) ∧
      delete_entry ixDupTree 99 = (false, ixDupTree) ∧
      ∀ key : Int, ∀ v2 : Rid,
        (insert_entry ixDupTree key v2).1 = find_leaf_page ixDupTree key) :=
  ⟨by decide, by decide,
   ix_noop_semantics ixDupTree 10 99 ⟨9, 9⟩ (by decide) (by decide)⟩

/-! ### C1: abort after DML -/

/-- `WType` of a `WriteRecord` (named `WriteType` here; `WType` is taken by
Mathlib). -/
inductive WriteType where
  | INSERT_TUPLE
  | DELETE_TUPLE
  | UPDATE_TUPLE
  deriving DecidableEq, Repr

/-- One undo entry of a transaction's write set (`WriteRecord`): operation
kind, the rid, and (for DELETE/UPDATE) the pre-image payload. -/
structure WriteRecord where
  wtype : WriteType
  rid : Rid
  record : RmRec
  deriving DecidableEq, Repr

/-- A one-table database with one single-column integer index: the heap
file, the B+tree, and the transaction's write set. -/
structure DbState where
  heap : RmFile
  index : IxTree
  write_set : List WriteRecord
  deriving DecidableEq, Repr

/-- `InsertExecutor::Next` on one row (single int column, which is also the
indexed column): heap `insert_record`, append the `INSERT_TUPLE` undo entry
(rid only), then `insert_entry` of the key into the index. -/
def insert_exec (db : DbState) (rec : RmRec) : DbState :=
  let rf := insert_record db.heap rec
  { heap := rf.2
    write_set := db.write_set ++ [⟨.INSERT_TUPLE, rf.1, []⟩]
    index := (insert_entry db.index (rec.getD 0 0) rf.1).2 }

/-- One undo step of `TransactionManager::abort`: INSERT is undone by
`delete_record`, DELETE by `insert_record(rid, data)`, UPDATE by
`update_record` — all on the heap file only. -/
def undoStep (f : RmFile) (w : WriteRecord) : RmFile :=
  match w.wtype with
  | .INSERT_TUPLE => (delete_record_heap f w.rid).2
  | .DELETE_TUPLE => (insert_record_at f w.rid w.record).2
  | .UPDATE_TUPLE => (update_record_heap f w.rid w.record).2

/-- `TransactionManager::abort`: replay the write set in LIFO order against
the heap file and clear it.  No index handle is ever touched. -/
def abortTxn (db : DbState) : DbState :=
  { heap := db.write_set.reverse.foldl undoStep db.heap
    index := db.index
    write_set := [] }

/-- The pre-`begin` database: an empty heap page and an empty index. -/
def dbDemo0 : DbState :=
  { heap :=
      { file_hdr :=
          { record_size := 1, num_records_per_page := 2, num_pages := 2,
            first_free_page_no := 1 }
        pages := [{ num_records := 0, next_free_page_no := RM_NO_PAGE,
                    bitmap := [false, false], slots := [[], []] }] }
    index :=
      { root_page := 2, last_leaf := 2, num_pages := 3, btree_order := 4,
        nodes := [(1, { is_leaf := true, parent := IX_NO_PAGE, keys := [],
                        rids := [], prev_leaf := 2, next_leaf := 2 }),
                  (2, { is_leaf := true, parent := IX_NO_PAGE, keys := [],
                        rids := [], prev_leaf := 1, next_leaf := 1 })] }
    write_set := [] }

/-- **C1**: refuted — `begin; insert one row with key 10; abort` does NOT
restore the database: `TransactionManager::abort` undoes the heap write
(the record is gone again, rid `(1,0)` reads as `RECORD_NOT_FOUND`), but it
never issues any index operation, so the B+tree still contains the aborted
key 10 and differs from its pre-`begin` contents; the heap page is not
byte-equal either, since `delete_record` clears only the bitmap bit and
`num_records`, leaving the aborted payload bytes in the slot. -/
theorem abort_leaves_index_and_slot_bytes :
    get_value dbDemo0.index 10 = false ∧
    get_value (abortTxn (insert_exec dbDemo0 [10])).index 10 = true ∧
    (abortTxn (insert_exec dbDemo0 [10])).index ≠ dbDemo0.index ∧
    get_record_heap (abortTxn (insert_exec dbDemo0 [10])).heap ⟨1, 0⟩
      = .error .RECORD_NOT_FOUND ∧
    (abortTxn (insert_exec dbDemo0 [10])).heap ≠ dbDemo0.heap ∧
    (abortTxn (insert_exec dbDemo0 [10])).write_set = dbDemo0.write_set :=
  ⟨by decide, by decide, by decide, by rfl, by decide, by rfl⟩
